import Mathlib

/-!
# Edge orientation coefficient matrices (Intrepid2 `OrientationTools`)

A shallow embedding of `Impl::OrientationTools::getEdgeCoeffMatrix_HGRAD`
(`Intrepid2_OrientationToolsDefCoeffMatrix.hpp`) and of the collaborators it calls.

* `value_type` is a template parameter of the source; it is instantiated here with the
  rationals, so every statement about `getEdgeCoeffMatrix_HGRAD` is a statement in exact
  arithmetic.
* A floating `value_type` is modelled where the solver is concerned: `roundDouble` rounds
  a rational to a `double`, `Lapack.GESVWith` is the elimination with every result
  rounded, and `getEdgeCoeffMatrix_HGRAD_with` is the function with the solver as a
  parameter.
* Kokkos views of rank two are records of their two extents and their entries.
* A C++ exception is a value of `Failure`; the function returns the final contents of the
  caller's `output` view together with the outcome of the call.
-/

namespace Intrepid2

/-! ## Views -/

/-- A rank-two view (`Kokkos::DynRankView` / `Kokkos::View<value_type**>`): the extents and
the entry at `(i, j)`.  Entries outside the extents carry no meaning. -/
structure View2 where
  /-- Number of rows, `dimension(0)`. -/
  extent0 : Nat
  /-- Number of columns, `dimension(1)`. -/
  extent1 : Nat
  /-- Entry `(i, j)`. -/
  val : Nat → Nat → ℚ

namespace View2

/-- A freshly allocated view: Kokkos zero-initialises the allocation. -/
def zeros (m n : Nat) : View2 := ⟨m, n, fun _ _ => 0⟩

/-- The entries of a view after a callee has written the contents `f` into it; a callee
cannot change the extents of the caller's view. -/
def fill (v : View2) (f : Nat → Nat → ℚ) : View2 := ⟨v.extent0, v.extent1, f⟩

/-- Row `j` of a view of points: the coordinates of the `j`-th point. -/
def row (v : View2) (j : Nat) : List ℚ := (List.range v.extent1).map (v.val j)

/-- The leading `n × n` block of a view as a matrix. -/
def block (n : Nat) (v : View2) : Matrix (Fin n) (Fin n) ℚ := fun i j => v.val i.val j.val

/-- The view of extents `n × n` holding a matrix (zero outside the extents). -/
def ofMatrix (n : Nat) (X : Matrix (Fin n) (Fin n) ℚ) : View2 :=
  ⟨n, n, fun i j => if h : i < n ∧ j < n then X ⟨i, h.1⟩ ⟨j, h.2⟩ else 0⟩

/-- The statement `v(j, i) = x(j)` for all `j < n`, the body of the inner assembly loop. -/
def setColumn (n : Nat) (v : View2) (i : Nat) (x : Nat → ℚ) : View2 :=
  ⟨v.extent0, v.extent1, fun r c => if c = i ∧ r < n then x r else v.val r c⟩

end View2

/-! ## The dense solver -/

namespace Lapack

/-- Square rational matrices of order `n`. -/
abbrev Mat (n : Nat) := Matrix (Fin n) (Fin n) ℚ

/-- Pivot search in column `k`: the first row at or below the diagonal whose entry has the
largest absolute value. -/
def pivotRow {n : Nat} (A : Mat n) (k : Fin n) : Fin n :=
  (List.finRange n).foldl (fun p i => if k ≤ i ∧ |A p k| < |A i k| then i else p) k

/-- Interchange of rows `k` and `p`. -/
def swapRows {n : Nat} (k p : Fin n) (M : Mat n) : Mat n :=
  fun i j => if i = k then M p j else if i = p then M k j else M i j

/-- Multiplication of row `k` by `c`. -/
def scaleRow {n : Nat} (k : Fin n) (c : ℚ) (M : Mat n) : Mat n :=
  fun i j => if i = k then c * M k j else M i j

/-- Subtraction of `m i` times row `k` from every other row `i`. -/
def elimRows {n : Nat} (k : Fin n) (m : Fin n → ℚ) (M : Mat n) : Mat n :=
  fun i j => if i = k then M k j else M i j - m i * M k j

/-- The elimination loop on the pair `(A, B)`, columns `k, k+1, ...`, with `r` columns left.
The result is the LAPACK `info` code (`0`, or `k + 1` for the first column without a
non-zero pivot) and the transformed right-hand side. -/
def eliminate {n : Nat} : (r : Nat) → (k : Nat) → Mat n → Mat n → Int × Mat n
  | 0, _, _, B => (0, B)
  | r + 1, k, A, B =>
    if h : k < n then
      let kk : Fin n := ⟨k, h⟩
      let p := pivotRow A kk
      if A p kk = 0 then ((k : Int) + 1, B)
      else
        let A1 := swapRows kk p A
        let B1 := swapRows kk p B
        let c := (A1 kk kk)⁻¹
        let A2 := scaleRow kk c A1
        let B2 := scaleRow kk c B1
        let m : Fin n → ℚ := fun i => A2 i kk
        eliminate r (k + 1) (elimRows kk m A2) (elimRows kk m B2)
    else (0, B)

/-- Modelled from the spec: the dense linear solver (`Teuchos::LAPACK::GESV`, whose code
is not in the sources): a square general solve of `A · X = B` by elimination with row
pivoting, reporting singularity through a non-zero `info`.  `A` and `B` are the leading
`n × n` blocks of the column-major views handed over; the second component is `B`
overwritten with `X` when `info = 0` and `B` untouched otherwise. -/
def GESV (n : Nat) (A B : View2) : Int × View2 :=
  let r := eliminate n 0 (View2.block n A) (View2.block n B)
  if r.1 = 0 then (0, View2.ofMatrix n r.2) else (r.1, B)

/-- The pair `(A, B)` arises from `(A0, B0)` by an invertible row transformation. -/
def Reach {n : Nat} (A0 B0 A B : Mat n) : Prop :=
  ∃ M N : Mat n, N * M = 1 ∧ A = M * A0 ∧ B = M * B0

/-- Columns before `k` are columns of the identity. -/
def Reduced {n : Nat} (k : Nat) (A : Mat n) : Prop :=
  ∀ i j : Fin n, j.val < k → A i j = if i = j then 1 else 0

end Lapack

/-! ## Topologies, bases and the point collaborators -/

/-- The shapes of `shards::CellTopology` the orientation tools distinguish. -/
inductive TopologyKey
  | Line
  | Triangle
  | Quadrilateral
  | Other
  deriving DecidableEq, Repr

/-- The part of `shards::CellTopology` that is read: the key of the base shape and the
dimension. -/
structure CellTopology where
  /-- Value of `getBaseCellTopologyData()->key`. -/
  key : TopologyKey
  /-- Value of `getDimension()`. -/
  getDimension : Nat
  deriving DecidableEq, Repr

/-- The lattice kinds of `PointTools`. -/
inductive EPointType
  | POINTTYPE_EQUISPACED
  | POINTTYPE_WARPBLEND
  deriving DecidableEq, Repr

/-- A DOF tag: the four components `tag(0) .. tag(3)`. -/
structure DofTag where
  /-- Component 0: dimension of the sub-entity. -/
  subcDim : Nat
  /-- Component 1: id of the sub-entity. -/
  subcOrd : Nat
  /-- Component 2: index of the DOF on the sub-entity. -/
  dofOrd : Nat
  /-- Component 3: number of DOFs on the sub-entity. -/
  dofCount : Nat
  deriving DecidableEq, Repr

/-- The capability set of a basis that `getEdgeCoeffMatrix_HGRAD` uses.  The two lookups
answer `none` where the C++ lookup throws. -/
structure Basis where
  /-- Value of `getBaseCellTopology()`. -/
  getBaseCellTopology : CellTopology
  /-- Value of `getDegree()`. -/
  getDegree : Nat
  /-- Value of `getCardinality()`. -/
  getCardinality : Nat
  /-- Lookup `getDofOrdinal(subcDim, subcOrd, dofOrd)`. -/
  getDofOrdinal : Int → Int → Int → Option Nat
  /-- Lookup `getDofTag(ordinal)`. -/
  getDofTag : Int → Option DofTag
  /-- Value of basis function `i` at a point (`OPERATOR_VALUE`). -/
  value : Nat → List ℚ → ℚ

/-- The call `basis.getValues(outputValues, inputPoints, OPERATOR_VALUE)`: entry `(i, j)` of
the output is the value of function `i` at the `j`-th input point. -/
def Basis.getValues (basis : Basis) (outputValues inputPoints : View2) : View2 :=
  outputValues.fill (fun i j => basis.value i (inputPoints.row j))

/-- The collaborators `PointTools` and `CellTools`, which are not part of the file and are
taken as parameters.  Each filling routine receives the allocated output view and answers
the contents it writes, or `none` where it throws. -/
structure PointTools where
  /-- Value of `PointTools::getLatticeSize(topo, order, offset)`. -/
  getLatticeSize : CellTopology → Nat → Nat → Nat
  /-- The call `PointTools::getLattice(points, topo, order, offset, pointType)`. -/
  getLattice : View2 → CellTopology → Nat → Nat → EPointType → Option (Nat → Nat → ℚ)
  /-- The call `CellTools::mapToReferenceSubcell(refSubcellPoints, paramPoints, subcellDim,
  subcellOrd, parentCell)`. -/
  mapToReferenceSubcell : View2 → View2 → Nat → Int → CellTopology → Option (Nat → Nat → ℚ)

/-- Modelled from the spec: the orientation point mapper
`Impl::OrientationTools::mapToModifiedReference(outPoints, refPoints, cellTopo, cellOrt)`,
whose code is not in the sources.  For an edge, orientation 0 is the identity and
orientation 1 reverses the parametric direction (`t → −t`); an orientation code outside
the valid set is a fatal error (`none`).  The spec does not give the transforms of the face shapes,
which are not modelled. -/
def mapToModifiedReference (outPoints refPoints : View2) (cellTopo : CellTopology)
    (cellOrt : Int) : Option View2 :=
  match cellTopo.key with
  | TopologyKey.Line =>
    if cellOrt = 0 then some (outPoints.fill (fun pt d => refPoints.val pt d))
    else if cellOrt = 1 then some (outPoints.fill (fun pt d => - refPoints.val pt d))
    else none
  | _ => none

/-! ## The coefficient matrix of an edge -/

/-- The exceptions of `getEdgeCoeffMatrix_HGRAD`. -/
inductive Failure
  /-- A `std::logic_error` (or a subclass): a configuration error. -/
  | logic_error
  /-- The `std::runtime_error` carrying the LAPACK error code: a numerical failure. -/
  | runtime_error (info : Int)
  /-- The output view has no room for the sub-block `subview(output, range, range)`. -/
  | subview_bounds
  deriving DecidableEq, Repr

/-- A collaborator that throws raises a configuration error. -/
def orThrow {α : Type} : Option α → Except Failure α
  | some a => Except.ok a
  | none => Except.error Failure.logic_error

/-- The assembly loop over `i` (lines 137-145): for each `i` the two ordinals are looked up
and column `i` of both matrices is written. -/
def assemble (lineBasis cellBasis : Basis) (lineDim : Nat) (edgeId : Int) (ndofEdge : Nat)
    (refValues outValues : View2) : List Nat → View2 × View2 → Except Failure (View2 × View2)
  | [], mats => Except.ok mats
  | i :: rest, mats => do
    let iref ← orThrow (cellBasis.getDofOrdinal lineDim edgeId i)
    let iout ← orThrow (lineBasis.getDofOrdinal lineDim 0 i)
    assemble lineBasis cellBasis lineDim edgeId ndofEdge refValues outValues rest
      (View2.setColumn ndofEdge mats.1 i (fun j => refValues.val iref j),
       View2.setColumn ndofEdge mats.2 i (fun j => outValues.val iout j))

/-- The local data of a call at the point where the solver is entered. -/
structure EdgeWork where
  /-- The DOF count `ndofEdge`. -/
  ndofEdge : Nat
  /-- The lattice `refPtsLine`. -/
  refPtsLine : View2
  /-- The oriented points `ortPtsLine`. -/
  ortPtsLine : View2
  /-- The cell points `refPtsCell`. -/
  refPtsCell : View2
  /-- The cell-basis values `refValues`. -/
  refValues : View2
  /-- The line-basis values `outValues`. -/
  outValues : View2
  /-- The collocation matrix `refMat`. -/
  refMat : View2
  /-- The collocation matrix `ortMat`. -/
  ortMat : View2

/-- Lines 79-145 of `getEdgeCoeffMatrix_HGRAD`: everything up to the solve.  `debug` is the
build flag `HAVE_INTREPID2_DEBUG`. -/
def edgeCoeffAssemble (tools : PointTools) (debug : Bool) (lineBasis cellBasis : Basis)
    (edgeId edgeOrt : Int) : Except Failure EdgeWork := do
  let cellTopo := cellBasis.getBaseCellTopology
  let lineTopo := lineBasis.getBaseCellTopology
  let cellDim := cellTopo.getDimension
  let lineDim := lineTopo.getDimension
  let degree := cellBasis.getDegree
  let numCellBasis := cellBasis.getCardinality
  let numLineBasis := lineBasis.getCardinality
  let ordEdge ← orThrow (cellBasis.getDofOrdinal lineDim edgeId 0)
  let ndofEdge := (← orThrow (cellBasis.getDofTag ordEdge)).dofCount
  if debug && !(ndofEdge == tools.getLatticeSize lineTopo degree 1) then
    throw Failure.logic_error
  let refPtsLine0 := View2.zeros ndofEdge lineDim
  let refPtsLine := refPtsLine0.fill (← orThrow
    (tools.getLattice refPtsLine0 lineTopo degree 1 EPointType.POINTTYPE_EQUISPACED))
  let ortPtsLine ← orThrow
    (mapToModifiedReference (View2.zeros ndofEdge lineDim) refPtsLine lineTopo edgeOrt)
  let refPtsCell0 := View2.zeros ndofEdge cellDim
  let refPtsCell := refPtsCell0.fill (← orThrow
    (tools.mapToReferenceSubcell refPtsCell0 refPtsLine lineDim edgeId cellTopo))
  let refValues := cellBasis.getValues (View2.zeros numCellBasis ndofEdge) refPtsCell
  let outValues := lineBasis.getValues (View2.zeros numLineBasis ndofEdge) ortPtsLine
  let mats ← assemble lineBasis cellBasis lineDim edgeId ndofEdge refValues outValues
    (List.range ndofEdge) (View2.zeros ndofEdge ndofEdge, View2.zeros ndofEdge ndofEdge)
  pure ⟨ndofEdge, refPtsLine, ortPtsLine, refPtsCell, refValues, outValues, mats.1, mats.2⟩

/-- Lines 147-167: the solve and the test of `info`. -/
def edgeCoeffSolve (w : EdgeWork) : Except Failure View2 :=
  let r := Lapack.GESV w.ndofEdge w.refMat w.ortMat
  if r.1 ≠ 0 then Except.error (Failure.runtime_error r.1) else Except.ok r.2

/-- Lines 169-173: `deep_copy(subview(output, range, range), ortMat)` with
`range = (0, ndofEdge)`. -/
def copyToSubview (output : View2) (ndofEdge : Nat) (ortMat : View2) : Except Failure View2 :=
  if ndofEdge ≤ output.extent0 ∧ ndofEdge ≤ output.extent1 then
    Except.ok (output.fill
      (fun r c => if r < ndofEdge ∧ c < ndofEdge then ortMat.val r c else output.val r c))
  else Except.error Failure.subview_bounds

/-- The function `Impl::OrientationTools::getEdgeCoeffMatrix_HGRAD(output, lineBasis,
cellBasis, edgeId, edgeOrt)`: the outcome of the call and the contents of `output` when
the call is left. -/
def getEdgeCoeffMatrix_HGRAD (tools : PointTools) (debug : Bool) (output : View2)
    (lineBasis cellBasis : Basis) (edgeId edgeOrt : Int) : Except Failure Unit × View2 :=
  match edgeCoeffAssemble tools debug lineBasis cellBasis edgeId edgeOrt with
  | Except.error e => (Except.error e, output)
  | Except.ok w =>
    match edgeCoeffSolve w with
    | Except.error e => (Except.error e, output)
    | Except.ok ortMat =>
      match copyToSubview output w.ndofEdge ortMat with
      | Except.error e => (Except.error e, output)
      | Except.ok out => (Except.ok (), out)

/-- The entries the assembly loop leaves in a matrix: column `c` holds the values of the
function with the `c`-th ordinal, for the columns in `l`. -/
def assembled (n : Nat) (l : List Nat) (ordinal : Nat → Option Nat) (values init : View2) :
    Nat → Nat → ℚ :=
  fun r c => if c ∈ l ∧ r < n then values.val ((ordinal c).getD 0) r else init.val r c

/-- The relation between the inputs of a call and the local data with which the solver is
entered: every lookup and collaborator call of lines 79-145 has succeeded, with these
results. -/
structure Assembles (tools : PointTools) (debug : Bool) (lineBasis cellBasis : Basis)
    (edgeId edgeOrt : Int) (w : EdgeWork) : Prop where
  /-- The DOF count is component 3 of the tag of the first DOF of the edge. -/
  ndof : ∃ ordEdge tag,
    cellBasis.getDofOrdinal lineBasis.getBaseCellTopology.getDimension edgeId 0 = some ordEdge ∧
    cellBasis.getDofTag ordEdge = some tag ∧ w.ndofEdge = tag.dofCount
  /-- The debug build has checked the DOF count against the lattice size. -/
  size : debug = true → w.ndofEdge =
    tools.getLatticeSize lineBasis.getBaseCellTopology cellBasis.getDegree 1
  /-- The lattice. -/
  lattice : ∃ pts,
    tools.getLattice (View2.zeros w.ndofEdge lineBasis.getBaseCellTopology.getDimension)
      lineBasis.getBaseCellTopology cellBasis.getDegree 1 EPointType.POINTTYPE_EQUISPACED
      = some pts ∧
    w.refPtsLine = (View2.zeros w.ndofEdge lineBasis.getBaseCellTopology.getDimension).fill pts
  /-- The oriented points. -/
  oriented : mapToModifiedReference
    (View2.zeros w.ndofEdge lineBasis.getBaseCellTopology.getDimension) w.refPtsLine
    lineBasis.getBaseCellTopology edgeOrt = some w.ortPtsLine
  /-- The lattice mapped to the cell. -/
  subcell : ∃ pts,
    tools.mapToReferenceSubcell
      (View2.zeros w.ndofEdge cellBasis.getBaseCellTopology.getDimension) w.refPtsLine
      lineBasis.getBaseCellTopology.getDimension edgeId cellBasis.getBaseCellTopology
      = some pts ∧
    w.refPtsCell = (View2.zeros w.ndofEdge cellBasis.getBaseCellTopology.getDimension).fill pts
  /-- The values of the cell basis. -/
  refValues : w.refValues =
    cellBasis.getValues (View2.zeros cellBasis.getCardinality w.ndofEdge) w.refPtsCell
  /-- The values of the line basis. -/
  outValues : w.outValues =
    lineBasis.getValues (View2.zeros lineBasis.getCardinality w.ndofEdge) w.ortPtsLine
  /-- The two collocation matrices. -/
  mats : assemble lineBasis cellBasis lineBasis.getBaseCellTopology.getDimension edgeId
    w.ndofEdge w.refValues w.outValues (List.range w.ndofEdge)
    (View2.zeros w.ndofEdge w.ndofEdge, View2.zeros w.ndofEdge w.ndofEdge)
    = Except.ok (w.refMat, w.ortMat)

/-- The ordinal of the `i`-th DOF of edge `edgeId` in the cell basis (`iref`). -/
def cellOrdinal (lineBasis cellBasis : Basis) (edgeId : Int) (i : Nat) : Nat :=
  (cellBasis.getDofOrdinal lineBasis.getBaseCellTopology.getDimension edgeId i).getD 0

/-- The ordinal of the `i`-th interior DOF of the line basis (`iout`). -/
def lineOrdinal (lineBasis : Basis) (i : Nat) : Nat :=
  (lineBasis.getDofOrdinal lineBasis.getBaseCellTopology.getDimension 0 i).getD 0

/-- A well-formed call on the edge `edgeId`, with `n` DOFs, lattice `L` and cell points
`P`: the line basis lives on the reference line, the cell basis reports `n` DOFs on the
edge, the collaborators produce `L` and `P`, and both bases have the DOFs `0 .. n-1`. -/
structure EdgeSetup (tools : PointTools) (lineBasis cellBasis : Basis) (edgeId : Int)
    (n : Nat) (L P : View2) : Prop where
  /-- The line basis is defined on the reference line. -/
  line : lineBasis.getBaseCellTopology = ⟨TopologyKey.Line, 1⟩
  /-- The cell basis reports `n` DOFs on the edge. -/
  ndof : ∃ ordEdge tag,
    cellBasis.getDofOrdinal lineBasis.getBaseCellTopology.getDimension edgeId 0 = some ordEdge ∧
    cellBasis.getDofTag ordEdge = some tag ∧ n = tag.dofCount
  /-- The lattice generator produces `L`. -/
  lattice : ∃ pts,
    tools.getLattice (View2.zeros n lineBasis.getBaseCellTopology.getDimension)
      lineBasis.getBaseCellTopology cellBasis.getDegree 1 EPointType.POINTTYPE_EQUISPACED
      = some pts ∧
    L = (View2.zeros n lineBasis.getBaseCellTopology.getDimension).fill pts
  /-- The sub-entity embedding produces `P`. -/
  subcell : ∃ pts,
    tools.mapToReferenceSubcell (View2.zeros n cellBasis.getBaseCellTopology.getDimension) L
      lineBasis.getBaseCellTopology.getDimension edgeId cellBasis.getBaseCellTopology
      = some pts ∧
    P = (View2.zeros n cellBasis.getBaseCellTopology.getDimension).fill pts
  /-- Both bases have DOFs `0 .. n-1` on the edge. -/
  dofs : ∀ i, i < n →
    (cellBasis.getDofOrdinal lineBasis.getBaseCellTopology.getDimension edgeId i).isSome ∧
    (lineBasis.getDofOrdinal lineBasis.getBaseCellTopology.getDimension 0 i).isSome

/-- A consistent pairing of a line basis and a cell basis on the edge `edgeId`: the call
is well-formed, the bases have the same degree, the DOF count is the lattice size, the
trace on the edge of the `i`-th edge function of the cell basis agrees on the lattice with
the `i`-th interior function of the line basis, and these functions are unisolvent on the
lattice (the collocation matrix is regular). -/
structure ConsistentPairing (tools : PointTools) (lineBasis cellBasis : Basis) (edgeId : Int)
    (n : Nat) (L P : View2) : Prop where
  /-- The call is well-formed. -/
  setup : EdgeSetup tools lineBasis cellBasis edgeId n L P
  /-- The degrees match. -/
  degree : lineBasis.getDegree = cellBasis.getDegree
  /-- The lattice has `n` points. -/
  size : n = tools.getLatticeSize lineBasis.getBaseCellTopology cellBasis.getDegree 1
  /-- The traces agree on the lattice. -/
  trace : ∀ i j, i < n → j < n →
    cellBasis.value (cellOrdinal lineBasis cellBasis edgeId i) (P.row j)
      = lineBasis.value (lineOrdinal lineBasis i) (L.row j)
  /-- The collocation matrix is regular. -/
  unisolvent : Matrix.det (fun j i : Fin n =>
    lineBasis.value (lineOrdinal lineBasis i.val) (L.row j.val)) ≠ 0

/-- The oriented points of the lattice `L` for the two valid orientation codes. -/
def orientedPoints (n : Nat) (L : View2) (edgeOrt : Int) : View2 :=
  (View2.zeros n 1).fill (fun pt d => if edgeOrt = 0 then L.val pt d else - L.val pt d)

/-- The lattice is symmetric about the origin, as the equispaced lattice is: the negative
of every lattice point is a lattice point. -/
def SymmetricLattice (n : Nat) (L : View2) : Prop :=
  ∀ j, j < n → ∃ m, m < n ∧ L.val m 0 = - L.val j 0

/-- The contents of `output` after the matrix `X` has been copied to its leading `n × n`
block. -/
def withBlock (output : View2) (n : Nat) (X : Nat → Nat → ℚ) : View2 :=
  output.fill (fun r c => if r < n ∧ c < n then X r c else output.val r c)

/-! ## The reference collaborators and the `Cn` bases -/

/-- The `i`-th of the `order + 1` equispaced points of `[-1, 1]`. -/
def equispacedPoint (order i : Nat) : ℚ := -1 + 2 * (i : ℚ) / (order : ℚ)

/-- Modelled from the spec: the lattice generator `PointTools` and the sub-entity embedding
`CellTools::mapToReferenceSubcell`, whose code is not in the sources.  The lattice of the
line at degree `order` with offset `offset` is the deterministic equispaced point set
`-1 + 2 i / order`, `offset ≤ i ≤ order - offset`; the generator throws when the view
cannot hold it.  The embedding maps the parameter `t` of edge `k` of the quadrilateral
`(-1,-1), (1,-1), (1,1), (-1,1)` to the point between vertex `k` and vertex `k + 1`. -/
def referenceTools : PointTools where
  getLatticeSize topo order offset :=
    match topo.key with
    | TopologyKey.Line => order + 1 - 2 * offset
    | _ => 0
  getLattice points topo order offset pointType :=
    match topo.key, pointType with
    | TopologyKey.Line, EPointType.POINTTYPE_EQUISPACED =>
      if order + 1 - 2 * offset ≤ points.extent0 then
        some (fun i d =>
          if i < order + 1 - 2 * offset then equispacedPoint order (i + offset)
          else points.val i d)
      else none
    | _, _ => none
  mapToReferenceSubcell _ paramPoints subcellDim subcellOrd parentCell :=
    match parentCell.key with
    | TopologyKey.Quadrilateral =>
      if subcellDim = 1 then
        if subcellOrd = 0 then some (fun j d => if d = 0 then paramPoints.val j 0 else -1)
        else if subcellOrd = 1 then some (fun j d => if d = 0 then 1 else paramPoints.val j 0)
        else if subcellOrd = 2 then
          some (fun j d => if d = 0 then - paramPoints.val j 0 else 1)
        else if subcellOrd = 3 then
          some (fun j d => if d = 0 then -1 else - paramPoints.val j 0)
        else none
      else none
    | _ => none

/-- The Lagrange polynomial of the node `a` among the `d + 1` equispaced nodes. -/
def lagrange (d a : Nat) (t : ℚ) : ℚ :=
  ((List.range (d + 1)).map (fun m =>
    if m = a then 1
    else (t - equispacedPoint d m) / (equispacedPoint d a - equispacedPoint d m))).prod

/-- Modelled from the spec: the H(grad) line basis of degree `d`
(`Basis_HGRAD_LINE_Cn_FEM`, whose code is not in the sources): the nodal basis of the
equispaced nodes in increasing order, the two end functions tagged to the vertices and
the `d - 1` others to the interior of the line. -/
def lineBasisCn (d : Nat) : Basis where
  getBaseCellTopology := ⟨TopologyKey.Line, 1⟩
  getDegree := d
  getCardinality := d + 1
  getDofOrdinal subcDim subcOrd dofOrd :=
    if subcDim = 0 ∧ dofOrd = 0 then
      if subcOrd = 0 then some 0 else if subcOrd = 1 then some d else none
    else if subcDim = 1 ∧ subcOrd = 0 ∧ 0 ≤ dofOrd ∧ dofOrd + 1 < d then
      some (dofOrd.toNat + 1)
    else none
  getDofTag ordinal :=
    if ordinal = 0 then some ⟨0, 0, 0, 1⟩
    else if ordinal = d then some ⟨0, 1, 0, 1⟩
    else if 0 < ordinal ∧ ordinal < d then some ⟨1, 0, ordinal.toNat - 1, d - 1⟩
    else none
  value a pt := lagrange d a (pt.getD 0 0)

/-- The tag of the tensor-product function with node `a` in `x` and node `b` in `y`. -/
def quadTag (d a b : Nat) : DofTag :=
  if (a = 0 ∨ a = d) ∧ (b = 0 ∨ b = d) then
    ⟨0, if b = 0 then (if a = 0 then 0 else 1) else (if a = 0 then 3 else 2), 0, 1⟩
  else if b = 0 ∨ b = d then ⟨1, if b = 0 then 0 else 2, a - 1, d - 1⟩
  else if a = 0 ∨ a = d then ⟨1, if a = 0 then 3 else 1, b - 1, d - 1⟩
  else ⟨2, 0, (a - 1) + (d - 1) * (b - 1), (d - 1) * (d - 1)⟩

/-- Modelled from the spec: the H(grad) quadrilateral basis of degree `d`
(`Basis_HGRAD_QUAD_Cn_FEM`, of which only the unit test is in the sources): the tensor
product of the line basis with itself, function `a + (d + 1) b` being nodal at node `a` in
`x` and node `b` in `y` (the ordering of the value table of the test at degree 2), tagged
to the vertices, edges and interior of the quadrilateral; the lookups throw outside their
range (exceptions 1-5 of the test). -/
def quadBasisCn (d : Nat) : Basis where
  getBaseCellTopology := ⟨TopologyKey.Quadrilateral, 2⟩
  getDegree := d
  getCardinality := (d + 1) * (d + 1)
  getDofOrdinal subcDim subcOrd dofOrd :=
    if subcDim = 0 ∧ dofOrd = 0 then
      if subcOrd = 0 then some 0
      else if subcOrd = 1 then some d
      else if subcOrd = 2 then some (d + (d + 1) * d)
      else if subcOrd = 3 then some ((d + 1) * d)
      else none
    else if subcDim = 1 ∧ 0 ≤ dofOrd ∧ dofOrd + 1 < d then
      if subcOrd = 0 then some (dofOrd.toNat + 1)
      else if subcOrd = 1 then some (d + (d + 1) * (dofOrd.toNat + 1))
      else if subcOrd = 2 then some (dofOrd.toNat + 1 + (d + 1) * d)
      else if subcOrd = 3 then some ((d + 1) * (dofOrd.toNat + 1))
      else none
    else if subcDim = 2 ∧ subcOrd = 0 ∧ 0 ≤ dofOrd ∧ dofOrd < (d - 1) * (d - 1) then
      some (dofOrd.toNat % (d - 1) + 1 + (d + 1) * (dofOrd.toNat / (d - 1) + 1))
    else none
  getDofTag ordinal :=
    if 0 ≤ ordinal ∧ ordinal < (d + 1) * (d + 1) then
      some (quadTag d (ordinal.toNat % (d + 1)) (ordinal.toNat / (d + 1)))
    else none
  value f pt := lagrange d (f % (d + 1)) (pt.getD 0 0) * lagrange d (f / (d + 1)) (pt.getD 1 0)

/-- The lattice of the edge at degree `d`: the `d - 1` interior equispaced points. -/
def edgeLattice (d : Nat) : View2 :=
  (View2.zeros (d - 1) 1).fill
    (fun i _ => if i < d + 1 - 2 * 1 then equispacedPoint d (i + 1) else 0)

/-- The lattice of the edge at degree `d` on edge 0 of the quadrilateral. -/
def edgeCellPoints (d : Nat) : View2 :=
  (View2.zeros (d - 1) 2).fill (fun j c => if c = 0 then (edgeLattice d).val j 0 else -1)

/-- A cell basis that misreports its degree: the quadrilateral basis of degree 2, with one
DOF on each edge, answering 1 to `getDegree`. -/
def misreportingBasis : Basis := { quadBasisCn 2 with getDegree := 1 }

/-- A degenerate cell basis: the tags of the quadrilateral basis of degree 2 with functions
that vanish identically. -/
def degenerateBasis : Basis := { quadBasisCn 2 with value := fun _ _ => 0 }

/-- The lattice the generator leaves for the misreporting basis: one point, never written. -/
def staleLattice : View2 := (View2.zeros 1 1).fill (fun _ _ => 0)

/-- The point of `staleLattice` on edge 0 of the quadrilateral. -/
def staleCellPoints : View2 :=
  (View2.zeros 1 2).fill (fun j c => if c = 0 then staleLattice.val j 0 else -1)


/-! ## Further inputs of the edge function -/

/-- The table `leftOrt` of `getTriangleCoeffMatrix_HGRAD` (line 195). -/
def triangleLeftOrt : List Nat := [0, 2, 1, 3, 5, 4]

/-- The table `leftOrt` of `getQuadrilateralCoeffMatrix_HGRAD` (line 302). -/
def quadrilateralLeftOrt : List Nat := [0, 3, 2, 1, 4, 7, 6, 5]

/-- Lines 194-196 of `getTriangleCoeffMatrix_HGRAD`: the orientation code handed to the
point mapper.  `getNodeMap` is the node lookup of the cell topology; reading the table
outside its six entries has no defined value (`none`). -/
def triangleFaceOrt (getNodeMap : Nat → Int → Nat → Nat) (faceId : Int) (faceOrt : Nat) :
    Option Nat :=
  let leftHanded := decide (getNodeMap 2 faceId 1 > getNodeMap 2 faceId 2)
  if leftHanded then triangleLeftOrt[faceOrt]? else some faceOrt

/-- Lines 301-303 of `getQuadrilateralCoeffMatrix_HGRAD`: the orientation code handed to
the point mapper. -/
def quadrilateralFaceOrt (getNodeMap : Nat → Int → Nat → Nat) (faceId : Int) (faceOrt : Nat) :
    Option Nat :=
  let leftHanded := decide (getNodeMap 2 faceId 1 > getNodeMap 2 faceId 3)
  if leftHanded then quadrilateralLeftOrt[faceOrt]? else some faceOrt

/-! ## The DOF tables of the quadrilateral basis -/

/-- Modelled from the spec: `getAllDofTags()` of a basis, whose code is not in the sources:
the table whose row `b` is the tag `getDofTag(b)` of the basis function `b`. -/
def Basis.getAllDofTags (basis : Basis) : List DofTag :=
  (List.range basis.getCardinality).filterMap (fun b : Nat => basis.getDofTag (b : Int))

/-- The number of sub-entities of the quadrilateral of a dimension: four vertices, four
edges, one interior. -/
def quadSubcellCount (subcDim : Int) : Int :=
  if subcDim = 0 then 4 else if subcDim = 1 then 4 else if subcDim = 2 then 1 else 0

/-- The number of DOFs of the degree-`d` quadrilateral basis on a sub-entity of a
dimension. -/
def quadDofCount (d : Nat) (subcDim : Int) : Int :=
  if subcDim = 0 then 1
  else if subcDim = 1 then ((d - 1 : Nat) : Int)
  else if subcDim = 2 then (((d - 1) * (d - 1) : Nat) : Int)
  else 0

/-! ## Derivative operators of the quadrilateral basis and the reference tables of the test -/

/-- A rank-three view (`Kokkos::DynRankView` in (F,P,D) format). -/
structure View3 where
  /-- Number of fields, `dimension(0)`. -/
  extent0 : Nat
  /-- Number of points, `dimension(1)`. -/
  extent1 : Nat
  /-- Number of components, `dimension(2)`. -/
  extent2 : Nat
  /-- Entry `(i, j, k)`. -/
  val : Nat → Nat → Nat → ℚ

/-- The entries of a rank-three view after a callee has written the contents `f`. -/
def View3.fill (v : View3) (f : Nat → Nat → Nat → ℚ) : View3 :=
  ⟨v.extent0, v.extent1, v.extent2, f⟩

/-- A freshly allocated rank-three view. -/
def View3.zeros (m n k : Nat) : View3 := ⟨m, n, k, fun _ _ _ => 0⟩

/-- The operators of `getValues` that the unit test exercises. -/
inductive EOperator
  | OPERATOR_VALUE
  | OPERATOR_GRAD
  | OPERATOR_CURL
  | OPERATOR_DIV
  | OPERATOR_D1
  | OPERATOR_D2
  | OPERATOR_D3
  | OPERATOR_D4
  deriving DecidableEq, Repr

/-- The derivative of the Lagrange polynomial of the node `a`: the sum over the other nodes
`m` of the product in which the factor of `m` is replaced by its derivative. -/
def lagrangeDeriv (d a : Nat) (t : ℚ) : ℚ :=
  ((List.range (d + 1)).map (fun m =>
    if m = a then 0
    else 1 / (equispacedPoint d a - equispacedPoint d m) *
      ((List.range (d + 1)).map (fun k =>
        if k = a ∨ k = m then 1
        else (t - equispacedPoint d k) / (equispacedPoint d a - equispacedPoint d k))).prod)).sum

/-- The derivative of order `k ≤ 1` of the line function `a` at `t`. -/
def lineDk (d a k : Nat) (t : ℚ) : ℚ :=
  if k = 0 then lagrange d a t else lagrangeDeriv d a t

/-- The mixed derivative of the quadrilateral function `f`, of order `kx` in `x` and `ky` in
`y`: the product of the derivatives of its two line factors. -/
def quadDk (d f kx ky : Nat) (pt : List ℚ) : ℚ :=
  lineDk d (f % (d + 1)) kx (pt.getD 0 0) * lineDk d (f / (d + 1)) ky (pt.getD 1 0)

/-- Modelled from the spec: `getValues(outputValues, inputPoints, operatorType)` of the
quadrilateral basis for the operators with output in (F,P,D) format, whose code is not in
the sources.  `OPERATOR_GRAD` and `OPERATOR_D1` write the `x`- and the `y`-derivative;
`OPERATOR_CURL` writes `(u_y, -u_x)`, evaluated from the line factors on its own; the other
operators are not modelled (`none`).  The model reproduces the reference tables of the
unit test. -/
def quadGetValuesD (d : Nat) (outputValues : View3) (inputPoints : View2)
    (operatorType : EOperator) : Option View3 :=
  match operatorType with
  | EOperator.OPERATOR_GRAD =>
    some (outputValues.fill (fun i j l =>
      if l = 0 then quadDk d i 1 0 (inputPoints.row j) else quadDk d i 0 1 (inputPoints.row j)))
  | EOperator.OPERATOR_D1 =>
    some (outputValues.fill (fun i j l =>
      if l = 0 then quadDk d i 1 0 (inputPoints.row j) else quadDk d i 0 1 (inputPoints.row j)))
  | EOperator.OPERATOR_CURL =>
    some (outputValues.fill (fun i j l =>
      (if l = 0 then 1 else -1) *
        lineDk d (i % (d + 1)) (if l = 0 then 0 else 1) ((inputPoints.row j).getD 0 0) *
        lineDk d (i / (d + 1)) (if l = 0 then 1 else 0) ((inputPoints.row j).getD 1 0)))
  | _ => none

/-- The ten evaluation points `quadNodes` of TEST 3 (lines 505-516): the vertices, the edge
midpoints, the centre and the point `(1/3, -3/5)`. -/
def quadNodes : View2 :=
  ⟨10, 2, fun j c =>
    ([[-1, -1], [1, -1], [1, 1], [-1, 1], [0, -1], [1, 0], [0, 1], [-1, 0], [0, 0],
      [1 / 3, -3 / 5]] : List (List ℚ)).getD j [] |>.getD c 0⟩

/-- The table `basisValues` of the unit test (lines 308-317): the reference values at
degree 2, in (F,P) format. -/
def basisValues : List ℚ :=
  [1, 0, 0, 0, 0, 0, 0, 0, 0, -0.05333333333333334,
   0, 0, 0, 0, 1, 0, 0, 0, 0, 0.4266666666666667,
   0, 1, 0, 0, 0, 0, 0, 0, 0, 0.1066666666666667,
   0, 0, 0, 0, 0, 0, 0, 1, 0, -0.07111111111111112,
   0, 0, 0, 0, 0, 0, 0, 0, 1, 0.5688888888888890,
   0, 0, 0, 0, 0, 1, 0, 0, 0, 0.1422222222222222,
   0, 0, 0, 1, 0, 0, 0, 0, 0, 0.01333333333333333,
   0, 0, 0, 0, 0, 0, 1, 0, 0, -0.1066666666666667,
   0, 0, 1, 0, 0, 0, 0, 0, 0, -0.02666666666666666]

/-- The table `basisGrads` of the unit test (lines 323-352): the reference gradients at
degree 2, in (F,P,D) format. -/
def basisGrads : List ℚ :=
  [-1.500000000000000, -1.500000000000000, 0.5000000000000000, 0, 0,
   0, 0, 0.5000000000000000, -0.5000000000000000, 0,
   0, 0, 0, 0, 0,
   -0.5000000000000000, 0, 0, -0.08000000000000002, 0.1222222222222222,
   2.000000000000000, 0, -2.000000000000000, 0, 0,
   0, 0, 0, 0, -1.500000000000000,
   0, 0, 0, 0.5000000000000000, 0,
   0, 0, -0.5000000000000000, -0.3199999999999999, -0.9777777777777779,
   -0.5000000000000000, 0, 1.500000000000000, -1.500000000000000, 0,
   0.5000000000000000, 0, 0, 0.5000000000000000, 0,
   0, -0.5000000000000000, 0, 0, 0,
   0, 0, 0, 0.3999999999999999, -0.2444444444444444,
   0, 2.0, 0, 0, 0,
   0, 0, -2.000000000000000, 0, 0,
   0.5000000000000000, 0, 0, 0, -1.50,
   0, -0.50, 0, -0.1066666666666667, -0.1333333333333333,
   0, 0, 0, 0, 0,
   0, 0, 0, 0, 2.0,
   -2.00, 0, 0, -2.0, 2.0,
   0, 0, 0, -0.4266666666666667, 1.066666666666667,
   0, 0, 0, 2.000000000000000, 0,
   -2.000000000000000, 0, 0, 0, 0,
   1.5, 0, 0, 0, -0.5,
   0, 0.5000000000000000, 0, 0.5333333333333334, 0.2666666666666666,
   0, -0.5000000000000000, 0, 0, 0.5000000000000000,
   0, -1.500000000000000, 1.500000000000000, 0, 0,
   0, 0, -0.5000000000000000, 0, 0,
   0.5000000000000000, 0, 0, 0.02000000000000000, 0.01111111111111112,
   0, 0, 0, 0, -2.0,
   0, 2.0, 0, 0, -0.50,
   0, 0, 0, 1.5, 0,
   0, 0, 0.5000000000000000, 0.07999999999999997, -0.08888888888888888,
   0, 0, 0, -0.5000000000000000, 1.500000000000000,
   1.500000000000000, -0.5000000000000000, 0, 0, 0,
   0, 0.5000000000000000, 0.5000000000000000, 0, 0,
   0, 0, 0, -0.09999999999999998, -0.02222222222222221]

/-- The check of `OPERATOR_VALUE` in TEST 3 (lines 536-551): the number of entries of `vals`
that differ from the reference table by more than `tol`. -/
def valueErrors (vals : View2) (numFields numPoints : Nat) (tol : ℚ) : Nat :=
  ((List.range numFields).map (fun i =>
    ((List.range numPoints).filter (fun j =>
      decide (|vals.val i j - basisValues.getD (j + i * numPoints) 0| > tol))).length)).sum

/-- The check of `OPERATOR_GRAD` in TEST 3 (lines 556-579): the number of entries of `vals`
that differ from the reference table by more than `tol`. -/
def gradErrors (vals : View3) (numFields numPoints spaceDim : Nat) (tol : ℚ) : Nat :=
  ((List.range numFields).map (fun i =>
    ((List.range numPoints).map (fun j =>
      ((List.range spaceDim).filter (fun k =>
        decide (|vals.val i j k
          - basisGrads.getD (k + j * spaceDim + i * spaceDim * numPoints) 0| > tol))).length
      )).sum)).sum

/-- The check of `OPERATOR_CURL` in TEST 3 (lines 608-643): the reference curl is the
rotated reference gradient, `curl_value_0 = basisGrads[curl_0]` and
`curl_value_1 = -basisGrads[curl_1]`. -/
def curlErrors (vals : View3) (numFields numPoints spaceDim : Nat) (tol : ℚ) : Nat :=
  ((List.range numFields).map (fun i =>
    ((List.range numPoints).map (fun j =>
      (if |vals.val i j 0
          - basisGrads.getD (1 + j * spaceDim + i * spaceDim * numPoints) 0| > tol
        then 1 else 0) +
      (if |vals.val i j 1
          - (- basisGrads.getD (0 + j * spaceDim + i * spaceDim * numPoints) 0)| > tol
        then 1 else 0))).sum)).sum

/-! ## A line basis with an unsymmetric collocation matrix -/

/-- A line basis of degree 3 with the tags of `lineBasisCn 3` and the monomials `t ^ a` as
functions: its values on the lattice `-1/3, 1/3` form a matrix that is not symmetric. -/
def monomialLineBasis : Basis :=
  { lineBasisCn 3 with value := fun a pt => (pt.getD 0 0) ^ a }


/-! ## Pairings that are consistent along or against the direction of an edge -/

/-- A consistent pairing of a line basis and a cell basis on the edge `edgeId`, the cell
basis numbering its edge functions in the direction `c` of the edge: the call is well-formed,
the bases have the same degree, the DOF count is the lattice size, the trace on the edge of
the `i`-th edge function of the cell basis, taken along the reference direction of the edge
(`c = 0`) or against it (`c = 1`), agrees on the lattice with the `i`-th interior function
of the line basis, and these functions are unisolvent on the lattice.  For `c = 0` this is
`ConsistentPairing`. -/
structure DirectedPairing (tools : PointTools) (lineBasis cellBasis : Basis) (edgeId : Int)
    (n : Nat) (L P : View2) (c : Int) : Prop where
  /-- The call is well-formed. -/
  setup : EdgeSetup tools lineBasis cellBasis edgeId n L P
  /-- The degrees match. -/
  degree : lineBasis.getDegree = cellBasis.getDegree
  /-- The lattice has `n` points. -/
  size : n = tools.getLatticeSize lineBasis.getBaseCellTopology cellBasis.getDegree 1
  /-- The direction is one of the two directions of an edge. -/
  direction : c = 0 ∨ c = 1
  /-- The traces agree on the lattice, taken in the direction `c`. -/
  trace : ∀ i j, i < n → j < n →
    cellBasis.value (cellOrdinal lineBasis cellBasis edgeId i) (P.row j)
      = lineBasis.value (lineOrdinal lineBasis i) [if c = 0 then L.val j 0 else - L.val j 0]
  /-- The collocation matrix is regular. -/
  unisolvent : Matrix.det (fun j i : Fin n =>
    lineBasis.value (lineOrdinal lineBasis i.val)
      [if c = 0 then L.val j.val 0 else - L.val j.val 0]) ≠ 0

/-- The lattice of the edge at degree `d` on the edge `edgeId` of the quadrilateral, as
`referenceTools` embeds it. -/
def edgeCellPointsOn (d : Nat) (edgeId : Int) : View2 :=
  (View2.zeros (d - 1) 2).fill (fun j c =>
    if edgeId = 0 then (if c = 0 then (edgeLattice d).val j 0 else -1)
    else if edgeId = 1 then (if c = 0 then 1 else (edgeLattice d).val j 0)
    else if edgeId = 2 then (if c = 0 then - (edgeLattice d).val j 0 else 1)
    else (if c = 0 then -1 else - (edgeLattice d).val j 0))

/-- The direction in which `quadBasisCn` numbers the functions of an edge of the
quadrilateral: along the edge on the edges 0 and 1, against it on the edges 2 and 3. -/
def quadEdgeDirection (edgeId : Int) : Int := if edgeId = 0 ∨ edgeId = 1 then 0 else 1

/-! ## The solver on a floating `value_type` -/

/-- The integer nearest to `a / b` for a positive `b`, the even one of the two nearest
when `a / b` lies half-way between them. -/
def roundHalfEven (a b : Nat) : Nat :=
  if 2 * (a % b) < b then a / b
  else if b < 2 * (a % b) then a / b + 1
  else if (a / b) % 2 = 0 then a / b else a / b + 1

/-- The number of halvings that bring `n` below 2, at most `fuel` of them. -/
def halvings : (fuel : Nat) → Nat → Nat
  | 0, _ => 0
  | fuel + 1, n => if n < 2 then 0 else halvings fuel (n / 2) + 1

/-- The binary exponent of a positive integer: `2 ^ binaryExponent n ≤ n < 2 ^ (binaryExponent n + 1)`. -/
def binaryExponent (n : Nat) : Nat := halvings n n

/-- The value of a real number as a `double` (IEEE 754 binary64): the nearest number with
a significand of 53 bits, the one with an even significand when two are nearest.  With `e`
the exponent of `x`, `2 ^ e ≤ |x| < 2 ^ (e + 1)`, the significand `|x| / 2 ^ (e - 52)` is
rounded to an integer.  The range of the exponent is not modelled (no overflow, no
subnormal numbers). -/
def roundDouble (x : ℚ) : ℚ :=
  if x = 0 then 0
  else
    let a := x.num.natAbs
    let b := x.den
    let e0 : Int := (binaryExponent a : Int) - (binaryExponent b : Int)
    let e : Int := if b * 2 ^ e0.toNat ≤ a * 2 ^ (-e0).toNat then e0 else e0 - 1
    let s : Int := e - 52
    let m := roundHalfEven (a * 2 ^ (-s).toNat) (b * 2 ^ s.toNat)
    (if x < 0 then -1 else 1) * mkRat ((m * 2 ^ s.toNat : Nat) : Int) (2 ^ (-s).toNat)

namespace Lapack

/-- Multiplication of row `k` by `c`, every product rounded by `fl`. -/
def scaleRowWith {n : Nat} (fl : ℚ → ℚ) (k : Fin n) (c : ℚ) (M : Mat n) : Mat n :=
  fun i j => if i = k then fl (c * M k j) else M i j

/-- Subtraction of `m i` times row `k` from every other row `i`, the product and the
difference rounded by `fl`. -/
def elimRowsWith {n : Nat} (fl : ℚ → ℚ) (k : Fin n) (m : Fin n → ℚ) (M : Mat n) : Mat n :=
  fun i j => if i = k then M k j else fl (M i j - fl (m i * M k j))

/-- The elimination loop of `eliminate` in the arithmetic of a floating `value_type`:
the result of every operation (the reciprocal of the pivot, the products and the
differences) is rounded by `fl`.  The test of the pivot is the test of LAPACK: only a
pivot that is exactly zero ends the elimination with a non-zero `info`. -/
def eliminateWith {n : Nat} (fl : ℚ → ℚ) : (r : Nat) → (k : Nat) → Mat n → Mat n → Int × Mat n
  | 0, _, _, B => (0, B)
  | r + 1, k, A, B =>
    if h : k < n then
      let kk : Fin n := ⟨k, h⟩
      let p := pivotRow A kk
      if A p kk = 0 then ((k : Int) + 1, B)
      else
        let A1 := swapRows kk p A
        let B1 := swapRows kk p B
        let c := fl (A1 kk kk)⁻¹
        let A2 := scaleRowWith fl kk c A1
        let B2 := scaleRowWith fl kk c B1
        let m : Fin n → ℚ := fun i => A2 i kk
        eliminateWith fl r (k + 1) (elimRowsWith fl kk m A2) (elimRowsWith fl kk m B2)
    else (0, B)

/-- Modelled from the spec: the dense linear solver (`Teuchos::LAPACK::GESV`, whose code
is not in the sources) on a floating `value_type` whose operations round by `fl`: the
elimination of `GESV` with every result rounded.  With `fl` the identity it is `GESV`;
with `fl = roundDouble` it is the solver on `double`. -/
def GESVWith (fl : ℚ → ℚ) (n : Nat) (A B : View2) : Int × View2 :=
  let r := eliminateWith fl n 0 (View2.block n A) (View2.block n B)
  if r.1 = 0 then (0, View2.ofMatrix n r.2) else (r.1, B)

end Lapack

/-- Lines 147-167 with the solver as a parameter: the solve and the test of `info`. -/
def edgeCoeffSolveWith (solver : Nat → View2 → View2 → Int × View2) (w : EdgeWork) :
    Except Failure View2 :=
  let r := solver w.ndofEdge w.refMat w.ortMat
  if r.1 ≠ 0 then Except.error (Failure.runtime_error r.1) else Except.ok r.2

/-- The function `getEdgeCoeffMatrix_HGRAD` with the dense solver `lapack.GESV` as a
parameter; `getEdgeCoeffMatrix_HGRAD` is the instance with the exact solver
`Lapack.GESV`. -/
def getEdgeCoeffMatrix_HGRAD_with (solver : Nat → View2 → View2 → Int × View2)
    (tools : PointTools) (debug : Bool) (output : View2)
    (lineBasis cellBasis : Basis) (edgeId edgeOrt : Int) : Except Failure Unit × View2 :=
  match edgeCoeffAssemble tools debug lineBasis cellBasis edgeId edgeOrt with
  | Except.error e => (Except.error e, output)
  | Except.ok w =>
    match edgeCoeffSolveWith solver w with
    | Except.error e => (Except.error e, output)
    | Except.ok ortMat =>
      match copyToSubview output w.ndofEdge ortMat with
      | Except.error e => (Except.error e, output)
      | Except.ok out => (Except.ok (), out)

/-- A degenerate cell basis with a collocation matrix of rank one: the tags of the
quadrilateral basis of degree 3 with functions that all take the value `1` left of the
axis `x = 0` and `49` on and right of it.  On edge 0 the two lattice points lie on either
side, so the collocation matrix `Ref` has the rows `(1, 1)` and `(49, 49)`. -/
def twinBasis : Basis :=
  { quadBasisCn 3 with value := fun _ pt => if pt.getD 0 0 < 0 then 1 else 49 }

end Intrepid2

namespace Zoltan2

/-! ## The test input `UserInputForTests`

The class of `UserInputForTests.hpp` holds a Tpetra matrix `M_`, created on first use from
a gallery or from a MatrixMarket file, with an Xpetra wrapper `xM_` and, in the
specialization `UserInputForTests<double,int,int>`, Epetra copies `eG_` and `eM_`.  The
libraries are collaborators whose code is not in the sources: their objects are records of
what their methods answer, and their functions are parameters. -/

/-- A `Teuchos::RCP`: a reference that may be null (`none`). -/
abbrev RCP (α : Type) : Type := Option α

/-- What a `Tpetra::Map` answers. -/
structure TpetraMap where
  /-- The `getGlobalNumElements()`. -/
  getGlobalNumElements : Nat
  /-- The `getNodeNumElements()`. -/
  getNodeNumElements : Nat
  /-- The `getIndexBase()`. -/
  getIndexBase : Int
  /-- The `getNodeElementList()`: the global ids of the local elements. -/
  getNodeElementList : List Int
  /-- The `getGlobalElement(localIndex)`. -/
  getGlobalElement : Int → Int

/-- What a `Tpetra::CrsGraph` answers. -/
structure TpetraCrsGraph where
  /-- The `getRowMap()`. -/
  getRowMap : TpetraMap
  /-- The `getColMap()`. -/
  getColMap : TpetraMap
  /-- The `getLocalRowView(localRow, indices)`: the local column indices of a local row. -/
  getLocalRowView : Int → List Int

/-- What a `Tpetra::CrsMatrix` answers. -/
structure TpetraCrsMatrix where
  /-- The `getCrsGraph()`. -/
  getCrsGraph : TpetraCrsGraph
  /-- The `getRowMap()`. -/
  getRowMap : TpetraMap
  /-- The `getNumEntriesInLocalRow(localRow)`. -/
  getNumEntriesInLocalRow : Int → Nat
  /-- The `getNodeMaxNumRowEntries()`. -/
  getNodeMaxNumRowEntries : Nat
  /-- The `getLocalRowView(localRow, indices, values)`: the local column indices and the
  values of a local row. -/
  getLocalRowView : Int → List Int × List ℚ

/-- A vector or multivector created by a getter: its map and its number of columns; the
entries are random and are not part of the model. -/
structure TpetraMultiVector where
  /-- The map the vector was created on. -/
  getMap : TpetraMap
  /-- The number of columns. -/
  getNumVectors : Int

/-- The arguments of the constructor of an `Epetra_BlockMap`. -/
structure EpetraBlockMap where
  /-- The argument `NumGlobalElements`. -/
  NumGlobalElements : Int
  /-- The argument `NumMyElements`. -/
  NumMyElements : Int
  /-- The `NumMyElements` entries read from the argument `MyGlobalElements`. -/
  MyGlobalElements : List Int
  /-- The argument `ElementSize`. -/
  ElementSize : Int
  /-- The argument `IndexBase`. -/
  IndexBase : Int
  deriving DecidableEq, Repr

/-- What an `Epetra_CrsGraph` has received: the arguments of its constructor, the calls
`InsertGlobalIndices(row, numIndices, indices)` in order, and whether `FillComplete()` has
been called. -/
structure EpetraCrsGraph where
  /-- The row map given to the constructor. -/
  RowMap : EpetraBlockMap
  /-- The array `NumIndicesPerRow` given to the constructor. -/
  NumIndicesPerRow : List Int
  /-- The flag `StaticProfile` given to the constructor. -/
  StaticProfile : Bool
  /-- The calls of `InsertGlobalIndices`: global row, count, and the `count` indices read. -/
  inserted : List (Int × Int × List Int)
  /-- Whether `FillComplete()` has been called. -/
  filled : Bool
  deriving DecidableEq, Repr

/-- What an `Epetra_CrsMatrix` has received: the graph it was constructed on, the calls
`InsertGlobalValues(row, numEntries, values, indices)` in order, and whether
`FillComplete()` has been called. -/
structure EpetraCrsMatrix where
  /-- The graph given to the constructor. -/
  Graph : EpetraCrsGraph
  /-- The calls of `InsertGlobalValues`: global row, count, values and indices read. -/
  inserted : List (Int × Int × List ℚ × List Int)
  /-- Whether `FillComplete()` has been called. -/
  filled : Bool

/-- An Epetra vector or multivector created by a getter on the row map of a graph: the graph
and the number of columns; the entries are random and are not part of the model. -/
structure EpetraMultiVector where
  /-- The graph on whose `RowMap()` the vector was created. -/
  Graph : EpetraCrsGraph
  /-- The number of columns. -/
  NumVectors : Int

/-- The exceptions that leave a getter. -/
inductive TestFailure
  /-- A `std::logic_error`. -/
  | logic_error (what : String)
  /-- A `std::runtime_error`. -/
  | runtime_error (what : String)
  /-- A null `RCP` was dereferenced. -/
  | null_reference
  /-- An array was read or written outside its bounds. -/
  | range_error
  deriving DecidableEq, Repr

/-- The calls to the two sources of a matrix. -/
inductive Event
  /-- The call `Reader::readSparseFile(fname_, tcomm_, node_)`. -/
  | readSparseFile (fname : String)
  /-- The call `Gallery::CreateCrsMatrix` for the matrix type and the dimensions of the
  gallery parameters. -/
  | CreateCrsMatrix (matrixType : String) (xdim ydim zdim : Int)
  deriving DecidableEq, Repr

/-- The collaborators of `UserInputForTests`, none of which is in the sources.  `X`, `XG`
and `XV` are the types of the Xpetra matrix, graph and vector wrappers. -/
structure Collaborators (X XG XV : Type) where
  /-- The `Tpetra::MatrixMarket::Reader::readSparseFile`: a matrix, or the message of the
  exception thrown. -/
  readSparseFile : String → Except String (RCP TpetraCrsMatrix)
  /-- The `MueLu::Gallery::CreateCrsMatrix` on the parameters made from a matrix type and
  three dimensions: a matrix, or the message of the exception thrown. -/
  CreateCrsMatrix : String → Int → Int → Int → Except String (RCP TpetraCrsMatrix)
  /-- The statement `TEST_FAIL_AND_THROW(comm, ok, message)`: it throws or returns. -/
  TEST_FAIL_AND_THROW : Int → String → Except TestFailure Unit
  /-- The `XpetraTraits<tcrsMatrix_t>::convertToXpetra`. -/
  convertToXpetra : RCP TpetraCrsMatrix → Except TestFailure (RCP X)
  /-- The `getCrsGraph()` of the Xpetra matrix. -/
  getCrsGraph : X → RCP XG
  /-- The `XpetraTraits<tVector_t>::convertToXpetra` and its multivector sibling. -/
  convertVectorToXpetra : RCP TpetraMultiVector → Except TestFailure (RCP XV)
  /-- The `NumMyRows()` of an Epetra graph. -/
  NumMyRows : EpetraCrsGraph → Int
  /-- The `IndexBase()` of an Epetra graph. -/
  IndexBase : EpetraCrsGraph → Int
  /-- The `RowMap().GID(localIndex)` of an Epetra graph. -/
  RowMapGID : EpetraCrsGraph → Int → Int
  /-- The `ColMap().GID(localIndex)` of an Epetra graph. -/
  ColMapGID : EpetraCrsGraph → Int → Int

/-- The data members of a `UserInputForTests` object (the communicators and the node are
left out), with the history `calls` of the collaborator calls that created matrices; the
history is not a member of the class. -/
structure UserInputForTests (X : Type) where
  /-- The member `xdim_`. -/
  xdim_ : Int
  /-- The member `ydim_`. -/
  ydim_ : Int
  /-- The member `zdim_`. -/
  zdim_ : Int
  /-- The member `fname_`. -/
  fname_ : String
  /-- The member `M_`. -/
  M_ : RCP TpetraCrsMatrix
  /-- The member `xM_`. -/
  xM_ : RCP X
  /-- The member `eM_` of the specialization. -/
  eM_ : RCP EpetraCrsMatrix
  /-- The member `eG_` of the specialization. -/
  eG_ : RCP EpetraCrsGraph
  /-- The calls to the reader and to the gallery so far, oldest first. -/
  calls : List Event

namespace UserInputForTests

variable {X XG XV : Type}

/-- The constructor `UserInputForTests(std::string s, comm)` (lines 139-141, 306-313). -/
def ofFile (s : String) : UserInputForTests X :=
  { xdim_ := 0, ydim_ := 0, zdim_ := 0, fname_ := s, M_ := none, xM_ := none,
    eM_ := none, eG_ := none, calls := [] }

/-- The constructor `UserInputForTests(x, y, z, comm)` (lines 146-152, 318-325). -/
def ofDimensions (x y z : Int) : UserInputForTests X :=
  { xdim_ := x, ydim_ := y, zdim_ := z, fname_ := "", M_ := none, xM_ := none,
    eM_ := none, eG_ := none, calls := [] }

/-- The last two statements of `readMatrixMarketFile` and of `buildCrsMatrix` (lines 91-93,
114-116): `xM_` becomes the wrapper of `M_`, unless the conversion throws. -/
def wrapMatrix (env : Collaborators X XG XV) (s : UserInputForTests X) :
    Except TestFailure Unit × UserInputForTests X :=
  match env.convertToXpetra s.M_ with
  | Except.error e => (Except.error e, s)
  | Except.ok xm => (Except.ok (), { s with xM_ := xm })

/-- The function `readMatrixMarketFile()` (lines 83-95, 250-262): the outcome and the object
when the function is left.  An exception of the reader is caught and handed to
`TEST_FAIL_AND_THROW`; `M_` is assigned only when the reader returns. -/
def readMatrixMarketFile (env : Collaborators X XG XV) (s : UserInputForTests X) :
    Except TestFailure Unit × UserInputForTests X :=
  let s1 := { s with calls := s.calls ++ [Event.readSparseFile s.fname_] }
  match env.readSparseFile s.fname_ with
  | Except.ok m => wrapMatrix env { s1 with M_ := m }
  | Except.error what =>
    match env.TEST_FAIL_AND_THROW 1 what with
    | Except.error e => (Except.error e, s1)
    | Except.ok () => wrapMatrix env s1

/-- The function `buildCrsMatrix()` (lines 97-118, 264-285): the gallery parameters are made
from `xdim_`, `ydim_`, `zdim_` and the matrix type `"Laplace3D"`. -/
def buildCrsMatrix (env : Collaborators X XG XV) (s : UserInputForTests X) :
    Except TestFailure Unit × UserInputForTests X :=
  let s1 := { s with
    calls := s.calls ++ [Event.CreateCrsMatrix "Laplace3D" s.xdim_ s.ydim_ s.zdim_] }
  match env.CreateCrsMatrix "Laplace3D" s.xdim_ s.ydim_ s.zdim_ with
  | Except.ok m => wrapMatrix env { s1 with M_ := m }
  | Except.error what =>
    match env.TEST_FAIL_AND_THROW 1 what with
    | Except.error e => (Except.error e, s1)
    | Except.ok () => wrapMatrix env s1

/-- The function `createMatrix()` (lines 120-133, 287-300). -/
def createMatrix (env : Collaborators X XG XV) (s : UserInputForTests X) :
    Except TestFailure Unit × UserInputForTests X :=
  if s.M_.isNone then
    if s.xdim_ > 0 then buildCrsMatrix env s
    else if s.fname_.length > 0 then readMatrixMarketFile env s
    else (Except.error (TestFailure.logic_error "programming error"), s)
  else (Except.ok (), s)

/-- The statement `if (M_.is_null()) createMatrix();` that opens the Tpetra getters. -/
def ensureTpetra (env : Collaborators X XG XV) (s : UserInputForTests X) :
    Except TestFailure Unit × UserInputForTests X :=
  if s.M_.isNone then createMatrix env s else (Except.ok (), s)

/-- The statement `if (xM_.is_null()) createMatrix();` that opens the Xpetra getters. -/
def ensureXpetra (env : Collaborators X XG XV) (s : UserInputForTests X) :
    Except TestFailure Unit × UserInputForTests X :=
  if s.xM_.isNone then createMatrix env s else (Except.ok (), s)

/-- The getter `getTpetraCrsMatrix()` (lines 154-159, 328-333). -/
def getTpetraCrsMatrix (env : Collaborators X XG XV) (s : UserInputForTests X) :
    Except TestFailure (RCP TpetraCrsMatrix) × UserInputForTests X :=
  match ensureTpetra env s with
  | (Except.error e, s1) => (Except.error e, s1)
  | (Except.ok (), s1) => (Except.ok s1.M_, s1)

/-- The getter `getTpetraCrsGraph()` (lines 161-166, 335-340); `M_` is dereferenced. -/
def getTpetraCrsGraph (env : Collaborators X XG XV) (s : UserInputForTests X) :
    Except TestFailure (RCP TpetraCrsGraph) × UserInputForTests X :=
  match ensureTpetra env s with
  | (Except.error e, s1) => (Except.error e, s1)
  | (Except.ok (), s1) =>
    match s1.M_ with
    | none => (Except.error TestFailure.null_reference, s1)
    | some m => (Except.ok (some m.getCrsGraph), s1)

/-- The getter `getTpetraMultiVector(nvec)` (lines 178-186, 352-360). -/
def getTpetraMultiVector (env : Collaborators X XG XV) (nvec : Int)
    (s : UserInputForTests X) :
    Except TestFailure (RCP TpetraMultiVector) × UserInputForTests X :=
  match ensureTpetra env s with
  | (Except.error e, s1) => (Except.error e, s1)
  | (Except.ok (), s1) =>
    match s1.M_ with
    | none => (Except.error TestFailure.null_reference, s1)
    | some m => (Except.ok (some ⟨m.getRowMap, nvec⟩), s1)

/-- The getter `getTpetraVector()` (lines 168-176, 342-350): a vector of one column. -/
def getTpetraVector (env : Collaborators X XG XV) (s : UserInputForTests X) :
    Except TestFailure (RCP TpetraMultiVector) × UserInputForTests X :=
  match ensureTpetra env s with
  | (Except.error e, s1) => (Except.error e, s1)
  | (Except.ok (), s1) =>
    match s1.M_ with
    | none => (Except.error TestFailure.null_reference, s1)
    | some m => (Except.ok (some ⟨m.getRowMap, 1⟩), s1)

/-- The getter `getXpetraCrsMatrix()` (lines 188-193, 362-367). -/
def getXpetraCrsMatrix (env : Collaborators X XG XV) (s : UserInputForTests X) :
    Except TestFailure (RCP X) × UserInputForTests X :=
  match ensureXpetra env s with
  | (Except.error e, s1) => (Except.error e, s1)
  | (Except.ok (), s1) => (Except.ok s1.xM_, s1)

/-- The getter `getXpetraCrsGraph()` (lines 195-200, 369-374); `xM_` is dereferenced. -/
def getXpetraCrsGraph (env : Collaborators X XG XV) (s : UserInputForTests X) :
    Except TestFailure (RCP XG) × UserInputForTests X :=
  match ensureXpetra env s with
  | (Except.error e, s1) => (Except.error e, s1)
  | (Except.ok (), s1) =>
    match s1.xM_ with
    | none => (Except.error TestFailure.null_reference, s1)
    | some x => (Except.ok (env.getCrsGraph x), s1)

/-- The getter `getXpetraVector()` (lines 202-208, 376-382). -/
def getXpetraVector (env : Collaborators X XG XV) (s : UserInputForTests X) :
    Except TestFailure (RCP XV) × UserInputForTests X :=
  match getTpetraVector env s with
  | (Except.error e, s1) => (Except.error e, s1)
  | (Except.ok tV, s1) =>
    match env.convertVectorToXpetra tV with
    | Except.error e => (Except.error e, s1)
    | Except.ok xV => (Except.ok xV, s1)

/-- The getter `getXpetraMultiVector(nvec)` (lines 210-216, 384-390). -/
def getXpetraMultiVector (env : Collaborators X XG XV) (nvec : Int)
    (s : UserInputForTests X) : Except TestFailure (RCP XV) × UserInputForTests X :=
  match getTpetraMultiVector env nvec s with
  | (Except.error e, s1) => (Except.error e, s1)
  | (Except.ok tMV, s1) =>
    match env.convertVectorToXpetra tMV with
    | Except.error e => (Except.error e, s1)
    | Except.ok xMV => (Except.ok xMV, s1)

end UserInputForTests

end Zoltan2

namespace Zoltan2

/-! ## The Epetra copies of the specialization `UserInputForTests<double,int,int>` -/

/-- The conversion `static_cast<int>` of a `size_t`: the value modulo `2^32`, read as a
signed 32-bit integer. -/
def static_cast_int (n : Nat) : Int :=
  if n % 2 ^ 32 < 2 ^ 31 then ((n % 2 ^ 32 : Nat) : Int) else ((n % 2 ^ 32 : Nat) : Int) - 2 ^ 32

/-- An element of an array, or the failure of an access outside its bounds. -/
def orRange {α : Type} : Option α → Except TestFailure α
  | some a => Except.ok a
  | none => Except.error TestFailure.range_error

/-- The loop `for (j = 0; j < colLid.size(); j++) colGids[j] = GID(colLid[j]);` (lines
424-425, 452-454), entered at index `j` with the rest of `colLid`: the buffer afterwards,
or the failure of a write outside the buffer. -/
def translateColumns (GID : Int → Int) : List Int → Nat → List Int → Except TestFailure (List Int)
  | [], _, colGids => Except.ok colGids
  | lid :: rest, j, colGids =>
    if j < colGids.length then translateColumns GID rest (j + 1) (colGids.set j (GID lid))
    else Except.error TestFailure.range_error

/-- The loop of lines 410-413 of `getEpetraCrsGraph`: the array `rowSize`. -/
def rowSizes (M : TpetraCrsMatrix) (nMyElts base : Int) : List Int :=
  (List.range nMyElts.toNat).map
    (fun i : Nat => static_cast_int (M.getNumEntriesInLocalRow ((i : Int) + base)))

/-- The loop of lines 422-427 of `getEpetraCrsGraph` over the rows `i` of a list: the
outcome and the Epetra graph when the loop is left.  `InsertGlobalIndices` reads
`rowSize[i]` entries of the buffer `colGids`. -/
def insertGraphRows (tgraph : TpetraCrsGraph) (gids rowSize : List Int) (base : Int) :
    List Nat → List Int → EpetraCrsGraph → Except TestFailure Unit × EpetraCrsGraph
  | [], _, eG => (Except.ok (), eG)
  | i :: rest, colGids, eG =>
    match translateColumns tgraph.getColMap.getGlobalElement
      (tgraph.getLocalRowView ((i : Int) + base)) 0 colGids with
    | Except.error e => (Except.error e, eG)
    | Except.ok colGids1 =>
      match gids[i]?, rowSize[i]? with
      | some gid, some n =>
        if n.toNat ≤ colGids1.length then
          insertGraphRows tgraph gids rowSize base rest colGids1
            { eG with inserted := eG.inserted ++ [(gid, n, colGids1.take n.toNat)] }
        else (Except.error TestFailure.range_error, eG)
      | _, _ => (Except.error TestFailure.range_error, eG)

/-- Lines 398-428 of `getEpetraCrsGraph` for a matrix `M_`: the outcome and the value of
`eG_` when the block is left.  The row map reads `nMyElts` entries of `gids`. -/
def fillEpetraCrsGraph (M : TpetraCrsMatrix) : Except TestFailure Unit × RCP EpetraCrsGraph :=
  let tgraph := M.getCrsGraph
  let trowMap := tgraph.getRowMap
  let nElts := static_cast_int trowMap.getGlobalNumElements
  let nMyElts := static_cast_int trowMap.getNodeNumElements
  let base := trowMap.getIndexBase
  let gids := trowMap.getNodeElementList
  if nMyElts.toNat ≤ gids.length then
    let erowMap : EpetraBlockMap := ⟨nElts, nMyElts, gids.take nMyElts.toNat, 1, base⟩
    let rowSize := rowSizes M nMyElts base
    let maxRow := M.getNodeMaxNumRowEntries
    let colGids := List.replicate maxRow (0 : Int)
    match insertGraphRows tgraph gids rowSize base (List.range nMyElts.toNat) colGids
      ⟨erowMap, rowSize, true, [], false⟩ with
    | (Except.error e, eG) => (Except.error e, some eG)
    | (Except.ok (), eG) => (Except.ok (), some { eG with filled := true })
  else (Except.error TestFailure.range_error, none)

/-- The loop of lines 446-457 of `getEpetraCrsMatrix` over the rows `i` of a list: the
outcome and the Epetra matrix when the loop is left.  `InsertGlobalValues` reads
`rowSize = colLid.size()` entries of `nz` and of the buffer `colGid`. -/
def insertMatrixRows (M : TpetraCrsMatrix) (rowGID colGID : Int → Int) (base : Int) :
    List Nat → List Int → EpetraCrsMatrix → Except TestFailure Unit × EpetraCrsMatrix
  | [], _, eM => (Except.ok (), eM)
  | i :: rest, colGid, eM =>
    let colLid := (M.getLocalRowView ((i : Int) + base)).1
    let nz := (M.getLocalRowView ((i : Int) + base)).2
    let rowSize := colLid.length
    let rowGid := rowGID ((i : Int) + base)
    match translateColumns colGID colLid 0 colGid with
    | Except.error e => (Except.error e, eM)
    | Except.ok colGid1 =>
      if rowSize ≤ nz.length ∧ rowSize ≤ colGid1.length then
        insertMatrixRows M rowGID colGID base rest colGid1
          { eM with inserted := eM.inserted ++
              [(rowGid, (rowSize : Int), nz.take rowSize, colGid1.take rowSize)] }
      else (Except.error TestFailure.range_error, eM)

/-- The answers of a Tpetra matrix about its local rows `0 .. n-1` agree with each other:
the row map lists `n` global ids, the number of entries of a local row is the length of its
view in the graph, no row is longer than the maximum the matrix reports, and the counts fit
in an `int`. -/
structure Consistent (M : TpetraCrsMatrix) : Prop where
  /-- The number of local rows fits in an `int`. -/
  count : M.getCrsGraph.getRowMap.getNodeNumElements < 2 ^ 31
  /-- The row map lists one global id for each local row. -/
  gids : M.getCrsGraph.getRowMap.getNodeElementList.length
    = M.getCrsGraph.getRowMap.getNodeNumElements
  /-- The number of entries of a local row is the length of its view. -/
  entries : ∀ i : Nat, i < M.getCrsGraph.getRowMap.getNodeNumElements →
    M.getNumEntriesInLocalRow (i : Int) = (M.getCrsGraph.getLocalRowView (i : Int)).length
  /-- No local row is longer than the maximum. -/
  room : ∀ i : Nat, i < M.getCrsGraph.getRowMap.getNodeNumElements →
    (M.getCrsGraph.getLocalRowView (i : Int)).length ≤ M.getNodeMaxNumRowEntries
  /-- The maximum fits in an `int`. -/
  small : M.getNodeMaxNumRowEntries < 2 ^ 31

namespace UserInputForTests

variable {X XG XV : Type}

/-- The getter `getEpetraCrsGraph()` (lines 392-431). -/
def getEpetraCrsGraph (env : Collaborators X XG XV) (s : UserInputForTests X) :
    Except TestFailure (RCP EpetraCrsGraph) × UserInputForTests X :=
  if s.eG_.isNone then
    match ensureTpetra env s with
    | (Except.error e, s1) => (Except.error e, s1)
    | (Except.ok (), s1) =>
      match s1.M_ with
      | none => (Except.error TestFailure.null_reference, s1)
      | some M =>
        match fillEpetraCrsGraph M with
        | (Except.error e, eG) => (Except.error e, { s1 with eG_ := eG })
        | (Except.ok (), eG) => (Except.ok eG, { s1 with eG_ := eG })
  else (Except.ok s.eG_, s)

/-- The getter `getEpetraCrsMatrix()` (lines 433-461).  `eM_` is assigned before the rows
are inserted. -/
def getEpetraCrsMatrix (env : Collaborators X XG XV) (s : UserInputForTests X) :
    Except TestFailure (RCP EpetraCrsMatrix) × UserInputForTests X :=
  if s.eM_.isNone then
    match getEpetraCrsGraph env s with
    | (Except.error e, s1) => (Except.error e, s1)
    | (Except.ok none, s1) => (Except.error TestFailure.null_reference, s1)
    | (Except.ok (some egraph), s1) =>
      let eM0 : EpetraCrsMatrix := ⟨egraph, [], false⟩
      match s1.M_ with
      | none => (Except.error TestFailure.null_reference, { s1 with eM_ := some eM0 })
      | some M =>
        let maxRow := M.getNodeMaxNumRowEntries
        let nrows := env.NumMyRows egraph
        let base := env.IndexBase egraph
        match insertMatrixRows M (env.RowMapGID egraph) (env.ColMapGID egraph) base
          (List.range nrows.toNat) (List.replicate maxRow (0 : Int)) eM0 with
        | (Except.error e, eM) => (Except.error e, { s1 with eM_ := some eM })
        | (Except.ok (), eM) =>
          (Except.ok (some { eM with filled := true }),
            { s1 with eM_ := some { eM with filled := true } })
  else (Except.ok s.eM_, s)

/-- The getter `getEpetraMultiVector(nvec)` (lines 472-479); the graph is dereferenced. -/
def getEpetraMultiVector (env : Collaborators X XG XV) (nvec : Int)
    (s : UserInputForTests X) :
    Except TestFailure (RCP EpetraMultiVector) × UserInputForTests X :=
  match getEpetraCrsGraph env s with
  | (Except.error e, s1) => (Except.error e, s1)
  | (Except.ok none, s1) => (Except.error TestFailure.null_reference, s1)
  | (Except.ok (some egraph), s1) => (Except.ok (some ⟨egraph, nvec⟩), s1)

/-- The getter `getEpetraVector()` (lines 463-470): a vector of one column. -/
def getEpetraVector (env : Collaborators X XG XV) (s : UserInputForTests X) :
    Except TestFailure (RCP EpetraMultiVector) × UserInputForTests X :=
  match getEpetraCrsGraph env s with
  | (Except.error e, s1) => (Except.error e, s1)
  | (Except.ok none, s1) => (Except.error TestFailure.null_reference, s1)
  | (Except.ok (some egraph), s1) => (Except.ok (some ⟨egraph, 1⟩), s1)

/-- The public getters of the class. -/
inductive Getter
  /-- The getter `getTpetraCrsMatrix()`. -/
  | getTpetraCrsMatrix
  /-- The getter `getTpetraCrsGraph()`. -/
  | getTpetraCrsGraph
  /-- The getter `getTpetraVector()`. -/
  | getTpetraVector
  /-- The getter `getTpetraMultiVector(nvec)`. -/
  | getTpetraMultiVector (nvec : Int)
  /-- The getter `getXpetraCrsMatrix()`. -/
  | getXpetraCrsMatrix
  /-- The getter `getXpetraCrsGraph()`. -/
  | getXpetraCrsGraph
  /-- The getter `getXpetraVector()`. -/
  | getXpetraVector
  /-- The getter `getXpetraMultiVector(nvec)`. -/
  | getXpetraMultiVector (nvec : Int)
  /-- The getter `getEpetraCrsGraph()` of the specialization. -/
  | getEpetraCrsGraph
  /-- The getter `getEpetraCrsMatrix()` of the specialization. -/
  | getEpetraCrsMatrix
  /-- The getter `getEpetraVector()` of the specialization. -/
  | getEpetraVector
  /-- The getter `getEpetraMultiVector(nvec)` of the specialization. -/
  | getEpetraMultiVector (nvec : Int)
  deriving DecidableEq, Repr

/-- The outcome of an operation without the value returned. -/
def outcome {α : Type} (r : Except TestFailure α × UserInputForTests X) :
    Except TestFailure Unit × UserInputForTests X :=
  (match r.1 with
   | Except.error e => Except.error e
   | Except.ok _ => Except.ok (), r.2)

/-- A call of a public getter: whether it returns or throws, and the object afterwards. -/
def call (env : Collaborators X XG XV) (g : Getter) (s : UserInputForTests X) :
    Except TestFailure Unit × UserInputForTests X :=
  match g with
  | Getter.getTpetraCrsMatrix => outcome (getTpetraCrsMatrix env s)
  | Getter.getTpetraCrsGraph => outcome (getTpetraCrsGraph env s)
  | Getter.getTpetraVector => outcome (getTpetraVector env s)
  | Getter.getTpetraMultiVector nvec => outcome (getTpetraMultiVector env nvec s)
  | Getter.getXpetraCrsMatrix => outcome (getXpetraCrsMatrix env s)
  | Getter.getXpetraCrsGraph => outcome (getXpetraCrsGraph env s)
  | Getter.getXpetraVector => outcome (getXpetraVector env s)
  | Getter.getXpetraMultiVector nvec => outcome (getXpetraMultiVector env nvec s)
  | Getter.getEpetraCrsGraph => outcome (getEpetraCrsGraph env s)
  | Getter.getEpetraCrsMatrix => outcome (getEpetraCrsMatrix env s)
  | Getter.getEpetraVector => outcome (getEpetraVector env s)
  | Getter.getEpetraMultiVector nvec => outcome (getEpetraMultiVector env nvec s)

/-- The object after a sequence of getter calls, whatever their outcomes (an exception is
caught by the caller, who goes on using the object). -/
def run (env : Collaborators X XG XV) : List Getter → UserInputForTests X → UserInputForTests X
  | [], s => s
  | g :: rest, s => run env rest (call env g s).2

/-- The states of an object that its constructors and public getters can produce. -/
inductive Reachable (env : Collaborators X XG XV) : UserInputForTests X → Prop
  /-- The object made by the file-name constructor. -/
  | ofFile (fname : String) : Reachable env (ofFile fname)
  /-- The object made by the dimensions constructor. -/
  | ofDimensions (x y z : Int) : Reachable env (ofDimensions x y z)
  /-- The object after a call of a getter. -/
  | call (g : Getter) (s : UserInputForTests X) :
    Reachable env s → Reachable env (call env g s).2

/-- The collaborators keep the contracts their names announce: `TEST_FAIL_AND_THROW`
throws, and the reader and the gallery return a matrix when they return. -/
structure Dependable (env : Collaborators X XG XV) : Prop where
  /-- The statement `TEST_FAIL_AND_THROW(*tcomm_, 1, e.what())` throws. -/
  throws : ∀ what, ∃ e, env.TEST_FAIL_AND_THROW 1 what = Except.error e
  /-- The reader does not return a null matrix. -/
  read : ∀ fname, env.readSparseFile fname ≠ Except.ok none
  /-- The gallery does not return a null matrix. -/
  built : ∀ matrixType x y z, env.CreateCrsMatrix matrixType x y z ≠ Except.ok none

/-- The conversion to Xpetra of a matrix returns a wrapper and does not throw. -/
def Converts (env : Collaborators X XG XV) : Prop :=
  ∀ m, ∃ x, env.convertToXpetra (some m) = Except.ok (some x)

/-- The members that depend on `M_` are set only after it. -/
def Ordered (s : UserInputForTests X) : Prop :=
  (s.xM_ ≠ none → s.M_ ≠ none) ∧ (s.eG_ ≠ none → s.M_ ≠ none) ∧ (s.eM_ ≠ none → s.M_ ≠ none)

end UserInputForTests

end Zoltan2

namespace Zoltan2

/-! ## Sample matrices and collaborators -/

/-- A Tpetra map that owns the elements `gids` and numbers them locally from 0. -/
def sampleMap (gids : List Int) (base : Int) : TpetraMap :=
  ⟨gids.length, gids.length, base, gids, fun l => if 0 ≤ l then gids.getD l.toNat (-1) else -1⟩

/-- The matrix `[[2, -1], [-1, 2]]` on one process, index base 0. -/
def sampleMatrix : TpetraCrsMatrix where
  getCrsGraph :=
    ⟨sampleMap [0, 1] 0, sampleMap [0, 1] 0, fun r => if r = 0 ∨ r = 1 then [0, 1] else []⟩
  getRowMap := sampleMap [0, 1] 0
  getNumEntriesInLocalRow r := if r = 0 ∨ r = 1 then 2 else 0
  getNodeMaxNumRowEntries := 2
  getLocalRowView r :=
    if r = 0 then ([0, 1], [2, -1]) else if r = 1 then ([0, 1], [-1, 2]) else ([], [])

/-- The matrix `[[2, 0], [-1, 2]]` on one process with the global ids 1 and 2 and index
base 1: local row 0 has one entry and local row 1 has two. -/
def shiftedMatrix : TpetraCrsMatrix where
  getCrsGraph :=
    ⟨sampleMap [1, 2] 1, sampleMap [1, 2] 1,
      fun r => if r = 0 then [0] else if r = 1 then [0, 1] else []⟩
  getRowMap := sampleMap [1, 2] 1
  getNumEntriesInLocalRow r := if r = 0 then 1 else if r = 1 then 2 else 0
  getNodeMaxNumRowEntries := 2
  getLocalRowView r :=
    if r = 0 then ([0], [2]) else if r = 1 then ([0, 1], [-1, 2]) else ([], [])

/-- The rows 0 and 1 of a `4 × 4` matrix, owned by one process of two, index base 0: row 0
has the entries `2` in column 0 and `-1` in column 3, row 1 has `2` in column 1 and `-1` in
column 2.  The Tpetra column map lists the owned columns first and the others in increasing
order: `0, 1, 2, 3`. -/
def ghostMatrix : TpetraCrsMatrix where
  getCrsGraph :=
    ⟨sampleMap [0, 1] 0,
      ⟨4, 4, 0, [0, 1, 2, 3], fun l => if 0 ≤ l then [0, 1, 2, 3].getD l.toNat (-1) else -1⟩,
      fun r => if r = 0 then [0, 3] else if r = 1 then [1, 2] else []⟩
  getRowMap := sampleMap [0, 1] 0
  getNumEntriesInLocalRow r := if r = 0 ∨ r = 1 then 2 else 0
  getNodeMaxNumRowEntries := 2
  getLocalRowView r :=
    if r = 0 then ([0, 3], [2, -1]) else if r = 1 then ([1, 2], [2, -1]) else ([], [])

/-- The columns of an Epetra graph in the order of an Epetra column map that lists the
owned elements first and the others in the order in which they were first inserted. -/
def insertionOrder (eG : EpetraCrsGraph) : List Int :=
  (eG.RowMap.MyGlobalElements ++ (eG.inserted.map (fun r => r.2.2)).flatten).eraseDups

/-- Collaborators that succeed: the reader finds every file but `"missing.mtx"`, the
gallery builds, `TEST_FAIL_AND_THROW` throws a `std::runtime_error` with its message, the
conversions return wrappers, and the Epetra graph answers from the row map it was given
and from `insertionOrder`. -/
def sampleCollaborators : Collaborators Unit Unit Unit where
  readSparseFile fname :=
    if fname = "missing.mtx" then Except.error "cannot open file"
    else Except.ok (some sampleMatrix)
  CreateCrsMatrix _ _ _ _ := Except.ok (some sampleMatrix)
  TEST_FAIL_AND_THROW _ what := Except.error (TestFailure.runtime_error what)
  convertToXpetra m := Except.ok (m.map (fun _ => ()))
  getCrsGraph _ := some ()
  convertVectorToXpetra v := Except.ok (v.map (fun _ => ()))
  NumMyRows eG := eG.RowMap.NumMyElements
  IndexBase eG := eG.RowMap.IndexBase
  RowMapGID eG l := if 0 ≤ l then eG.RowMap.MyGlobalElements.getD l.toNat (-1) else -1
  ColMapGID eG l := if 0 ≤ l then (insertionOrder eG).getD l.toNat (-1) else -1

/-- The sample collaborators with a conversion to Xpetra that runs out of memory. -/
def exhaustedCollaborators : Collaborators Unit Unit Unit :=
  { sampleCollaborators with
    convertToXpetra := fun _ => Except.error (TestFailure.runtime_error "std::bad_alloc") }

/-- The sample collaborators with a gallery that builds `ghostMatrix`. -/
def ghostCollaborators : Collaborators Unit Unit Unit :=
  { sampleCollaborators with CreateCrsMatrix := fun _ _ _ _ => Except.ok (some ghostMatrix) }

/-- The sample collaborators with a `TEST_FAIL_AND_THROW` that returns instead of throwing.
The definition of the statement is not in the sources; the call sites hand it the flag
`1`. -/
def lenientCollaborators : Collaborators Unit Unit Unit :=
  { sampleCollaborators with TEST_FAIL_AND_THROW := fun _ _ => Except.ok () }

/-- The sample collaborators with a reader that returns a null matrix without throwing. -/
def emptyCollaborators : Collaborators Unit Unit Unit :=
  { sampleCollaborators with readSparseFile := fun _ => Except.ok none }

/-- The sample collaborators with a reader that returns `shiftedMatrix`, a matrix whose
row map has index base 1. -/
def shiftedCollaborators : Collaborators Unit Unit Unit :=
  { sampleCollaborators with readSparseFile := fun _ => Except.ok (some shiftedMatrix) }

/-- The lenient collaborators with a conversion to Xpetra that wraps whatever it is given,
a null matrix included, in a wrapper. -/
def wrappingCollaborators : Collaborators Unit Unit Unit :=
  { lenientCollaborators with convertToXpetra := fun _ => Except.ok (some ()) }

end Zoltan2


namespace Intrepid2
namespace Lapack

variable {n : Nat}

theorem pivot_fold_spec (A : Mat n) (k : Fin n) (l : List (Fin n)) (p0 : Fin n) (h0 : k ≤ p0) :
    k ≤ l.foldl (fun p i => if k ≤ i ∧ |A p k| < |A i k| then i else p) p0 ∧
    |A p0 k| ≤ |A (l.foldl (fun p i => if k ≤ i ∧ |A p k| < |A i k| then i else p) p0) k| ∧
    ∀ i ∈ l, k ≤ i →
      |A i k| ≤ |A (l.foldl (fun p i => if k ≤ i ∧ |A p k| < |A i k| then i else p) p0) k| := by
  induction l generalizing p0 with
  | nil => simp [h0]
  | cons a t ih =>
    simp only [List.foldl_cons, List.mem_cons]
    by_cases hc : k ≤ a ∧ |A p0 k| < |A a k|
    · rw [if_pos hc]
      obtain ⟨h1, h2, h3⟩ := ih a hc.1
      refine ⟨h1, le_trans (le_of_lt hc.2) h2, ?_⟩
      intro i hi hki
      rcases hi with rfl | hi
      · exact h2
      · exact h3 i hi hki
    · rw [if_neg hc]
      obtain ⟨h1, h2, h3⟩ := ih p0 h0
      refine ⟨h1, h2, ?_⟩
      intro i hi hki
      rcases hi with rfl | hi
      · have : |A i k| ≤ |A p0 k| := by
          by_contra hlt
          exact hc ⟨hki, lt_of_not_le hlt⟩
        exact le_trans this h2
      · exact h3 i hi hki

theorem pivotRow_ge (A : Mat n) (k : Fin n) : k ≤ pivotRow A k :=
  (pivot_fold_spec A k (List.finRange n) k le_rfl).1

theorem pivotRow_max (A : Mat n) (k i : Fin n) (hki : k ≤ i) :
    |A i k| ≤ |A (pivotRow A k) k| :=
  (pivot_fold_spec A k (List.finRange n) k le_rfl).2.2 i (List.mem_finRange i) hki

theorem pivotRow_zero (A : Mat n) (k : Fin n) (h : A (pivotRow A k) k = 0) (i : Fin n)
    (hki : k ≤ i) : A i k = 0 := by
  have := pivotRow_max A k i hki
  rw [h, abs_zero] at this
  exact abs_eq_zero.mp (le_antisymm this (abs_nonneg _))

theorem swapRows_mul (k p : Fin n) (M X : Mat n) : swapRows k p (M * X) = swapRows k p M * X := by
  funext i j
  simp only [swapRows, Matrix.mul_apply]
  split_ifs <;> rfl

theorem scaleRow_mul (k : Fin n) (c : ℚ) (M X : Mat n) :
    scaleRow k c (M * X) = scaleRow k c M * X := by
  funext i j
  simp only [scaleRow, Matrix.mul_apply]
  split_ifs
  · rw [Finset.mul_sum]; exact Finset.sum_congr rfl (fun l _ => by ring)
  · rfl

theorem elimRows_mul (k : Fin n) (m : Fin n → ℚ) (M X : Mat n) :
    elimRows k m (M * X) = elimRows k m M * X := by
  funext i j
  simp only [elimRows, Matrix.mul_apply]
  split_ifs
  · rfl
  · rw [Finset.mul_sum, ← Finset.sum_sub_distrib]
    exact Finset.sum_congr rfl (fun l _ => by ring)

theorem swapRows_swapRows (k p : Fin n) (M : Mat n) : swapRows k p (swapRows k p M) = M := by
  funext i j
  simp only [swapRows]
  by_cases h1 : i = k
  · subst h1
    by_cases h2 : p = i
    · subst h2; simp
    · simp [h2]
  · by_cases h2 : i = p
    · subst h2; simp [h1]
    · simp [h1, h2]

theorem scaleRow_scaleRow (k : Fin n) (c : ℚ) (hc : c ≠ 0) (M : Mat n) :
    scaleRow k c⁻¹ (scaleRow k c M) = M := by
  funext i j
  simp only [scaleRow]
  by_cases h1 : i = k
  · subst h1; simp; field_simp
  · simp [h1]

theorem elimRows_neg_elimRows (k : Fin n) (m : Fin n → ℚ) (M : Mat n) :
    elimRows k (fun i => - m i) (elimRows k m M) = M := by
  funext i j
  simp only [elimRows]
  by_cases h1 : i = k
  · subst h1; simp
  · simp [h1]

theorem Reach.start (A0 B0 : Mat n) : Reach A0 B0 A0 B0 :=
  ⟨1, 1, by simp, by simp, by simp⟩

theorem Reach.rowop {A0 B0 A B : Mat n} (h : Reach A0 B0 A B) (op op' : Mat n → Mat n)
    (hop : ∀ M X, op (M * X) = op M * X) (hop' : ∀ M X, op' (M * X) = op' M * X)
    (hinv : ∀ M, op' (op M) = M) : Reach A0 B0 (op A) (op B) := by
  obtain ⟨M, N, hNM, hA, hB⟩ := h
  refine ⟨op M, N * op' 1, ?_, ?_, ?_⟩
  · rw [Matrix.mul_assoc, ← hop', Matrix.one_mul, hinv, hNM]
  · rw [hA, hop]
  · rw [hB, hop]

theorem Reach.singular {A0 B0 A B : Mat n} (h : Reach A0 B0 A B) (hd : A.det = 0) :
    A0.det = 0 := by
  obtain ⟨M, N, hNM, hA, _⟩ := h
  have hu : IsUnit M.det := Matrix.isUnit_det_of_left_inverse hNM
  rw [hA, Matrix.det_mul] at hd
  rcases mul_eq_zero.mp hd with h1 | h1
  · exact absurd h1 hu.ne_zero
  · exact h1

theorem Reach.solved {A0 B0 B : Mat n} (h : Reach A0 B0 1 B) : A0.det ≠ 0 ∧ A0 * B = B0 := by
  obtain ⟨M, N, _, hA, hB⟩ := h
  have h1 : M * A0 = 1 := hA.symm
  have h2 : A0 * M = 1 := Matrix.mul_eq_one_comm.mp h1
  constructor
  · have hu : IsUnit A0.det := Matrix.isUnit_det_of_left_inverse h1
    exact hu.ne_zero
  · rw [hB, ← Matrix.mul_assoc, h2, Matrix.one_mul]

theorem det_zero_of_no_pivot (A : Mat n) (k : Fin n) (hred : Reduced k.val A)
    (hz : ∀ i : Fin n, k ≤ i → A i k = 0) : A.det = 0 := by
  rw [← Matrix.exists_mulVec_eq_zero_iff]
  refine ⟨fun j => if j = k then 1 else if j.val < k.val then - A j k else 0, ?_, ?_⟩
  · intro h
    have := congrFun h k
    simp at this
  · funext i
    simp only [Matrix.mulVec, Matrix.dotProduct, Pi.zero_apply]
    have hterm : ∀ j : Fin n,
        A i j * (if j = k then (1 : ℚ) else if j.val < k.val then - A j k else 0)
          = (if j = k then A i k else 0)
            - (if j = i then (if i.val < k.val then A i k else 0) else 0) := by
      intro j
      by_cases hjk : j = k
      · subst hjk
        by_cases hji : j = i
        · subst hji; simp
        · simp [hji]
      · by_cases hlt : j.val < k.val
        · rw [if_neg hjk, if_pos hlt, if_neg hjk, hred i j hlt]
          by_cases hji : j = i
          · subst hji; simp [hlt]
          · have : ¬ i = j := fun h => hji h.symm
            simp [hji, this]
        · rw [if_neg hjk, if_neg hlt, if_neg hjk]
          by_cases hji : j = i
          · subst hji; simp [hlt]
          · simp [hji]
    rw [Finset.sum_congr rfl (fun j _ => hterm j), Finset.sum_sub_distrib]
    simp only [Finset.sum_ite_eq', Finset.mem_univ, if_true]
    by_cases hlt : i.val < k.val
    · simp [hlt]
    · have : k ≤ i := not_lt.mp hlt
      simp [hlt, hz i this]

end Lapack
end Intrepid2

namespace Intrepid2
namespace Lapack

variable {n : Nat}

theorem Reduced.eq_one {A : Mat n} (h : Reduced n A) : A = 1 := by
  funext i j
  rw [h i j j.isLt, Matrix.one_apply]

theorem Reduced.pivot_column {k : Nat} (hk : k < n) {A : Mat n} (hred : Reduced k A) (p : Fin n)
    (hp : (⟨k, hk⟩ : Fin n) ≤ p) (hne : A p ⟨k, hk⟩ ≠ 0) :
    Reduced (k + 1)
      (elimRows ⟨k, hk⟩
        (fun i => scaleRow ⟨k, hk⟩ (swapRows ⟨k, hk⟩ p A ⟨k, hk⟩ ⟨k, hk⟩)⁻¹
          (swapRows ⟨k, hk⟩ p A) i ⟨k, hk⟩)
        (scaleRow ⟨k, hk⟩ (swapRows ⟨k, hk⟩ p A ⟨k, hk⟩ ⟨k, hk⟩)⁻¹ (swapRows ⟨k, hk⟩ p A))) := by
  intro i j hj
  have hpk : k ≤ p.val := hp
  have hkk : swapRows ⟨k, hk⟩ p A ⟨k, hk⟩ ⟨k, hk⟩ = A p ⟨k, hk⟩ := by simp [swapRows]
  rw [hkk]
  rcases Nat.lt_succ_iff_lt_or_eq.mp hj with hlt | heq
  · -- an earlier column: rows k and p vanish there
    have hjk : j ≠ ⟨k, hk⟩ := fun h => by rw [h] at hlt; exact lt_irrefl _ hlt
    have hjp : j ≠ p := fun h => by rw [h] at hlt; omega
    have hAk : A ⟨k, hk⟩ j = 0 := by rw [hred _ j hlt, if_neg (fun h => hjk h.symm)]
    have hAp : A p j = 0 := by rw [hred _ j hlt, if_neg (fun h => hjp h.symm)]
    have hrow : scaleRow ⟨k, hk⟩ (A p ⟨k, hk⟩)⁻¹ (swapRows ⟨k, hk⟩ p A) ⟨k, hk⟩ j = 0 := by
      simp [scaleRow, swapRows, hAp]
    simp only [elimRows]
    by_cases hik : i = ⟨k, hk⟩
    · rw [if_pos hik, hrow, if_neg (by rw [hik]; exact fun h => hjk h.symm)]
    · rw [if_neg hik, hrow, mul_zero, sub_zero]
      simp only [scaleRow, if_neg hik, swapRows]
      by_cases hip : i = p
      · rw [if_pos hip, hAk, if_neg (by rw [hip]; exact fun h => hjp h.symm)]
      · rw [if_neg hip, hred i j hlt]
  · -- the pivot column
    have hjk : j = ⟨k, hk⟩ := Fin.ext heq
    subst hjk
    have hone : scaleRow ⟨k, hk⟩ (A p ⟨k, hk⟩)⁻¹ (swapRows ⟨k, hk⟩ p A) ⟨k, hk⟩ ⟨k, hk⟩
        = 1 := by
      simp [scaleRow, swapRows, inv_mul_cancel₀ hne]
    simp only [elimRows]
    by_cases hik : i = ⟨k, hk⟩
    · rw [if_pos hik, hone, if_pos hik]
    · rw [if_neg hik, hone, mul_one, sub_self, if_neg hik]

theorem Reach.pivot_step {A0 B0 A B : Mat n} (h : Reach A0 B0 A B) (kk p : Fin n) (c : ℚ)
    (hc : c ≠ 0) (m : Fin n → ℚ) :
    Reach A0 B0 (elimRows kk m (scaleRow kk c (swapRows kk p A)))
      (elimRows kk m (scaleRow kk c (swapRows kk p B))) := by
  have h1 := h.rowop (swapRows kk p) (swapRows kk p) (swapRows_mul kk p) (swapRows_mul kk p)
    (swapRows_swapRows kk p)
  have h2 := h1.rowop (scaleRow kk c) (scaleRow kk c⁻¹) (scaleRow_mul kk c)
    (scaleRow_mul kk c⁻¹) (scaleRow_scaleRow kk c hc)
  exact h2.rowop (elimRows kk m) (elimRows kk (fun i => - m i)) (elimRows_mul kk m)
    (elimRows_mul kk _) (elimRows_neg_elimRows kk m)

theorem eliminate_spec (A0 B0 : Mat n) : ∀ (r k : Nat) (A B : Mat n), k + r = n →
    Reach A0 B0 A B → Reduced k A →
    ((eliminate r k A B).1 = 0 → A0.det ≠ 0 ∧ A0 * (eliminate r k A B).2 = B0) ∧
    ((eliminate r k A B).1 ≠ 0 → A0.det = 0) := by
  intro r
  induction r with
  | zero =>
    intro k A B hk hreach hred
    simp only [eliminate]
    have hkn : k = n := by omega
    subst hkn
    rw [hred.eq_one] at hreach
    exact ⟨fun _ => hreach.solved, fun h => absurd rfl h⟩
  | succ r ih =>
    intro k A B hk hreach hred
    have hlt : k < n := by omega
    rw [eliminate, dif_pos hlt]
    by_cases hz : A (pivotRow A ⟨k, hlt⟩) ⟨k, hlt⟩ = 0
    · simp only [if_pos hz]
      constructor
      · intro h; exfalso; omega
      · intro _
        exact hreach.singular
          (det_zero_of_no_pivot A ⟨k, hlt⟩ hred (pivotRow_zero A ⟨k, hlt⟩ hz))
    · simp only [if_neg hz]
      have hkk : swapRows ⟨k, hlt⟩ (pivotRow A ⟨k, hlt⟩) A ⟨k, hlt⟩ ⟨k, hlt⟩
          = A (pivotRow A ⟨k, hlt⟩) ⟨k, hlt⟩ := by simp [swapRows]
      apply ih (k + 1) _ _ (by omega)
      · exact hreach.pivot_step ⟨k, hlt⟩ (pivotRow A ⟨k, hlt⟩) _
          (by rw [hkk]; exact inv_ne_zero hz) _
      · exact hred.pivot_column hlt (pivotRow A ⟨k, hlt⟩) (pivotRow_ge A ⟨k, hlt⟩) hz

theorem block_ofMatrix (n : Nat) (X : Mat n) : View2.block n (View2.ofMatrix n X) = X := by
  funext i j
  simp [View2.block, View2.ofMatrix, i.isLt, j.isLt]

/-- Contract of the solver: `info = 0` exactly when the matrix is regular, and then the
returned block solves the system. -/
theorem GESV_spec (n : Nat) (A B : View2) :
    ((GESV n A B).1 = 0 ↔ (View2.block n A).det ≠ 0) ∧
    ((GESV n A B).1 = 0 →
      View2.block n A * View2.block n (GESV n A B).2 = View2.block n B) := by
  have h := eliminate_spec (View2.block n A) (View2.block n B) n 0 (View2.block n A)
    (View2.block n B) (by omega) (Reach.start _ _) (fun i j hj => absurd hj (Nat.not_lt_zero _))
  unfold GESV
  by_cases h0 : (eliminate n 0 (View2.block n A) (View2.block n B)).1 = 0
  · rw [if_pos h0]
    refine ⟨⟨fun _ => (h.1 h0).1, fun _ => rfl⟩, fun _ => ?_⟩
    rw [block_ofMatrix]
    exact (h.1 h0).2
  · rw [if_neg h0]
    exact ⟨⟨fun hc => absurd hc h0, fun hd => absurd (h.2 h0) hd⟩, fun hc => absurd hc h0⟩

theorem GESV_fail (n : Nat) (A B : View2) (h : (GESV n A B).1 ≠ 0) : (GESV n A B).2 = B := by
  unfold GESV at h ⊢
  by_cases h0 : (eliminate n 0 (View2.block n A) (View2.block n B)).1 = 0
  · simp [h0] at h
  · simp [h0]

end Lapack
end Intrepid2

namespace Intrepid2

theorem orThrow_eq_ok {α : Type} {o : Option α} {a : α} :
    orThrow o = Except.ok a ↔ o = some a := by
  cases o <;> simp [orThrow]

theorem orThrow_eq_error {α : Type} {o : Option α} {e : Failure} :
    orThrow o = Except.error e ↔ o = none ∧ e = Failure.logic_error := by
  cases o <;> simp [orThrow, eq_comm]

theorem assemble_ok_inv (lineBasis cellBasis : Basis) (lineDim : Nat) (edgeId : Int) (n : Nat)
    (refValues outValues : View2) :
    ∀ (l : List Nat) (mats res : View2 × View2),
    assemble lineBasis cellBasis lineDim edgeId n refValues outValues l mats = Except.ok res →
    (∀ i ∈ l, (cellBasis.getDofOrdinal lineDim edgeId i).isSome ∧
      (lineBasis.getDofOrdinal lineDim 0 i).isSome) ∧
    res.1.val = assembled n l (fun i => cellBasis.getDofOrdinal lineDim edgeId i) refValues mats.1
    ∧ res.2.val = assembled n l (fun i => lineBasis.getDofOrdinal lineDim 0 i) outValues mats.2
    ∧ res.1.extent0 = mats.1.extent0 ∧ res.1.extent1 = mats.1.extent1
    ∧ res.2.extent0 = mats.2.extent0 ∧ res.2.extent1 = mats.2.extent1 := by
  intro l
  induction l with
  | nil =>
    intro mats res h
    simp only [assemble, Except.ok.injEq] at h
    subst h
    refine ⟨by simp, ?_, ?_, rfl, rfl, rfl, rfl⟩ <;> funext r c <;> simp [assembled]
  | cons i rest ih =>
    intro mats res h
    rw [assemble] at h
    cases h1 : cellBasis.getDofOrdinal lineDim edgeId i with
    | none => simp [h1, orThrow, bind, Except.bind] at h
    | some iref =>
      cases h2 : lineBasis.getDofOrdinal lineDim 0 i with
      | none => simp [h1, h2, orThrow, bind, Except.bind] at h
      | some iout =>
        simp only [h1, h2, orThrow, bind, Except.bind] at h
        obtain ⟨ha, hb, hc, hd1, hd2, hd3, hd4⟩ := ih _ _ h
        refine ⟨?_, ?_, ?_, ?_, ?_, ?_, ?_⟩
        · intro j hj
          rcases List.mem_cons.mp hj with rfl | hj
          · simp [h1, h2]
          · exact ha j hj
        · rw [hb]
          funext r c
          simp only [assembled, View2.setColumn, List.mem_cons]
          by_cases hc1 : c ∈ rest ∧ r < n
          · rw [if_pos hc1, if_pos ⟨Or.inr hc1.1, hc1.2⟩]
          · rw [if_neg hc1]
            by_cases hc2 : c = i ∧ r < n
            · rw [if_pos hc2, if_pos ⟨Or.inl hc2.1, hc2.2⟩, hc2.1, h1]; rfl
            · rw [if_neg hc2, if_neg]
              rintro ⟨h3 | h3, h4⟩
              · exact hc2 ⟨h3, h4⟩
              · exact hc1 ⟨h3, h4⟩
        · rw [hc]
          funext r c
          simp only [assembled, View2.setColumn, List.mem_cons]
          by_cases hc1 : c ∈ rest ∧ r < n
          · rw [if_pos hc1, if_pos ⟨Or.inr hc1.1, hc1.2⟩]
          · rw [if_neg hc1]
            by_cases hc2 : c = i ∧ r < n
            · rw [if_pos hc2, if_pos ⟨Or.inl hc2.1, hc2.2⟩, hc2.1, h2]; rfl
            · rw [if_neg hc2, if_neg]
              rintro ⟨h3 | h3, h4⟩
              · exact hc2 ⟨h3, h4⟩
              · exact hc1 ⟨h3, h4⟩
        · rw [hd1]; rfl
        · rw [hd2]; rfl
        · rw [hd3]; rfl
        · rw [hd4]; rfl

theorem assemble_error (lineBasis cellBasis : Basis) (lineDim : Nat) (edgeId : Int) (n : Nat)
    (refValues outValues : View2) :
    ∀ (l : List Nat) (mats : View2 × View2) (e : Failure),
    assemble lineBasis cellBasis lineDim edgeId n refValues outValues l mats = Except.error e →
    e = Failure.logic_error := by
  intro l
  induction l with
  | nil => intro mats e h; simp [assemble] at h
  | cons i rest ih =>
    intro mats e h
    rw [assemble] at h
    cases h1 : cellBasis.getDofOrdinal lineDim edgeId i with
    | none => simp [h1, orThrow, bind, Except.bind] at h; exact h.symm
    | some iref =>
      cases h2 : lineBasis.getDofOrdinal lineDim 0 i with
      | none => simp [h1, h2, orThrow, bind, Except.bind] at h; exact h.symm
      | some iout =>
        simp only [h1, h2, orThrow, bind, Except.bind] at h
        exact ih _ _ h

theorem assemble_ok_of (lineBasis cellBasis : Basis) (lineDim : Nat) (edgeId : Int) (n : Nat)
    (refValues outValues : View2) :
    ∀ (l : List Nat) (mats : View2 × View2),
    (∀ i ∈ l, (cellBasis.getDofOrdinal lineDim edgeId i).isSome ∧
      (lineBasis.getDofOrdinal lineDim 0 i).isSome) →
    ∃ res, assemble lineBasis cellBasis lineDim edgeId n refValues outValues l mats
      = Except.ok res := by
  intro l
  induction l with
  | nil => intro mats _; exact ⟨mats, rfl⟩
  | cons i rest ih =>
    intro mats h
    obtain ⟨h1, h2⟩ := h i (List.mem_cons_self _ _)
    obtain ⟨iref, h1⟩ := Option.isSome_iff_exists.mp h1
    obtain ⟨iout, h2⟩ := Option.isSome_iff_exists.mp h2
    rw [assemble]
    simp only [h1, h2, orThrow, bind, Except.bind]
    exact ih _ (fun j hj => h j (List.mem_cons_of_mem _ hj))

end Intrepid2

namespace Intrepid2

theorem edgeCoeffAssemble_ok_iff (tools : PointTools) (debug : Bool)
    (lineBasis cellBasis : Basis) (edgeId edgeOrt : Int) (w : EdgeWork) :
    edgeCoeffAssemble tools debug lineBasis cellBasis edgeId edgeOrt = Except.ok w ↔
      Assembles tools debug lineBasis cellBasis edgeId edgeOrt w := by
  constructor
  · intro h
    unfold edgeCoeffAssemble at h
    cases h1 : cellBasis.getDofOrdinal lineBasis.getBaseCellTopology.getDimension edgeId 0 with
    | none => simp [h1, orThrow, bind, Except.bind] at h
    | some ordEdge =>
      cases h2 : cellBasis.getDofTag ordEdge with
      | none => simp [h1, h2, orThrow, bind, Except.bind] at h
      | some tag =>
        simp only [h1, h2, orThrow, bind, Except.bind] at h
        by_cases h3 : (debug && !tag.dofCount ==
            tools.getLatticeSize lineBasis.getBaseCellTopology cellBasis.getDegree 1) = true
        · rw [if_pos h3] at h; cases h
        · rw [if_neg h3] at h
          cases h4 : tools.getLattice
              (View2.zeros tag.dofCount lineBasis.getBaseCellTopology.getDimension)
              lineBasis.getBaseCellTopology cellBasis.getDegree 1
              EPointType.POINTTYPE_EQUISPACED with
          | none => simp [h4, pure, Except.pure] at h
          | some pts =>
            cases h5 : mapToModifiedReference
                (View2.zeros tag.dofCount lineBasis.getBaseCellTopology.getDimension)
                ((View2.zeros tag.dofCount lineBasis.getBaseCellTopology.getDimension).fill pts)
                lineBasis.getBaseCellTopology edgeOrt with
            | none => simp [h4, h5, pure, Except.pure] at h
            | some ort =>
              cases h6 : tools.mapToReferenceSubcell
                  (View2.zeros tag.dofCount cellBasis.getBaseCellTopology.getDimension)
                  ((View2.zeros tag.dofCount lineBasis.getBaseCellTopology.getDimension).fill pts)
                  lineBasis.getBaseCellTopology.getDimension edgeId
                  cellBasis.getBaseCellTopology with
              | none => simp [h4, h5, h6, pure, Except.pure] at h
              | some cpts =>
                simp only [h4, h5, h6, pure, Except.pure] at h
                cases h7 : assemble lineBasis cellBasis
                    lineBasis.getBaseCellTopology.getDimension edgeId tag.dofCount
                    (cellBasis.getValues (View2.zeros cellBasis.getCardinality tag.dofCount)
                      ((View2.zeros tag.dofCount
                        cellBasis.getBaseCellTopology.getDimension).fill cpts))
                    (lineBasis.getValues (View2.zeros lineBasis.getCardinality tag.dofCount) ort)
                    (List.range tag.dofCount)
                    (View2.zeros tag.dofCount tag.dofCount,
                      View2.zeros tag.dofCount tag.dofCount) with
                | error e => simp [h7] at h
                | ok res =>
                  simp only [h7, Except.ok.injEq] at h
                  subst h
                  refine ⟨⟨ordEdge, tag, h1, h2, rfl⟩, ?_, ⟨pts, h4, rfl⟩, h5, ⟨cpts, h6, rfl⟩,
                    rfl, rfl, h7⟩
                  intro hd
                  by_contra hne
                  apply h3
                  simp [hd, hne]
  · intro h
    obtain ⟨⟨ordEdge, tag, h1, h2, hn⟩, h3, ⟨pts, h4, hL⟩, h5, ⟨cpts, h6, hP⟩, hR, hO, h7⟩ := h
    obtain ⟨n, L, Q, P, rv, ov, rm, om⟩ := w
    simp only at hn h3 h4 hL h5 h6 hP hR hO h7
    subst hn hL hP hR hO
    unfold edgeCoeffAssemble
    have h3neg : ¬ ((debug && !tag.dofCount ==
        tools.getLatticeSize lineBasis.getBaseCellTopology cellBasis.getDegree 1) = true) := by
      intro hc
      simp only [Bool.and_eq_true, Bool.not_eq_true', beq_eq_false_iff_ne, ne_eq] at hc
      exact hc.2 (h3 hc.1)
    simp only [h1, h2, orThrow, bind, Except.bind, if_neg h3neg, h4, h5, h6, h7, pure,
      Except.pure]

theorem edgeCoeffAssemble_error (tools : PointTools) (debug : Bool)
    (lineBasis cellBasis : Basis) (edgeId edgeOrt : Int) (e : Failure)
    (h : edgeCoeffAssemble tools debug lineBasis cellBasis edgeId edgeOrt = Except.error e) :
    e = Failure.logic_error := by
  unfold edgeCoeffAssemble at h
  cases h1 : cellBasis.getDofOrdinal lineBasis.getBaseCellTopology.getDimension edgeId 0 with
  | none => simp [h1, orThrow, bind, Except.bind] at h; exact h.symm
  | some ordEdge =>
    cases h2 : cellBasis.getDofTag ordEdge with
    | none => simp [h1, h2, orThrow, bind, Except.bind] at h; exact h.symm
    | some tag =>
      simp only [h1, h2, orThrow, bind, Except.bind] at h
      by_cases h3 : (debug && !tag.dofCount ==
          tools.getLatticeSize lineBasis.getBaseCellTopology cellBasis.getDegree 1) = true
      · rw [if_pos h3] at h; cases h; rfl
      · rw [if_neg h3] at h
        cases h4 : tools.getLattice
            (View2.zeros tag.dofCount lineBasis.getBaseCellTopology.getDimension)
            lineBasis.getBaseCellTopology cellBasis.getDegree 1
            EPointType.POINTTYPE_EQUISPACED with
        | none => simp [h4, pure, Except.pure] at h; exact h.symm
        | some pts =>
          cases h5 : mapToModifiedReference
              (View2.zeros tag.dofCount lineBasis.getBaseCellTopology.getDimension)
              ((View2.zeros tag.dofCount lineBasis.getBaseCellTopology.getDimension).fill pts)
              lineBasis.getBaseCellTopology edgeOrt with
          | none => simp [h4, h5, pure, Except.pure] at h; exact h.symm
          | some ort =>
            cases h6 : tools.mapToReferenceSubcell
                (View2.zeros tag.dofCount cellBasis.getBaseCellTopology.getDimension)
                ((View2.zeros tag.dofCount lineBasis.getBaseCellTopology.getDimension).fill pts)
                lineBasis.getBaseCellTopology.getDimension edgeId
                cellBasis.getBaseCellTopology with
            | none => simp [h4, h5, h6, pure, Except.pure] at h; exact h.symm
            | some cpts =>
              simp only [h4, h5, h6, pure, Except.pure] at h
              cases h7 : assemble lineBasis cellBasis
                  lineBasis.getBaseCellTopology.getDimension edgeId tag.dofCount
                  (cellBasis.getValues (View2.zeros cellBasis.getCardinality tag.dofCount)
                    ((View2.zeros tag.dofCount
                      cellBasis.getBaseCellTopology.getDimension).fill cpts))
                  (lineBasis.getValues (View2.zeros lineBasis.getCardinality tag.dofCount) ort)
                  (List.range tag.dofCount)
                  (View2.zeros tag.dofCount tag.dofCount,
                    View2.zeros tag.dofCount tag.dofCount) with
              | error e2 =>
                simp only [h7, Except.error.injEq] at h
                subst h
                exact assemble_error _ _ _ _ _ _ _ _ _ _ h7
              | ok res => simp [h7] at h

end Intrepid2

namespace Intrepid2

theorem Assembles.all_dofs {tools : PointTools} {debug : Bool} {lineBasis cellBasis : Basis}
    {edgeId edgeOrt : Int} {w : EdgeWork}
    (h : Assembles tools debug lineBasis cellBasis edgeId edgeOrt w) :
    ∀ i, i < w.ndofEdge →
      (cellBasis.getDofOrdinal lineBasis.getBaseCellTopology.getDimension edgeId i).isSome ∧
      (lineBasis.getDofOrdinal lineBasis.getBaseCellTopology.getDimension 0 i).isSome :=
  fun i hi => (assemble_ok_inv _ _ _ _ _ _ _ _ _ _ h.mats).1 i (List.mem_range.mpr hi)

theorem Assembles.refMat_val {tools : PointTools} {debug : Bool} {lineBasis cellBasis : Basis}
    {edgeId edgeOrt : Int} {w : EdgeWork}
    (h : Assembles tools debug lineBasis cellBasis edgeId edgeOrt w) (j i : Nat)
    (hj : j < w.ndofEdge) (hi : i < w.ndofEdge) :
    w.refMat.val j i
      = cellBasis.value (cellOrdinal lineBasis cellBasis edgeId i) (w.refPtsCell.row j) := by
  have h1 := (assemble_ok_inv _ _ _ _ _ _ _ _ _ _ h.mats).2.1
  simp only at h1
  rw [h1, assembled, if_pos ⟨List.mem_range.mpr hi, hj⟩, h.refValues]
  rfl

theorem Assembles.ortMat_val {tools : PointTools} {debug : Bool} {lineBasis cellBasis : Basis}
    {edgeId edgeOrt : Int} {w : EdgeWork}
    (h : Assembles tools debug lineBasis cellBasis edgeId edgeOrt w) (j k : Nat)
    (hj : j < w.ndofEdge) (hk : k < w.ndofEdge) :
    w.ortMat.val j k
      = lineBasis.value (lineOrdinal lineBasis k) (w.ortPtsLine.row j) := by
  have h1 := (assemble_ok_inv _ _ _ _ _ _ _ _ _ _ h.mats).2.2.1
  simp only at h1
  rw [h1, assembled, if_pos ⟨List.mem_range.mpr hk, hj⟩, h.outValues]
  rfl

theorem Assembles.mat_extents {tools : PointTools} {debug : Bool} {lineBasis cellBasis : Basis}
    {edgeId edgeOrt : Int} {w : EdgeWork}
    (h : Assembles tools debug lineBasis cellBasis edgeId edgeOrt w) :
    w.refMat.extent0 = w.ndofEdge ∧ w.refMat.extent1 = w.ndofEdge ∧
    w.ortMat.extent0 = w.ndofEdge ∧ w.ortMat.extent1 = w.ndofEdge := by
  obtain ⟨_, _, _, h1, h2, h3, h4⟩ := assemble_ok_inv _ _ _ _ _ _ _ _ _ _ h.mats
  exact ⟨h1, h2, h3, h4⟩

theorem Assembles.point_extents {tools : PointTools} {debug : Bool}
    {lineBasis cellBasis : Basis} {edgeId edgeOrt : Int} {w : EdgeWork}
    (h : Assembles tools debug lineBasis cellBasis edgeId edgeOrt w) :
    w.refPtsLine.extent0 = w.ndofEdge ∧
    w.refPtsLine.extent1 = lineBasis.getBaseCellTopology.getDimension ∧
    w.ortPtsLine.extent0 = w.ndofEdge ∧
    w.ortPtsLine.extent1 = lineBasis.getBaseCellTopology.getDimension ∧
    w.refPtsCell.extent0 = w.ndofEdge ∧
    w.refPtsCell.extent1 = cellBasis.getBaseCellTopology.getDimension := by
  obtain ⟨pts, _, hL⟩ := h.lattice
  obtain ⟨cpts, _, hP⟩ := h.subcell
  have hQ := h.oriented
  unfold mapToModifiedReference at hQ
  refine ⟨by rw [hL]; rfl, by rw [hL]; rfl, ?_, ?_, by rw [hP]; rfl, by rw [hP]; rfl⟩
  · split at hQ
    · split_ifs at hQ <;> simp only [Option.some.injEq] at hQ <;> rw [← hQ] <;> rfl
    · cases hQ
  · split at hQ
    · split_ifs at hQ <;> simp only [Option.some.injEq] at hQ <;> rw [← hQ] <;> rfl
    · cases hQ

/-- The outcome of a call in terms of the two phases. -/
theorem getEdgeCoeffMatrix_HGRAD_of_assembles {tools : PointTools} {debug : Bool}
    (output : View2) {lineBasis cellBasis : Basis} {edgeId edgeOrt : Int} {w : EdgeWork}
    (h : Assembles tools debug lineBasis cellBasis edgeId edgeOrt w) :
    getEdgeCoeffMatrix_HGRAD tools debug output lineBasis cellBasis edgeId edgeOrt =
      if (Lapack.GESV w.ndofEdge w.refMat w.ortMat).1 ≠ 0 then
        (Except.error (Failure.runtime_error (Lapack.GESV w.ndofEdge w.refMat w.ortMat).1),
          output)
      else if w.ndofEdge ≤ output.extent0 ∧ w.ndofEdge ≤ output.extent1 then
        (Except.ok (), withBlock output w.ndofEdge
          (Lapack.GESV w.ndofEdge w.refMat w.ortMat).2.val)
      else (Except.error Failure.subview_bounds, output) := by
  have h1 := (edgeCoeffAssemble_ok_iff tools debug lineBasis cellBasis edgeId edgeOrt w).mpr h
  unfold getEdgeCoeffMatrix_HGRAD
  rw [h1]
  simp only [edgeCoeffSolve]
  by_cases hinfo : (Lapack.GESV w.ndofEdge w.refMat w.ortMat).1 ≠ 0
  · rw [if_pos hinfo, if_pos hinfo]
  · rw [if_neg hinfo, if_neg hinfo]
    simp only [copyToSubview]
    by_cases hroom : w.ndofEdge ≤ output.extent0 ∧ w.ndofEdge ≤ output.extent1
    · rw [if_pos hroom, if_pos hroom]; rfl
    · rw [if_neg hroom, if_neg hroom]

theorem getEdgeCoeffMatrix_HGRAD_of_error {tools : PointTools} {debug : Bool}
    (output : View2) {lineBasis cellBasis : Basis} {edgeId edgeOrt : Int} {e : Failure}
    (h : edgeCoeffAssemble tools debug lineBasis cellBasis edgeId edgeOrt = Except.error e) :
    getEdgeCoeffMatrix_HGRAD tools debug output lineBasis cellBasis edgeId edgeOrt =
      (Except.error Failure.logic_error, output) := by
  have he := edgeCoeffAssemble_error _ _ _ _ _ _ _ h
  subst he
  unfold getEdgeCoeffMatrix_HGRAD
  rw [h]

/-- A call that returns normally has assembled, solved with `info = 0` and copied. -/
theorem getEdgeCoeffMatrix_HGRAD_ok_inv {tools : PointTools} {debug : Bool}
    {output : View2} {lineBasis cellBasis : Basis} {edgeId edgeOrt : Int} {out : View2}
    (h : getEdgeCoeffMatrix_HGRAD tools debug output lineBasis cellBasis edgeId edgeOrt
      = (Except.ok (), out)) :
    ∃ w, Assembles tools debug lineBasis cellBasis edgeId edgeOrt w ∧
      (Lapack.GESV w.ndofEdge w.refMat w.ortMat).1 = 0 ∧
      w.ndofEdge ≤ output.extent0 ∧ w.ndofEdge ≤ output.extent1 ∧
      out = withBlock output w.ndofEdge (Lapack.GESV w.ndofEdge w.refMat w.ortMat).2.val := by
  cases hA : edgeCoeffAssemble tools debug lineBasis cellBasis edgeId edgeOrt with
  | error e =>
    rw [getEdgeCoeffMatrix_HGRAD_of_error output hA] at h
    simp at h
  | ok w =>
    have hw := (edgeCoeffAssemble_ok_iff tools debug lineBasis cellBasis edgeId edgeOrt w).mp hA
    rw [getEdgeCoeffMatrix_HGRAD_of_assembles output hw] at h
    by_cases hinfo : (Lapack.GESV w.ndofEdge w.refMat w.ortMat).1 ≠ 0
    · rw [if_pos hinfo] at h; simp at h
    · rw [if_neg hinfo] at h
      by_cases hroom : w.ndofEdge ≤ output.extent0 ∧ w.ndofEdge ≤ output.extent1
      · rw [if_pos hroom] at h
        simp only [Prod.mk.injEq, true_and] at h
        exact ⟨w, hw, not_not.mp hinfo, hroom.1, hroom.2, h.symm⟩
      · rw [if_neg hroom] at h; simp at h

/-- Whatever the outcome, a call that does not return normally leaves `output` as it was. -/
theorem getEdgeCoeffMatrix_HGRAD_error_output (tools : PointTools) (debug : Bool)
    (output : View2) (lineBasis cellBasis : Basis) (edgeId edgeOrt : Int) (e : Failure)
    (h : (getEdgeCoeffMatrix_HGRAD tools debug output lineBasis cellBasis edgeId edgeOrt).1
      = Except.error e) :
    (getEdgeCoeffMatrix_HGRAD tools debug output lineBasis cellBasis edgeId edgeOrt).2
      = output := by
  cases hA : edgeCoeffAssemble tools debug lineBasis cellBasis edgeId edgeOrt with
  | error e2 => rw [getEdgeCoeffMatrix_HGRAD_of_error output hA]
  | ok w =>
    have hw := (edgeCoeffAssemble_ok_iff tools debug lineBasis cellBasis edgeId edgeOrt w).mp hA
    rw [getEdgeCoeffMatrix_HGRAD_of_assembles output hw] at h ⊢
    by_cases hinfo : (Lapack.GESV w.ndofEdge w.refMat w.ortMat).1 ≠ 0
    · rw [if_pos hinfo]
    · rw [if_neg hinfo] at h ⊢
      by_cases hroom : w.ndofEdge ≤ output.extent0 ∧ w.ndofEdge ≤ output.extent1
      · rw [if_pos hroom] at h; simp at h
      · rw [if_neg hroom]

end Intrepid2

namespace Intrepid2

theorem block_ext (n : Nat) (A : View2) (M : Lapack.Mat n)
    (h : ∀ (j k : Nat) (hj : j < n) (hk : k < n), A.val j k = M ⟨j, hj⟩ ⟨k, hk⟩) :
    View2.block n A = M := by
  funext i j
  exact h i.val j.val i.isLt j.isLt

theorem withBlock_congr (output : View2) (n : Nat) (X Y : Nat → Nat → ℚ)
    (h : ∀ r c, r < n → c < n → X r c = Y r c) : withBlock output n X = withBlock output n Y := by
  unfold withBlock
  congr 1
  funext r c
  by_cases hrc : r < n ∧ c < n
  · rw [if_pos hrc, if_pos hrc, h r c hrc.1 hrc.2]
  · rw [if_neg hrc, if_neg hrc]

/-- A regular system is solved by the call: if `Y` solves `Ref · Y = Ort`, the call returns
normally and writes `Y`. -/
theorem getEdgeCoeffMatrix_HGRAD_of_solution {tools : PointTools} {debug : Bool}
    (output : View2) {lineBasis cellBasis : Basis} {edgeId edgeOrt : Int} {w : EdgeWork}
    (h : Assembles tools debug lineBasis cellBasis edgeId edgeOrt w)
    (hreg : (View2.block w.ndofEdge w.refMat).det ≠ 0) (Y : Lapack.Mat w.ndofEdge)
    (hY : View2.block w.ndofEdge w.refMat * Y = View2.block w.ndofEdge w.ortMat)
    (hroom : w.ndofEdge ≤ output.extent0 ∧ w.ndofEdge ≤ output.extent1) :
    getEdgeCoeffMatrix_HGRAD tools debug output lineBasis cellBasis edgeId edgeOrt =
      (Except.ok (), withBlock output w.ndofEdge (View2.ofMatrix w.ndofEdge Y).val) := by
  have hspec := Lapack.GESV_spec w.ndofEdge w.refMat w.ortMat
  have hinfo : (Lapack.GESV w.ndofEdge w.refMat w.ortMat).1 = 0 := hspec.1.mpr hreg
  have hsol := hspec.2 hinfo
  have hX : View2.block w.ndofEdge (Lapack.GESV w.ndofEdge w.refMat w.ortMat).2 = Y := by
    have hu : IsUnit (View2.block w.ndofEdge w.refMat).det := isUnit_iff_ne_zero.mpr hreg
    have h1 : (View2.block w.ndofEdge w.refMat)⁻¹ * (View2.block w.ndofEdge w.refMat *
        View2.block w.ndofEdge (Lapack.GESV w.ndofEdge w.refMat w.ortMat).2)
        = (View2.block w.ndofEdge w.refMat)⁻¹ * (View2.block w.ndofEdge w.refMat * Y) := by
      rw [hsol, hY]
    rwa [← Matrix.mul_assoc, ← Matrix.mul_assoc, Matrix.nonsing_inv_mul _ hu, Matrix.one_mul,
      Matrix.one_mul] at h1
  rw [getEdgeCoeffMatrix_HGRAD_of_assembles output h, if_neg (not_not.mpr hinfo), if_pos hroom]
  congr 1
  apply withBlock_congr
  intro r c hr hc
  have := congrFun (congrFun hX ⟨r, hr⟩) ⟨c, hc⟩
  simp only [View2.block] at this
  rw [this]
  simp [View2.ofMatrix, hr, hc]

/-- A singular collocation matrix makes the call fail with the numerical failure. -/
theorem getEdgeCoeffMatrix_HGRAD_of_singular {tools : PointTools} {debug : Bool}
    (output : View2) {lineBasis cellBasis : Basis} {edgeId edgeOrt : Int} {w : EdgeWork}
    (h : Assembles tools debug lineBasis cellBasis edgeId edgeOrt w)
    (hsing : (View2.block w.ndofEdge w.refMat).det = 0) :
    getEdgeCoeffMatrix_HGRAD tools debug output lineBasis cellBasis edgeId edgeOrt =
      (Except.error (Failure.runtime_error (Lapack.GESV w.ndofEdge w.refMat w.ortMat).1),
        output) ∧ (Lapack.GESV w.ndofEdge w.refMat w.ortMat).1 ≠ 0 := by
  have hspec := Lapack.GESV_spec w.ndofEdge w.refMat w.ortMat
  have hinfo : (Lapack.GESV w.ndofEdge w.refMat w.ortMat).1 ≠ 0 :=
    fun h0 => (hspec.1.mp h0) hsing
  exact ⟨by rw [getEdgeCoeffMatrix_HGRAD_of_assembles output h, if_pos hinfo], hinfo⟩

theorem row_one (v : View2) (h : v.extent1 = 1) (j : Nat) : v.row j = [v.val j 0] := by
  rw [View2.row, h]
  rfl

theorem EdgeSetup.setup_assembles {tools : PointTools} {lineBasis cellBasis : Basis}
    {edgeId : Int} {n : Nat} {L P : View2}
    (hc : EdgeSetup tools lineBasis cellBasis edgeId n L P) (debug : Bool)
    (hsize : debug = true →
      n = tools.getLatticeSize lineBasis.getBaseCellTopology cellBasis.getDegree 1)
    (edgeOrt : Int) (hort : edgeOrt = 0 ∨ edgeOrt = 1) :
    ∃ w, Assembles tools debug lineBasis cellBasis edgeId edgeOrt w ∧ w.ndofEdge = n ∧
      w.refPtsLine = L ∧ w.refPtsCell = P ∧ w.ortPtsLine = orientedPoints n L edgeOrt := by
  obtain ⟨res, hres⟩ := assemble_ok_of lineBasis cellBasis
    lineBasis.getBaseCellTopology.getDimension edgeId n
    (cellBasis.getValues (View2.zeros cellBasis.getCardinality n) P)
    (lineBasis.getValues (View2.zeros lineBasis.getCardinality n) (orientedPoints n L edgeOrt))
    (List.range n) (View2.zeros n n, View2.zeros n n)
    (fun i hi => hc.dofs i (List.mem_range.mp hi))
  refine ⟨⟨n, L, orientedPoints n L edgeOrt, P,
    cellBasis.getValues (View2.zeros cellBasis.getCardinality n) P,
    lineBasis.getValues (View2.zeros lineBasis.getCardinality n) (orientedPoints n L edgeOrt),
    res.1, res.2⟩, ?_, rfl, rfl, rfl, rfl⟩
  refine ⟨hc.ndof, hsize, hc.lattice, ?_, hc.subcell, rfl, rfl, hres⟩
  simp only [hc.line, mapToModifiedReference, orientedPoints]
  rcases hort with h0 | h1
  · simp [h0]
  · simp [h1]

theorem EdgeSetup.setup_row {tools : PointTools} {lineBasis cellBasis : Basis}
    {edgeId : Int} {n : Nat} {L P : View2}
    (hc : EdgeSetup tools lineBasis cellBasis edgeId n L P) (j : Nat) :
    L.row j = [L.val j 0] := by
  obtain ⟨pts, _, hL⟩ := hc.lattice
  apply row_one
  rw [hL, hc.line]
  rfl

/-- The entries of the two collocation matrices of a well-formed call. -/
theorem EdgeSetup.setup_entries {tools : PointTools} {lineBasis cellBasis : Basis}
    {edgeId : Int} {n : Nat} {L P : View2}
    (hc : EdgeSetup tools lineBasis cellBasis edgeId n L P) (debug : Bool)
    (hsize : debug = true →
      n = tools.getLatticeSize lineBasis.getBaseCellTopology cellBasis.getDegree 1)
    (edgeOrt : Int) (hort : edgeOrt = 0 ∨ edgeOrt = 1) :
    ∃ w, Assembles tools debug lineBasis cellBasis edgeId edgeOrt w ∧ w.ndofEdge = n ∧
      (∀ j i, j < n → i < n →
        w.refMat.val j i
          = cellBasis.value (cellOrdinal lineBasis cellBasis edgeId i) (P.row j)) ∧
      (∀ j i, j < n → i < n →
        w.ortMat.val j i = lineBasis.value (lineOrdinal lineBasis i)
          [if edgeOrt = 0 then L.val j 0 else - L.val j 0]) := by
  obtain ⟨w, hw, hn, hL, hP, hQ⟩ := hc.setup_assembles debug hsize edgeOrt hort
  refine ⟨w, hw, hn, ?_, ?_⟩
  · intro j i hj hi
    rw [hw.refMat_val j i (hn ▸ hj) (hn ▸ hi), hP]
  · intro j i hj hi
    rw [hw.ortMat_val j i (hn ▸ hj) (hn ▸ hi), hQ]
    rfl

end Intrepid2

namespace Intrepid2

theorem ConsistentPairing.lattice_row {tools : PointTools} {lineBasis cellBasis : Basis}
    {edgeId : Int} {n : Nat} {L P : View2}
    (hc : ConsistentPairing tools lineBasis cellBasis edgeId n L P) (j : Nat) :
    L.row j = [L.val j 0] := hc.setup.setup_row j

theorem ConsistentPairing.pairing_entries {tools : PointTools} {lineBasis cellBasis : Basis}
    {edgeId : Int} {n : Nat} {L P : View2}
    (hc : ConsistentPairing tools lineBasis cellBasis edgeId n L P) (debug : Bool)
    (edgeOrt : Int) (hort : edgeOrt = 0 ∨ edgeOrt = 1) :
    ∃ w, Assembles tools debug lineBasis cellBasis edgeId edgeOrt w ∧ w.ndofEdge = n ∧
      (∀ j i, j < n → i < n →
        w.refMat.val j i = lineBasis.value (lineOrdinal lineBasis i) [L.val j 0]) ∧
      (∀ j i, j < n → i < n →
        w.ortMat.val j i = lineBasis.value (lineOrdinal lineBasis i)
          [if edgeOrt = 0 then L.val j 0 else - L.val j 0]) := by
  obtain ⟨w, hw, hn, hV, hW⟩ := hc.setup.setup_entries debug (fun _ => hc.size) edgeOrt hort
  refine ⟨w, hw, hn, ?_, hW⟩
  intro j i hj hi
  rw [hV j i hj hi, hc.trace i j hi hj, hc.lattice_row]

/-- Orientation 0 on a consistent pairing: the call succeeds and writes the identity. -/
theorem identity_of_consistent {tools : PointTools} {lineBasis cellBasis : Basis}
    {edgeId : Int} {n : Nat} {L P : View2}
    (hc : ConsistentPairing tools lineBasis cellBasis edgeId n L P) (debug : Bool)
    (output : View2) (hroom : n ≤ output.extent0 ∧ n ≤ output.extent1) :
    getEdgeCoeffMatrix_HGRAD tools debug output lineBasis cellBasis edgeId 0 =
      (Except.ok (), withBlock output n (fun r c => if r = c then 1 else 0)) := by
  obtain ⟨w, hw, hn, hV, hW⟩ := hc.pairing_entries debug 0 (Or.inl rfl)
  subst hn
  have hVb : View2.block w.ndofEdge w.refMat
      = fun j i : Fin w.ndofEdge =>
        lineBasis.value (lineOrdinal lineBasis i.val) (L.row j.val) :=
    block_ext _ _ _ (fun j k hj hk => by rw [hV j k hj hk, hc.lattice_row])
  have hWb : View2.block w.ndofEdge w.ortMat = View2.block w.ndofEdge w.refMat := by
    rw [hVb]
    exact block_ext _ _ _ (fun j k hj hk => by rw [hW j k hj hk, hc.lattice_row]; simp)
  rw [getEdgeCoeffMatrix_HGRAD_of_solution output hw (by rw [hVb]; exact hc.unisolvent) 1
    (by rw [hWb, Matrix.mul_one]) hroom]
  congr 1
  apply withBlock_congr
  intro r c hr hc2
  simp [View2.ofMatrix, hr, hc2, Matrix.one_apply]

/-- Orientation 1 on a consistent pairing over a symmetric lattice: the call succeeds and
the matrix written is an involution. -/
theorem involution_of_consistent {tools : PointTools} {lineBasis cellBasis : Basis}
    {edgeId : Int} {n : Nat} {L P : View2}
    (hc : ConsistentPairing tools lineBasis cellBasis edgeId n L P)
    (hsym : SymmetricLattice n L) (debug : Bool)
    (output : View2) (hroom : n ≤ output.extent0 ∧ n ≤ output.extent1) :
    ∃ X1 : Nat → Nat → ℚ,
      getEdgeCoeffMatrix_HGRAD tools debug output lineBasis cellBasis edgeId 1 =
        (Except.ok (), withBlock output n X1) ∧
      ∀ i k, i < n → k < n →
        ∑ m in Finset.range n, X1 i m * X1 m k = if i = k then 1 else 0 := by
  obtain ⟨w, hw, hn, hV, hW⟩ := hc.pairing_entries debug 1 (Or.inr rfl)
  subst hn
  have hVb : View2.block w.ndofEdge w.refMat
      = fun j i : Fin w.ndofEdge =>
        lineBasis.value (lineOrdinal lineBasis i.val) (L.row j.val) :=
    block_ext _ _ _ (fun j k hj hk => by rw [hV j k hj hk, hc.lattice_row])
  have hreg : (View2.block w.ndofEdge w.refMat).det ≠ 0 := by rw [hVb]; exact hc.unisolvent
  have hu : IsUnit (View2.block w.ndofEdge w.refMat).det := isUnit_iff_ne_zero.mpr hreg
  have hY : View2.block w.ndofEdge w.refMat *
      ((View2.block w.ndofEdge w.refMat)⁻¹ * View2.block w.ndofEdge w.ortMat)
      = View2.block w.ndofEdge w.ortMat := by
    rw [← Matrix.mul_assoc, Matrix.mul_nonsing_inv _ hu, Matrix.one_mul]
  -- the oriented collocation matrix, multiplied by the solution, gives back `Ref`
  have hback : View2.block w.ndofEdge w.ortMat *
      ((View2.block w.ndofEdge w.refMat)⁻¹ * View2.block w.ndofEdge w.ortMat)
      = View2.block w.ndofEdge w.refMat := by
    funext j k
    obtain ⟨m, hm, hLm⟩ := hsym j.val j.isLt
    have hrow : ∀ i : Fin w.ndofEdge, View2.block w.ndofEdge w.ortMat j i
        = View2.block w.ndofEdge w.refMat ⟨m, hm⟩ i := by
      intro i
      simp only [View2.block]
      rw [hW j.val i.val j.isLt i.isLt, hV m i.val hm i.isLt, hLm]
      simp
    have h1 : (View2.block w.ndofEdge w.ortMat *
        ((View2.block w.ndofEdge w.refMat)⁻¹ * View2.block w.ndofEdge w.ortMat)) j k
        = (View2.block w.ndofEdge w.refMat *
        ((View2.block w.ndofEdge w.refMat)⁻¹ * View2.block w.ndofEdge w.ortMat)) ⟨m, hm⟩ k := by
      rw [Matrix.mul_apply, Matrix.mul_apply]
      exact Finset.sum_congr rfl (fun i _ => by rw [hrow i])
    rw [h1, hY]
    simp only [View2.block]
    rw [hW m k.val hm k.isLt, hV j.val k.val j.isLt k.isLt, hLm]
    simp
  have hinv : ((View2.block w.ndofEdge w.refMat)⁻¹ * View2.block w.ndofEdge w.ortMat) *
      ((View2.block w.ndofEdge w.refMat)⁻¹ * View2.block w.ndofEdge w.ortMat) = 1 := by
    rw [Matrix.mul_assoc, hback, Matrix.nonsing_inv_mul _ hu]
  refine ⟨(View2.ofMatrix w.ndofEdge
    ((View2.block w.ndofEdge w.refMat)⁻¹ * View2.block w.ndofEdge w.ortMat)).val,
    getEdgeCoeffMatrix_HGRAD_of_solution output hw hreg _ hY hroom, ?_⟩
  intro i k hi hk
  have h2 := congrFun (congrFun hinv ⟨i, hi⟩) ⟨k, hk⟩
  rw [Matrix.mul_apply, Matrix.one_apply] at h2
  rw [Finset.sum_range]
  simp only [Fin.mk.injEq] at h2
  rw [← h2]
  apply Finset.sum_congr rfl
  intro m _
  simp [View2.ofMatrix, hi, hk, m.isLt]

end Intrepid2

namespace Intrepid2

theorem equispacedPoint_zero (d : Nat) : equispacedPoint d 0 = -1 := by
  simp [equispacedPoint]

theorem equispacedPoint_injective (d : Nat) (hd : 1 ≤ d) (a b : Nat)
    (h : equispacedPoint d a = equispacedPoint d b) : a = b := by
  have hd0 : (d : ℚ) ≠ 0 := by exact_mod_cast (by omega : d ≠ 0)
  simp only [equispacedPoint] at h
  have h1 : 2 * (a : ℚ) / d = 2 * (b : ℚ) / d := by linarith
  rw [div_left_inj' hd0] at h1
  have h2 : (a : ℚ) = b := by linarith
  exact_mod_cast h2

theorem equispacedPoint_reflect (d : Nat) (hd : 1 ≤ d) (m : Nat) (hm : m ≤ d) :
    equispacedPoint d (d - m) = - equispacedPoint d m := by
  have hd0 : (d : ℚ) ≠ 0 := by exact_mod_cast (by omega : d ≠ 0)
  simp only [equispacedPoint]
  rw [Nat.cast_sub hm]
  field_simp
  ring

theorem lagrange_node (d : Nat) (hd : 1 ≤ d) (a b : Nat) (hb : b ≤ d) :
    lagrange d a (equispacedPoint d b) = if a = b then 1 else 0 := by
  unfold lagrange
  by_cases hab : a = b
  · subst hab
    rw [if_pos rfl]
    apply List.prod_eq_one
    intro x hx
    obtain ⟨m, _, rfl⟩ := List.mem_map.mp hx
    by_cases hma : m = a
    · rw [if_pos hma]
    · rw [if_neg hma]
      apply div_self
      intro h0
      exact hma (equispacedPoint_injective d hd _ _ (sub_eq_zero.mp h0)).symm
  · rw [if_neg hab]
    apply List.prod_eq_zero
    apply List.mem_map.mpr
    refine ⟨b, List.mem_range.mpr (by omega), ?_⟩
    rw [if_neg (fun h => hab h.symm), sub_self, zero_div]

theorem quad_edge0_ordinal (d i : Nat) (hi : i + 1 < d) :
    (quadBasisCn d).getDofOrdinal
      (lineBasisCn d).getBaseCellTopology.getDimension 0 i = some (i + 1) := by
  have h1 : ((i : Int) + 1 < (d : Int)) := by exact_mod_cast hi
  simp [quadBasisCn, lineBasisCn, h1]

theorem line_interior_ordinal (d i : Nat) (hi : i + 1 < d) :
    (lineBasisCn d).getDofOrdinal
      (lineBasisCn d).getBaseCellTopology.getDimension 0 i = some (i + 1) := by
  have h1 : ((i : Int) + 1 < (d : Int)) := by exact_mod_cast hi
  simp [lineBasisCn, h1]

theorem quad_edge0_tag (d : Nat) (hd : 2 ≤ d) :
    (quadBasisCn d).getDofTag ((1 : Nat) : Int) = some ⟨1, 0, 0, d - 1⟩ := by
  have h1 : ((1 : Int) < ((d : Int) + 1) * ((d : Int) + 1)) := by nlinarith [(by exact_mod_cast hd : (2 : Int) ≤ d)]
  have h2 : 1 % (d + 1) = 1 := Nat.mod_eq_of_lt (by omega)
  have h3 : 1 / (d + 1) = 0 := Nat.div_eq_of_lt (by omega)
  have h4 : ¬ (1 = d) := by omega
  simp [quadBasisCn, h1, h2, h3, quadTag, h4]

theorem edgeLattice_val (d j : Nat) (hj : j < d - 1) :
    (edgeLattice d).val j 0 = equispacedPoint d (j + 1) := by
  simp only [edgeLattice, View2.fill]
  rw [if_pos (by omega)]

theorem cn_setup (d : Nat) (hd : 2 ≤ d) :
    EdgeSetup referenceTools (lineBasisCn d) (quadBasisCn d) 0 (d - 1)
      (edgeLattice d) (edgeCellPoints d) where
  line := rfl
  ndof := ⟨1, ⟨1, 0, 0, d - 1⟩, quad_edge0_ordinal d 0 (by omega), quad_edge0_tag d hd, rfl⟩
  lattice := by
    refine ⟨fun i _ => if i < d + 1 - 2 * 1 then equispacedPoint d (i + 1) else 0, ?_, rfl⟩
    simp only [referenceTools, lineBasisCn, quadBasisCn, View2.zeros]
    rw [if_pos (by omega)]
  subcell := by
    refine ⟨fun j c => if c = 0 then (edgeLattice d).val j 0 else -1, ?_, rfl⟩
    simp [referenceTools, lineBasisCn, quadBasisCn]
  dofs := by
    intro i hi
    rw [quad_edge0_ordinal d i (by omega), line_interior_ordinal d i (by omega)]
    exact ⟨rfl, rfl⟩

theorem cn_consistent (d : Nat) (hd : 2 ≤ d) :
    ConsistentPairing referenceTools (lineBasisCn d) (quadBasisCn d) 0 (d - 1)
      (edgeLattice d) (edgeCellPoints d) where
  setup := cn_setup d hd
  degree := rfl
  size := by
    show d - 1 = d + 1 - 2 * 1
    omega
  trace := by
    intro i j hi hj
    have hrowP : (edgeCellPoints d).row j = [(edgeLattice d).val j 0, -1] := by
      simp [View2.row, edgeCellPoints, View2.fill, View2.zeros, List.range_succ]
    have hrowL : (edgeLattice d).row j = [(edgeLattice d).val j 0] := by
      simp [View2.row, edgeLattice, View2.fill, View2.zeros]
    have hmod : (i + 1) % (d + 1) = i + 1 := Nat.mod_eq_of_lt (by omega)
    have hdiv : (i + 1) / (d + 1) = 0 := Nat.div_eq_of_lt (by omega)
    have hy : lagrange d 0 (-1) = 1 := by
      have := lagrange_node d (by omega) 0 0 (by omega)
      rwa [equispacedPoint_zero, if_pos rfl] at this
    simp only [cellOrdinal, lineOrdinal, quad_edge0_ordinal d i (by omega),
      line_interior_ordinal d i (by omega), Option.getD_some, hrowP, hrowL]
    simp [quadBasisCn, lineBasisCn, hmod, hdiv, hy]
  unisolvent := by
    have : (fun j i : Fin (d - 1) => (lineBasisCn d).value (lineOrdinal (lineBasisCn d) i.val)
        ((edgeLattice d).row j.val)) = (1 : Matrix (Fin (d - 1)) (Fin (d - 1)) ℚ) := by
      funext j i
      have hrowL : (edgeLattice d).row j.val = [(edgeLattice d).val j.val 0] := by
        simp [View2.row, edgeLattice, View2.fill, View2.zeros]
      simp only [lineOrdinal, line_interior_ordinal d i.val (by omega), Option.getD_some, hrowL,
        edgeLattice_val d j.val j.isLt]
      simp only [lineBasisCn, List.getD_cons_zero]
      rw [lagrange_node d (by omega) _ _ (by omega), Matrix.one_apply]
      simp only [add_left_inj, Fin.ext_iff]
      by_cases h : i.val = j.val
      · rw [if_pos h, if_pos h.symm]
      · rw [if_neg h, if_neg (fun h2 => h h2.symm)]
    rw [this, Matrix.det_one]
    exact one_ne_zero

theorem edgeLattice_symmetric (d : Nat) (hd : 2 ≤ d) : SymmetricLattice (d - 1) (edgeLattice d) := by
  intro j hj
  refine ⟨d - 2 - j, by omega, ?_⟩
  rw [edgeLattice_val d _ (by omega), edgeLattice_val d j hj]
  have : d - 2 - j + 1 = d - (j + 1) := by omega
  rw [this, equispacedPoint_reflect d (by omega) (j + 1) (by omega)]

end Intrepid2

namespace Intrepid2

theorem withBlock_val (output : View2) (n : Nat) (X : Nat → Nat → ℚ) (r c : Nat)
    (hr : r < n) (hc : c < n) : (withBlock output n X).val r c = X r c := by
  simp [withBlock, View2.fill, hr, hc]

theorem withBlock_val_outside (output : View2) (n : Nat) (X : Nat → Nat → ℚ) (r c : Nat)
    (h : ¬ (r < n ∧ c < n)) : (withBlock output n X).val r c = output.val r c := by
  simp only [withBlock, View2.fill]
  rw [if_neg h]

/-- A cell basis that is nodal on the cell points: the call succeeds and writes the values
of the line basis at the oriented points. -/
theorem solution_of_nodal {tools : PointTools} {lineBasis cellBasis : Basis}
    {edgeId : Int} {n : Nat} {L P : View2}
    (hc : EdgeSetup tools lineBasis cellBasis edgeId n L P) (debug : Bool)
    (hsize : debug = true →
      n = tools.getLatticeSize lineBasis.getBaseCellTopology cellBasis.getDegree 1)
    (edgeOrt : Int) (hort : edgeOrt = 0 ∨ edgeOrt = 1)
    (hnodal : ∀ j i, j < n → i < n →
      cellBasis.value (cellOrdinal lineBasis cellBasis edgeId i) (P.row j)
        = if j = i then 1 else 0)
    (Y : Nat → Nat → ℚ)
    (hY : ∀ j i, j < n → i < n →
      lineBasis.value (lineOrdinal lineBasis i)
        [if edgeOrt = 0 then L.val j 0 else - L.val j 0] = Y j i)
    (output : View2) (hroom : n ≤ output.extent0 ∧ n ≤ output.extent1) :
    getEdgeCoeffMatrix_HGRAD tools debug output lineBasis cellBasis edgeId edgeOrt =
      (Except.ok (), withBlock output n Y) := by
  obtain ⟨w, hw, hn, hV, hW⟩ := hc.setup_entries debug hsize edgeOrt hort
  subst hn
  have hVb : View2.block w.ndofEdge w.refMat = 1 :=
    block_ext _ _ _ (fun j k hj hk => by
      rw [hV j k hj hk, hnodal j k hj hk, Matrix.one_apply]
      simp only [Fin.mk.injEq])
  rw [getEdgeCoeffMatrix_HGRAD_of_solution output hw
    (by rw [hVb, Matrix.det_one]; exact one_ne_zero) (View2.block w.ndofEdge w.ortMat)
    (by rw [hVb, Matrix.one_mul]) hroom]
  congr 1
  apply withBlock_congr
  intro r c hr hc2
  simp only [View2.ofMatrix, View2.block]
  rw [dif_pos ⟨hr, hc2⟩, hW r c hr hc2, hY r c hr hc2]

/-- A singular collocation matrix of a well-formed call: the numerical failure. -/
theorem singular_of_setup {tools : PointTools} {lineBasis cellBasis : Basis}
    {edgeId : Int} {n : Nat} {L P : View2}
    (hc : EdgeSetup tools lineBasis cellBasis edgeId n L P) (debug : Bool)
    (hsize : debug = true →
      n = tools.getLatticeSize lineBasis.getBaseCellTopology cellBasis.getDegree 1)
    (edgeOrt : Int) (hort : edgeOrt = 0 ∨ edgeOrt = 1)
    (hsing : Matrix.det (fun j i : Fin n =>
      cellBasis.value (cellOrdinal lineBasis cellBasis edgeId i.val) (P.row j.val)) = 0) :
    ∃ w, Assembles tools debug lineBasis cellBasis edgeId edgeOrt w ∧
      (View2.block w.ndofEdge w.refMat).det = 0 := by
  obtain ⟨w, hw, hn, hV, _⟩ := hc.setup_entries debug hsize edgeOrt hort
  subst hn
  refine ⟨w, hw, ?_⟩
  have hVb : View2.block w.ndofEdge w.refMat = fun j i : Fin w.ndofEdge =>
      cellBasis.value (cellOrdinal lineBasis cellBasis edgeId i.val) (P.row j.val) :=
    block_ext _ _ _ (fun j k hj hk => hV j k hj hk)
  rw [hVb]
  exact hsing

/-- An orientation code that is not 0 or 1 makes the call fail with a configuration
error. -/
theorem invalid_orientation (tools : PointTools) (debug : Bool) (output : View2)
    (lineBasis cellBasis : Basis) (edgeId edgeOrt : Int) (h0 : edgeOrt ≠ 0)
    (h1 : edgeOrt ≠ 1) :
    getEdgeCoeffMatrix_HGRAD tools debug output lineBasis cellBasis edgeId edgeOrt =
      (Except.error Failure.logic_error, output) := by
  cases hA : edgeCoeffAssemble tools debug lineBasis cellBasis edgeId edgeOrt with
  | error e => exact getEdgeCoeffMatrix_HGRAD_of_error output hA
  | ok w =>
    have hw := (edgeCoeffAssemble_ok_iff tools debug lineBasis cellBasis edgeId edgeOrt w).mp hA
    have hQ := hw.oriented
    unfold mapToModifiedReference at hQ
    split at hQ
    · rw [if_neg h0, if_neg h1] at hQ; cases hQ
    · cases hQ

/-- The debug build rejects a DOF count that is not the lattice size. -/
theorem debug_size_mismatch (tools : PointTools) (output : View2)
    (lineBasis cellBasis : Basis) (edgeId edgeOrt : Int) (ordEdge : Nat) (tag : DofTag)
    (hord : cellBasis.getDofOrdinal lineBasis.getBaseCellTopology.getDimension edgeId 0
      = some ordEdge)
    (htag : cellBasis.getDofTag ordEdge = some tag)
    (hne : tag.dofCount ≠
      tools.getLatticeSize lineBasis.getBaseCellTopology cellBasis.getDegree 1) :
    getEdgeCoeffMatrix_HGRAD tools true output lineBasis cellBasis edgeId edgeOrt =
      (Except.error Failure.logic_error, output) := by
  cases hA : edgeCoeffAssemble tools true lineBasis cellBasis edgeId edgeOrt with
  | error e => exact getEdgeCoeffMatrix_HGRAD_of_error output hA
  | ok w =>
    exfalso
    have hw := (edgeCoeffAssemble_ok_iff tools true lineBasis cellBasis edgeId edgeOrt w).mp hA
    obtain ⟨ordEdge2, tag2, h1, h2, h3⟩ := hw.ndof
    rw [hord] at h1
    cases h1
    rw [htag] at h2
    cases h2
    exact hne (h3 ▸ hw.size rfl)

theorem lagrange_two_one_zero : lagrange 2 1 0 = 1 := by
  have h : equispacedPoint 2 1 = 0 := by norm_num [equispacedPoint]
  have := lagrange_node 2 (by norm_num) 1 1 (by norm_num)
  rwa [h, if_pos rfl] at this

theorem lagrange_zero_left (d : Nat) (hd : 1 ≤ d) : lagrange d 0 (-1) = 1 := by
  have := lagrange_node d hd 0 0 (by omega)
  rwa [equispacedPoint_zero, if_pos rfl] at this

theorem misreporting_setup :
    EdgeSetup referenceTools (lineBasisCn 2) misreportingBasis 0 1 staleLattice
      staleCellPoints where
  line := rfl
  ndof := ⟨1, ⟨1, 0, 0, 1⟩, quad_edge0_ordinal 2 0 (by norm_num),
    quad_edge0_tag 2 (by norm_num), rfl⟩
  lattice := by
    refine ⟨fun _ _ => 0, ?_, rfl⟩
    simp [referenceTools, lineBasisCn, misreportingBasis, View2.zeros]
  subcell := by
    refine ⟨fun j c => if c = 0 then staleLattice.val j 0 else -1, ?_, rfl⟩
    simp [referenceTools, lineBasisCn, quadBasisCn, misreportingBasis]
  dofs := by
    intro i hi
    have hi0 : i = 0 := by omega
    subst hi0
    exact ⟨by rw [show misreportingBasis.getDofOrdinal = (quadBasisCn 2).getDofOrdinal from rfl,
      quad_edge0_ordinal 2 0 (by norm_num)]; rfl,
      by rw [line_interior_ordinal 2 0 (by norm_num)]; rfl⟩

theorem misreporting_returns (output : View2)
    (hroom : 1 ≤ output.extent0 ∧ 1 ≤ output.extent1) :
    getEdgeCoeffMatrix_HGRAD referenceTools false output (lineBasisCn 2) misreportingBasis 0 0
      = (Except.ok (), withBlock output 1 (fun _ _ => 1)) := by
  apply solution_of_nodal misreporting_setup false (fun h => by cases h) 0 (Or.inl rfl) _ _ _
    output hroom
  · intro j i hj hi
    have hj0 : j = 0 := by omega
    have hi0 : i = 0 := by omega
    subst hj0 hi0
    have hrow : staleCellPoints.row 0 = [0, -1] := by
      simp [View2.row, staleCellPoints, staleLattice, View2.fill, View2.zeros, List.range_succ]
    have hord : cellOrdinal (lineBasisCn 2) misreportingBasis 0 0 = 1 := by
      simp only [cellOrdinal]
      rw [show misreportingBasis.getDofOrdinal = (quadBasisCn 2).getDofOrdinal from rfl,
        quad_edge0_ordinal 2 0 (by norm_num)]
      rfl
    rw [hord, hrow]
    show lagrange 2 (1 % (2 + 1)) 0 * lagrange 2 (1 / (2 + 1)) (-1) = _
    rw [show 1 % (2 + 1) = 1 from rfl, show 1 / (2 + 1) = 0 from rfl, lagrange_two_one_zero,
      lagrange_zero_left 2 (by norm_num)]
    simp
  · intro j i hj hi
    have hi0 : i = 0 := by omega
    subst hi0
    have hord : lineOrdinal (lineBasisCn 2) 0 = 1 := by
      simp only [lineOrdinal]
      rw [line_interior_ordinal 2 0 (by norm_num)]
      rfl
    rw [hord]
    show lagrange 2 1 _ = 1
    simp only [staleLattice, View2.fill, if_true]
    exact lagrange_two_one_zero

theorem degenerate_setup :
    EdgeSetup referenceTools (lineBasisCn 2) degenerateBasis 0 1 (edgeLattice 2)
      (edgeCellPoints 2) where
  line := rfl
  ndof := (cn_setup 2 le_rfl).ndof
  lattice := (cn_setup 2 le_rfl).lattice
  subcell := (cn_setup 2 le_rfl).subcell
  dofs := (cn_setup 2 le_rfl).dofs

/-- The matrix written for orientation 1 at degree `d`: the reversal permutation. -/
theorem cn_reversal (d : Nat) (hd : 2 ≤ d) (debug : Bool) (output : View2)
    (hroom : d - 1 ≤ output.extent0 ∧ d - 1 ≤ output.extent1) :
    getEdgeCoeffMatrix_HGRAD referenceTools debug output (lineBasisCn d) (quadBasisCn d) 0 1
      = (Except.ok (), withBlock output (d - 1) (fun r c => if r + c + 2 = d then 1 else 0)) := by
  have hc := cn_consistent d hd
  apply solution_of_nodal hc.setup debug (fun _ => hc.size) 1 (Or.inr rfl) _ _ _ output hroom
  · intro j i hj hi
    rw [hc.trace i j hi hj, hc.lattice_row, edgeLattice_val d j hj]
    simp only [lineOrdinal, line_interior_ordinal d i (by omega), Option.getD_some]
    show lagrange d (i + 1) (equispacedPoint d (j + 1)) = _
    rw [lagrange_node d (by omega) (i + 1) (j + 1) (by omega)]
    by_cases h : j = i
    · rw [if_pos (by omega), if_pos h]
    · rw [if_neg (by omega), if_neg h]
  · intro j i hj hi
    simp only [lineOrdinal, line_interior_ordinal d i (by omega), Option.getD_some]
    rw [if_neg (by norm_num), edgeLattice_val d j hj,
      ← equispacedPoint_reflect d (by omega) (j + 1) (by omega)]
    show lagrange d (i + 1) (equispacedPoint d (d - (j + 1))) = _
    rw [lagrange_node d (by omega) (i + 1) (d - (j + 1)) (by omega)]
    by_cases h : j + i + 2 = d
    · rw [if_pos (by omega), if_pos h]
    · rw [if_neg (by omega), if_neg h]

end Intrepid2

namespace Intrepid2

/-! ## The claims -/

/-- C2, amended: for every consistent pairing of a line basis and a cell basis of matching
degree and every edge id on which the cell basis numbers its edge functions along the
direction of the edge, `getEdgeCoeffMatrix_HGRAD` called with orientation code 0 returns
normally and writes the `n × n` identity matrix, exactly.  The pairing is consistent on
such an edge when the call is well-formed, the trace of the `i`-th edge function of the
cell basis agrees on the lattice with the `i`-th interior function of the line basis, and
the collocation matrix is regular (`ConsistentPairing`). -/
theorem edge_coeff_identity_orientation (tools : PointTools) (lineBasis cellBasis : Basis)
    (edgeId : Int) (n : Nat) (L P : View2)
    (hc : ConsistentPairing tools lineBasis cellBasis edgeId n L P) (debug : Bool)
    (output : View2) (hroom : n ≤ output.extent0 ∧ n ≤ output.extent1) :
    getEdgeCoeffMatrix_HGRAD tools debug output lineBasis cellBasis edgeId 0 =
      (Except.ok (), withBlock output n (fun r c => if r = c then 1 else 0)) :=
  identity_of_consistent hc debug output hroom

/-- Witness of C2 (amended): the degree-5 line and quadrilateral bases on edge 0. -/
theorem edge_coeff_identity_orientation_witness :
    ConsistentPairing referenceTools (lineBasisCn 5) (quadBasisCn 5) 0 4 (edgeLattice 5)
      (edgeCellPoints 5) ∧
    (4 ≤ (View2.zeros 6 6).extent0 ∧ 4 ≤ (View2.zeros 6 6).extent1) ∧
    getEdgeCoeffMatrix_HGRAD referenceTools true (View2.zeros 6 6) (lineBasisCn 5)
        (quadBasisCn 5) 0 0 =
      (Except.ok (), withBlock (View2.zeros 6 6) 4 (fun r c => if r = c then 1 else 0)) :=
  ⟨cn_consistent 5 (by norm_num), ⟨by decide, by decide⟩,
   edge_coeff_identity_orientation referenceTools (lineBasisCn 5) (quadBasisCn 5) 0 4
     (edgeLattice 5) (edgeCellPoints 5) (cn_consistent 5 (by norm_num)) true (View2.zeros 6 6)
     ⟨by decide, by decide⟩⟩

/-- C4: for the degree-5 line basis and the degree-5 quadrilateral basis, edge 0 and
orientation code 0, the call computes `n = 4` interior edge DOFs (the local DOF indices
0..3 exist on edge 0, index 4 does not) and writes the `4 × 4` identity matrix. -/
theorem edge_coeff_degree5_identity (debug : Bool) (output : View2)
    (hroom : 4 ≤ output.extent0 ∧ 4 ≤ output.extent1) :
    (∃ w, edgeCoeffAssemble referenceTools debug (lineBasisCn 5) (quadBasisCn 5) 0 0
      = Except.ok w ∧ w.ndofEdge = 4) ∧
    (∀ i : Nat, i < 4 → ((quadBasisCn 5).getDofOrdinal 1 0 i).isSome) ∧
    (quadBasisCn 5).getDofOrdinal 1 0 4 = none ∧
    getEdgeCoeffMatrix_HGRAD referenceTools debug output (lineBasisCn 5) (quadBasisCn 5) 0 0
      = (Except.ok (), withBlock output 4 (fun r c => if r = c then 1 else 0)) := by
  refine ⟨?_, ?_, ?_, identity_of_consistent (cn_consistent 5 (by norm_num)) debug output hroom⟩
  · obtain ⟨w, hw, hn, _⟩ := (cn_consistent 5 (by norm_num)).pairing_entries debug 0 (Or.inl rfl)
    exact ⟨w, (edgeCoeffAssemble_ok_iff _ _ _ _ _ _ _).mpr hw, hn⟩
  · intro i hi
    have := quad_edge0_ordinal 5 i (by omega)
    rw [show ((lineBasisCn 5).getBaseCellTopology.getDimension : Int) = 1 from rfl] at this
    rw [this]
    rfl
  · decide

/-- Witness of C4: an output view of six rows and six columns. -/
theorem edge_coeff_degree5_identity_witness :
    (4 ≤ (View2.zeros 6 6).extent0 ∧ 4 ≤ (View2.zeros 6 6).extent1) ∧
    (∃ w, edgeCoeffAssemble referenceTools true (lineBasisCn 5) (quadBasisCn 5) 0 0
      = Except.ok w ∧ w.ndofEdge = 4) ∧
    (∀ i : Nat, i < 4 → ((quadBasisCn 5).getDofOrdinal 1 0 i).isSome) ∧
    (quadBasisCn 5).getDofOrdinal 1 0 4 = none ∧
    getEdgeCoeffMatrix_HGRAD referenceTools true (View2.zeros 6 6) (lineBasisCn 5)
        (quadBasisCn 5) 0 0
      = (Except.ok (), withBlock (View2.zeros 6 6) 4 (fun r c => if r = c then 1 else 0)) :=
  ⟨⟨by decide, by decide⟩,
   edge_coeff_degree5_identity true (View2.zeros 6 6) ⟨by decide, by decide⟩⟩

/-- C5: for the degree-5 line basis and the degree-5 quadrilateral basis, edge 0 and
orientation code 1, the collocation lattice being the equispaced interior points of the
edge, the call writes the `4 × 4` antidiagonal identity: entry `(i, j)` is 1 when
`i + j = 3` and 0 otherwise. -/
theorem edge_coeff_degree5_reversal (debug : Bool) (output : View2)
    (hroom : 4 ≤ output.extent0 ∧ 4 ≤ output.extent1) :
    (∃ w, edgeCoeffAssemble referenceTools debug (lineBasisCn 5) (quadBasisCn 5) 0 1
      = Except.ok w ∧ w.ndofEdge = 4 ∧
      ∀ j, j < 4 → w.refPtsLine.val j 0 = equispacedPoint 5 (j + 1)) ∧
    getEdgeCoeffMatrix_HGRAD referenceTools debug output (lineBasisCn 5) (quadBasisCn 5) 0 1
      = (Except.ok (), withBlock output 4 (fun i j => if i + j = 3 then 1 else 0)) := by
  constructor
  · have hc := cn_consistent 5 (by norm_num)
    obtain ⟨w, hw, hn, hL, _⟩ := hc.setup.setup_assembles debug (fun _ => hc.size) 1 (Or.inr rfl)
    refine ⟨w, (edgeCoeffAssemble_ok_iff _ _ _ _ _ _ _).mpr hw, hn, ?_⟩
    intro j hj
    rw [hL]
    exact edgeLattice_val 5 j hj
  · rw [cn_reversal 5 (by norm_num) debug output hroom]
    congr 1
    apply withBlock_congr
    intro r c _ _
    by_cases h : r + c = 3
    · rw [if_pos (by omega), if_pos h]
    · rw [if_neg (by omega), if_neg h]

/-- Witness of C5: an output view of four rows and four columns. -/
theorem edge_coeff_degree5_reversal_witness :
    (4 ≤ (View2.zeros 4 4).extent0 ∧ 4 ≤ (View2.zeros 4 4).extent1) ∧
    (∃ w, edgeCoeffAssemble referenceTools true (lineBasisCn 5) (quadBasisCn 5) 0 1
      = Except.ok w ∧ w.ndofEdge = 4 ∧
      ∀ j, j < 4 → w.refPtsLine.val j 0 = equispacedPoint 5 (j + 1)) ∧
    getEdgeCoeffMatrix_HGRAD referenceTools true (View2.zeros 4 4) (lineBasisCn 5)
        (quadBasisCn 5) 0 1
      = (Except.ok (), withBlock (View2.zeros 4 4) 4 (fun i j => if i + j = 3 then 1 else 0)) :=
  ⟨⟨le_rfl, le_rfl⟩, edge_coeff_degree5_reversal true (View2.zeros 4 4) ⟨le_rfl, le_rfl⟩⟩

end Intrepid2

namespace Intrepid2

/-- C6, as stated, fails: for the degree-5 pairing on edge 0 the call returns normally with
`n = 4`, and its lattice `refPtsLine` has four rows and one column, not four columns. -/
theorem edge_lattice_not_square :
    ∃ w, edgeCoeffAssemble referenceTools true (lineBasisCn 5) (quadBasisCn 5) 0 0
        = Except.ok w ∧
      (getEdgeCoeffMatrix_HGRAD referenceTools true (View2.zeros 4 4) (lineBasisCn 5)
        (quadBasisCn 5) 0 0).1 = Except.ok () ∧
      w.ndofEdge = 4 ∧ w.refPtsLine.extent0 = 4 ∧ w.refPtsLine.extent1 = 1 ∧
      w.refPtsLine.extent1 ≠ w.ndofEdge := by
  have hc := cn_consistent 5 (by norm_num)
  obtain ⟨w, hw, hn, hL, _⟩ := hc.setup.setup_assembles true (fun _ => hc.size) 0 (Or.inl rfl)
  have hext := hw.point_extents
  refine ⟨w, (edgeCoeffAssemble_ok_iff _ _ _ _ _ _ _).mpr hw, ?_, hn, ?_, ?_, ?_⟩
  · rw [identity_of_consistent hc true (View2.zeros 4 4) ⟨le_rfl, le_rfl⟩]
  · rw [hext.1, hn]
  · rw [hext.2.1]; rfl
  · rw [hext.2.1, hn]; decide

/-- C6, amended: for every call of `getEdgeCoeffMatrix_HGRAD` that returns normally, the
number `n` is component 3 of the tag `getDofTag(getDofOrdinal(lineDim, edgeId, 0))` of the
cell basis; the lattice has `n` rows and `lineDim` columns; both collocation matrices and
the matrix produced by the solver have `n` rows and `n` columns; and the output is the
previous output with that matrix written to its leading `n × n` block. -/
theorem edge_coeff_sizes (tools : PointTools) (debug : Bool) (output : View2)
    (lineBasis cellBasis : Basis) (edgeId edgeOrt : Int) (out : View2)
    (hret : getEdgeCoeffMatrix_HGRAD tools debug output lineBasis cellBasis edgeId edgeOrt
      = (Except.ok (), out)) :
    ∃ w ordEdge tag,
      edgeCoeffAssemble tools debug lineBasis cellBasis edgeId edgeOrt = Except.ok w ∧
      cellBasis.getDofOrdinal lineBasis.getBaseCellTopology.getDimension edgeId 0
        = some ordEdge ∧
      cellBasis.getDofTag ordEdge = some tag ∧ w.ndofEdge = tag.dofCount ∧
      w.refPtsLine.extent0 = w.ndofEdge ∧
      w.refPtsLine.extent1 = lineBasis.getBaseCellTopology.getDimension ∧
      w.refMat.extent0 = w.ndofEdge ∧ w.refMat.extent1 = w.ndofEdge ∧
      w.ortMat.extent0 = w.ndofEdge ∧ w.ortMat.extent1 = w.ndofEdge ∧
      (Lapack.GESV w.ndofEdge w.refMat w.ortMat).2.extent0 = w.ndofEdge ∧
      (Lapack.GESV w.ndofEdge w.refMat w.ortMat).2.extent1 = w.ndofEdge ∧
      w.ndofEdge ≤ output.extent0 ∧ w.ndofEdge ≤ output.extent1 ∧
      out = withBlock output w.ndofEdge (Lapack.GESV w.ndofEdge w.refMat w.ortMat).2.val := by
  obtain ⟨w, hw, hinfo, hr0, hr1, hout⟩ := getEdgeCoeffMatrix_HGRAD_ok_inv hret
  obtain ⟨ordEdge, tag, h1, h2, h3⟩ := hw.ndof
  have hp := hw.point_extents
  have hm := hw.mat_extents
  have hX : (Lapack.GESV w.ndofEdge w.refMat w.ortMat).2
      = View2.ofMatrix w.ndofEdge
        (Lapack.eliminate w.ndofEdge 0 (View2.block w.ndofEdge w.refMat)
          (View2.block w.ndofEdge w.ortMat)).2 := by
    have h0 := hinfo
    unfold Lapack.GESV at h0 ⊢
    by_cases hz : (Lapack.eliminate w.ndofEdge 0 (View2.block w.ndofEdge w.refMat)
        (View2.block w.ndofEdge w.ortMat)).1 = 0
    · simp only [hz, if_true]
    · simp [hz] at h0
  exact ⟨w, ordEdge, tag, (edgeCoeffAssemble_ok_iff _ _ _ _ _ _ _).mpr hw, h1, h2, h3,
    hp.1, hp.2.1, hm.1, hm.2.1, hm.2.2.1, hm.2.2.2, by rw [hX]; rfl, by rw [hX]; rfl,
    hr0, hr1, hout⟩

/-- Witness of C6 (amended): the degree-5 pairing on edge 0. -/
theorem edge_coeff_sizes_witness :
    getEdgeCoeffMatrix_HGRAD referenceTools true (View2.zeros 4 4) (lineBasisCn 5)
        (quadBasisCn 5) 0 0
      = (Except.ok (), withBlock (View2.zeros 4 4) 4 (fun r c => if r = c then 1 else 0)) ∧
    ∃ w ordEdge tag,
      edgeCoeffAssemble referenceTools true (lineBasisCn 5) (quadBasisCn 5) 0 0
        = Except.ok w ∧
      (quadBasisCn 5).getDofOrdinal (lineBasisCn 5).getBaseCellTopology.getDimension 0 0
        = some ordEdge ∧
      (quadBasisCn 5).getDofTag ordEdge = some tag ∧ w.ndofEdge = tag.dofCount ∧
      w.refPtsLine.extent0 = w.ndofEdge ∧
      w.refPtsLine.extent1 = (lineBasisCn 5).getBaseCellTopology.getDimension ∧
      w.refMat.extent0 = w.ndofEdge ∧ w.refMat.extent1 = w.ndofEdge ∧
      w.ortMat.extent0 = w.ndofEdge ∧ w.ortMat.extent1 = w.ndofEdge ∧
      (Lapack.GESV w.ndofEdge w.refMat w.ortMat).2.extent0 = w.ndofEdge ∧
      (Lapack.GESV w.ndofEdge w.refMat w.ortMat).2.extent1 = w.ndofEdge ∧
      w.ndofEdge ≤ (View2.zeros 4 4).extent0 ∧ w.ndofEdge ≤ (View2.zeros 4 4).extent1 ∧
      withBlock (View2.zeros 4 4) 4 (fun r c => if r = c then 1 else 0)
        = withBlock (View2.zeros 4 4) w.ndofEdge
          (Lapack.GESV w.ndofEdge w.refMat w.ortMat).2.val :=
  ⟨identity_of_consistent (cn_consistent 5 (by norm_num)) true (View2.zeros 4 4)
     ⟨le_rfl, le_rfl⟩,
   edge_coeff_sizes referenceTools true (View2.zeros 4 4) (lineBasisCn 5) (quadBasisCn 5) 0 0
     _ (identity_of_consistent (cn_consistent 5 (by norm_num)) true (View2.zeros 4 4)
       ⟨le_rfl, le_rfl⟩)⟩

/-- C8: atomicity of `getEdgeCoeffMatrix_HGRAD`: whenever the call fails (with a
configuration error, a numerical failure, or for lack of room in `output`), every entry
of the caller's output matrix is the same as before the call. -/
theorem edge_coeff_failure_atomic (tools : PointTools) (debug : Bool) (output : View2)
    (lineBasis cellBasis : Basis) (edgeId edgeOrt : Int) (e : Failure)
    (h : (getEdgeCoeffMatrix_HGRAD tools debug output lineBasis cellBasis edgeId edgeOrt).1
      = Except.error e) :
    (getEdgeCoeffMatrix_HGRAD tools debug output lineBasis cellBasis edgeId edgeOrt).2
      = output :=
  getEdgeCoeffMatrix_HGRAD_error_output tools debug output lineBasis cellBasis edgeId edgeOrt
    e h

/-- Witness of C8: the degree-5 pairing with the invalid orientation code 2. -/
theorem edge_coeff_failure_atomic_witness :
    (getEdgeCoeffMatrix_HGRAD referenceTools true (View2.zeros 4 4) (lineBasisCn 5)
      (quadBasisCn 5) 0 2).1 = Except.error Failure.logic_error ∧
    (getEdgeCoeffMatrix_HGRAD referenceTools true (View2.zeros 4 4) (lineBasisCn 5)
      (quadBasisCn 5) 0 2).2 = View2.zeros 4 4 :=
  ⟨congrArg Prod.fst (invalid_orientation referenceTools true (View2.zeros 4 4)
     (lineBasisCn 5) (quadBasisCn 5) 0 2 (by decide) (by decide)),
   edge_coeff_failure_atomic referenceTools true (View2.zeros 4 4) (lineBasisCn 5)
     (quadBasisCn 5) 0 2 Failure.logic_error
     (congrArg Prod.fst (invalid_orientation referenceTools true (View2.zeros 4 4)
       (lineBasisCn 5) (quadBasisCn 5) 0 2 (by decide) (by decide)))⟩

/-- C9, as stated, fails: in a build without `HAVE_INTREPID2_DEBUG` the check is not
compiled.  The misreporting cell basis reports one DOF on edge 0 while the lattice at its
degree has no point, and the call returns normally with a matrix. -/
theorem size_check_absent_without_debug :
    (∃ ordEdge tag,
      misreportingBasis.getDofOrdinal (lineBasisCn 2).getBaseCellTopology.getDimension 0 0
        = some ordEdge ∧
      misreportingBasis.getDofTag ordEdge = some tag ∧
      tag.dofCount ≠ referenceTools.getLatticeSize (lineBasisCn 2).getBaseCellTopology
        misreportingBasis.getDegree 1) ∧
    getEdgeCoeffMatrix_HGRAD referenceTools false (View2.zeros 1 1) (lineBasisCn 2)
        misreportingBasis 0 0
      = (Except.ok (), withBlock (View2.zeros 1 1) 1 (fun _ _ => 1)) := by
  refine ⟨⟨1, ⟨1, 0, 0, 1⟩, quad_edge0_ordinal 2 0 (by norm_num),
    quad_edge0_tag 2 (by norm_num), by decide⟩,
    misreporting_returns (View2.zeros 1 1) ⟨le_rfl, le_rfl⟩⟩

/-- C9, amended: in a build with `HAVE_INTREPID2_DEBUG`, if the interior DOF count that the
cell basis reports for the edge differs from `getLatticeSize(lineTopo, degree, 1)`, the
call fails with a configuration error (`logic_error`) and leaves `output` untouched,
whatever the lattice generator, the sub-entity embedding and the solver would do. -/
theorem edge_coeff_debug_size_check (tools : PointTools) (output : View2)
    (lineBasis cellBasis : Basis) (edgeId edgeOrt : Int) (ordEdge : Nat) (tag : DofTag)
    (hord : cellBasis.getDofOrdinal lineBasis.getBaseCellTopology.getDimension edgeId 0
      = some ordEdge)
    (htag : cellBasis.getDofTag ordEdge = some tag)
    (hne : tag.dofCount ≠
      tools.getLatticeSize lineBasis.getBaseCellTopology cellBasis.getDegree 1) :
    getEdgeCoeffMatrix_HGRAD tools true output lineBasis cellBasis edgeId edgeOrt =
      (Except.error Failure.logic_error, output) :=
  debug_size_mismatch tools output lineBasis cellBasis edgeId edgeOrt ordEdge tag hord htag hne

/-- Witness of C9 (amended): the misreporting cell basis in the debug build. -/
theorem edge_coeff_debug_size_check_witness :
    misreportingBasis.getDofOrdinal (lineBasisCn 2).getBaseCellTopology.getDimension 0 0
      = some 1 ∧
    misreportingBasis.getDofTag ((1 : Nat) : Int) = some ⟨1, 0, 0, 1⟩ ∧
    (⟨1, 0, 0, 1⟩ : DofTag).dofCount ≠
      referenceTools.getLatticeSize (lineBasisCn 2).getBaseCellTopology
        misreportingBasis.getDegree 1 ∧
    getEdgeCoeffMatrix_HGRAD referenceTools true (View2.zeros 1 1) (lineBasisCn 2)
        misreportingBasis 0 0
      = (Except.error Failure.logic_error, View2.zeros 1 1) :=
  ⟨quad_edge0_ordinal 2 0 (by norm_num), quad_edge0_tag 2 (by norm_num), by decide,
   edge_coeff_debug_size_check referenceTools (View2.zeros 1 1) (lineBasisCn 2)
     misreportingBasis 0 0 1 ⟨1, 0, 0, 1⟩ (quad_edge0_ordinal 2 0 (by norm_num))
     (quad_edge0_tag 2 (by norm_num)) (by decide)⟩

/-- C10: for an edge, every orientation code outside `{0, 1}` passed to
`getEdgeCoeffMatrix_HGRAD` is rejected as a configuration error: the call fails and
produces no coefficient matrix (`output` is untouched). -/
theorem edge_coeff_invalid_orientation (tools : PointTools) (debug : Bool) (output : View2)
    (lineBasis cellBasis : Basis) (edgeId edgeOrt : Int) (h0 : edgeOrt ≠ 0)
    (h1 : edgeOrt ≠ 1) :
    getEdgeCoeffMatrix_HGRAD tools debug output lineBasis cellBasis edgeId edgeOrt =
      (Except.error Failure.logic_error, output) :=
  invalid_orientation tools debug output lineBasis cellBasis edgeId edgeOrt h0 h1

/-- Witness of C10: the degree-5 pairing with the orientation code -1. -/
theorem edge_coeff_invalid_orientation_witness :
    ((-1 : Int) ≠ 0 ∧ (-1 : Int) ≠ 1) ∧
    getEdgeCoeffMatrix_HGRAD referenceTools false (View2.zeros 4 4) (lineBasisCn 5)
        (quadBasisCn 5) 0 (-1)
      = (Except.error Failure.logic_error, View2.zeros 4 4) :=
  ⟨⟨by decide, by decide⟩,
   edge_coeff_invalid_orientation referenceTools false (View2.zeros 4 4) (lineBasisCn 5)
     (quadBasisCn 5) 0 (-1) (by decide) (by decide)⟩

end Intrepid2

namespace Intrepid2

/-- Without room in `output` the outcome of a call that has assembled its matrices is the
solver's failure when there is one, and the failure of the sub-view otherwise. -/
theorem outcome_without_room {tools : PointTools} {debug : Bool}
    (output : View2) {lineBasis cellBasis : Basis} {edgeId edgeOrt : Int} {w : EdgeWork}
    (h : Assembles tools debug lineBasis cellBasis edgeId edgeOrt w)
    (hroom : ¬ (w.ndofEdge ≤ output.extent0 ∧ w.ndofEdge ≤ output.extent1)) :
    getEdgeCoeffMatrix_HGRAD tools debug output lineBasis cellBasis edgeId edgeOrt =
      if (Lapack.GESV w.ndofEdge w.refMat w.ortMat).1 ≠ 0 then
        (Except.error (Failure.runtime_error (Lapack.GESV w.ndofEdge w.refMat w.ortMat).1),
          output)
      else (Except.error Failure.subview_bounds, output) := by
  rw [getEdgeCoeffMatrix_HGRAD_of_assembles output h, if_neg hroom]

/-- The cell basis of degree `d` is nodal on the lattice of edge 0. -/
theorem cn_nodal (d : Nat) (hd : 2 ≤ d) (j i : Nat) (hj : j < d - 1) (hi : i < d - 1) :
    (quadBasisCn d).value (cellOrdinal (lineBasisCn d) (quadBasisCn d) 0 i)
      ((edgeCellPoints d).row j) = if j = i then 1 else 0 := by
  have hc := cn_consistent d hd
  rw [hc.trace i j hi hj, hc.lattice_row, edgeLattice_val d j hj]
  simp only [lineOrdinal, line_interior_ordinal d i (by omega), Option.getD_some]
  show lagrange d (i + 1) (equispacedPoint d (j + 1)) = _
  rw [lagrange_node d (by omega) (i + 1) (j + 1) (by omega)]
  by_cases h : j = i
  · rw [if_pos (by omega), if_pos h]
  · rw [if_neg (by omega), if_neg h]

/-- C11, as stated, fails: the room in `output` is not tested before the solve.  With the
degenerate cell basis (`n = 1`) and an output view of no rows and no columns, the solver
is entered and the call fails with the solver's numerical failure. -/
theorem room_not_tested_before_solve :
    ∃ w, edgeCoeffAssemble referenceTools true (lineBasisCn 2) degenerateBasis 0 0
        = Except.ok w ∧
      w.ndofEdge = 1 ∧ (View2.zeros 0 0).extent0 < w.ndofEdge ∧
      (View2.zeros 0 0).extent1 < w.ndofEdge ∧
      ∃ info : Int, info ≠ 0 ∧ (Lapack.GESV w.ndofEdge w.refMat w.ortMat).1 = info ∧
        getEdgeCoeffMatrix_HGRAD referenceTools true (View2.zeros 0 0) (lineBasisCn 2)
            degenerateBasis 0 0
          = (Except.error (Failure.runtime_error info), View2.zeros 0 0) := by
  obtain ⟨w, hw, hn, _⟩ := degenerate_setup.setup_entries true (fun _ => rfl) 0 (Or.inl rfl)
  obtain ⟨w2, hw2, hsing⟩ := singular_of_setup degenerate_setup true (fun _ => rfl) 0
    (Or.inl rfl) (by
      rw [Matrix.det_unique]
      rfl)
  have hA := (edgeCoeffAssemble_ok_iff _ _ _ _ _ _ w).mpr hw
  have hA2 := (edgeCoeffAssemble_ok_iff _ _ _ _ _ _ w2).mpr hw2
  rw [hA] at hA2
  cases hA2
  obtain ⟨h1, h2⟩ := getEdgeCoeffMatrix_HGRAD_of_singular (View2.zeros 0 0) hw hsing
  refine ⟨w, hA, hn, ?_, ?_, _, h2, rfl, h1⟩
  · rw [hn]; exact Nat.zero_lt_one
  · rw [hn]; exact Nat.zero_lt_one

/-- C11, amended: if the caller-supplied output matrix does not have room for the `n × n`
result, `getEdgeCoeffMatrix_HGRAD` still performs the linear solve; the call is rejected
only afterwards, when the sub-block of `output` is taken: it fails with the numerical
failure when the solver reports `info ≠ 0` and with the sub-view failure otherwise, and
`output` keeps its contents. -/
theorem edge_coeff_room_checked_after_solve (tools : PointTools) (debug : Bool)
    (output : View2) (lineBasis cellBasis : Basis) (edgeId edgeOrt : Int) (w : EdgeWork)
    (hw : edgeCoeffAssemble tools debug lineBasis cellBasis edgeId edgeOrt = Except.ok w)
    (hroom : output.extent0 < w.ndofEdge ∨ output.extent1 < w.ndofEdge) :
    getEdgeCoeffMatrix_HGRAD tools debug output lineBasis cellBasis edgeId edgeOrt =
      if (Lapack.GESV w.ndofEdge w.refMat w.ortMat).1 ≠ 0 then
        (Except.error (Failure.runtime_error (Lapack.GESV w.ndofEdge w.refMat w.ortMat).1),
          output)
      else (Except.error Failure.subview_bounds, output) :=
  outcome_without_room output ((edgeCoeffAssemble_ok_iff _ _ _ _ _ _ w).mp hw)
    (by omega)

end Intrepid2

namespace Intrepid2

/-- On a consistent pairing the solver is entered and reports `info = 0`. -/
theorem ConsistentPairing.solver_succeeds {tools : PointTools} {lineBasis cellBasis : Basis}
    {edgeId : Int} {n : Nat} {L P : View2}
    (hc : ConsistentPairing tools lineBasis cellBasis edgeId n L P) (debug : Bool)
    (edgeOrt : Int) (hort : edgeOrt = 0 ∨ edgeOrt = 1) :
    ∃ w, edgeCoeffAssemble tools debug lineBasis cellBasis edgeId edgeOrt = Except.ok w ∧
      w.ndofEdge = n ∧ (Lapack.GESV w.ndofEdge w.refMat w.ortMat).1 = 0 := by
  obtain ⟨w, hw, hn, hV, _⟩ := hc.pairing_entries debug edgeOrt hort
  refine ⟨w, (edgeCoeffAssemble_ok_iff _ _ _ _ _ _ w).mpr hw, hn, ?_⟩
  subst hn
  apply (Lapack.GESV_spec w.ndofEdge w.refMat w.ortMat).1.mpr
  have hVb : View2.block w.ndofEdge w.refMat
      = fun j i : Fin w.ndofEdge =>
        lineBasis.value (lineOrdinal lineBasis i.val) (L.row j.val) :=
    block_ext _ _ _ (fun j k hj hk => by rw [hV j k hj hk, hc.lattice_row])
  rw [hVb]
  exact hc.unisolvent

/-- Witness of C11 (amended): the degree-5 pairing with an output view of two rows and two
columns; the solver succeeds and the sub-view fails. -/
theorem edge_coeff_room_checked_after_solve_witness :
    ∃ w, edgeCoeffAssemble referenceTools true (lineBasisCn 5) (quadBasisCn 5) 0 0
        = Except.ok w ∧
      ((View2.zeros 2 2).extent0 < w.ndofEdge ∨ (View2.zeros 2 2).extent1 < w.ndofEdge) ∧
      (Lapack.GESV w.ndofEdge w.refMat w.ortMat).1 = 0 ∧
      getEdgeCoeffMatrix_HGRAD referenceTools true (View2.zeros 2 2) (lineBasisCn 5)
          (quadBasisCn 5) 0 0
        = (Except.error Failure.subview_bounds, View2.zeros 2 2) := by
  obtain ⟨w, hA, hn, hinfo⟩ :=
    (cn_consistent 5 (by norm_num)).solver_succeeds true 0 (Or.inl rfl)
  have hroom : (View2.zeros 2 2).extent0 < w.ndofEdge ∨ (View2.zeros 2 2).extent1 < w.ndofEdge :=
    Or.inl (by rw [hn]; decide)
  refine ⟨w, hA, hroom, hinfo, ?_⟩
  rw [edge_coeff_room_checked_after_solve referenceTools true (View2.zeros 2 2) (lineBasisCn 5)
    (quadBasisCn 5) 0 0 w hA hroom, if_neg (not_not.mpr hinfo)]

/-- C12: frame of `getEdgeCoeffMatrix_HGRAD`: on success it changes only the entries
`(r, c)` of `output` with `r < n` and `c < n`; every entry with `r ≥ n` or `c ≥ n` keeps its
previous value, the extents are unchanged, and the written block does not depend on the
previous contents of `output`: the call on any other output with room writes the same
block. -/
theorem edge_coeff_frame (tools : PointTools) (debug : Bool) (output : View2)
    (lineBasis cellBasis : Basis) (edgeId edgeOrt : Int) (out : View2)
    (hret : getEdgeCoeffMatrix_HGRAD tools debug output lineBasis cellBasis edgeId edgeOrt
      = (Except.ok (), out)) :
    ∃ w, edgeCoeffAssemble tools debug lineBasis cellBasis edgeId edgeOrt = Except.ok w ∧
      out.extent0 = output.extent0 ∧ out.extent1 = output.extent1 ∧
      (∀ r c, w.ndofEdge ≤ r ∨ w.ndofEdge ≤ c → out.val r c = output.val r c) ∧
      ∀ output2 : View2, w.ndofEdge ≤ output2.extent0 → w.ndofEdge ≤ output2.extent1 →
        ∃ out2,
          getEdgeCoeffMatrix_HGRAD tools debug output2 lineBasis cellBasis edgeId edgeOrt
            = (Except.ok (), out2) ∧
          ∀ r c, r < w.ndofEdge → c < w.ndofEdge → out2.val r c = out.val r c := by
  obtain ⟨w, hw, hinfo, _, _, hout⟩ := getEdgeCoeffMatrix_HGRAD_ok_inv hret
  refine ⟨w, (edgeCoeffAssemble_ok_iff _ _ _ _ _ _ w).mpr hw, by rw [hout]; rfl,
    by rw [hout]; rfl, ?_, ?_⟩
  · intro r c hrc
    rw [hout, withBlock_val_outside _ _ _ _ _ (by omega)]
  · intro output2 h0 h1
    refine ⟨withBlock output2 w.ndofEdge (Lapack.GESV w.ndofEdge w.refMat w.ortMat).2.val,
      ?_, ?_⟩
    · rw [getEdgeCoeffMatrix_HGRAD_of_assembles output2 hw, if_neg (not_not.mpr hinfo),
        if_pos ⟨h0, h1⟩]
    · intro r c hr hc
      rw [hout, withBlock_val _ _ _ _ _ hr hc, withBlock_val _ _ _ _ _ hr hc]

/-- Witness of C12: the degree-5 pairing on edge 0 with orientation 1 and an output view of
six rows and six columns. -/
theorem edge_coeff_frame_witness :
    getEdgeCoeffMatrix_HGRAD referenceTools true (View2.zeros 6 6) (lineBasisCn 5)
        (quadBasisCn 5) 0 1
      = (Except.ok (), withBlock (View2.zeros 6 6) 4
          (fun r c => if r + c + 2 = 5 then 1 else 0)) ∧
    ∃ w, edgeCoeffAssemble referenceTools true (lineBasisCn 5) (quadBasisCn 5) 0 1
        = Except.ok w ∧
      (withBlock (View2.zeros 6 6) 4 (fun r c => if r + c + 2 = 5 then 1 else 0)).extent0
        = (View2.zeros 6 6).extent0 ∧
      (withBlock (View2.zeros 6 6) 4 (fun r c => if r + c + 2 = 5 then 1 else 0)).extent1
        = (View2.zeros 6 6).extent1 ∧
      (∀ r c, w.ndofEdge ≤ r ∨ w.ndofEdge ≤ c →
        (withBlock (View2.zeros 6 6) 4 (fun r c => if r + c + 2 = 5 then 1 else 0)).val r c
          = (View2.zeros 6 6).val r c) ∧
      ∀ output2 : View2, w.ndofEdge ≤ output2.extent0 → w.ndofEdge ≤ output2.extent1 →
        ∃ out2,
          getEdgeCoeffMatrix_HGRAD referenceTools true output2 (lineBasisCn 5)
              (quadBasisCn 5) 0 1
            = (Except.ok (), out2) ∧
          ∀ r c, r < w.ndofEdge → c < w.ndofEdge → out2.val r c
            = (withBlock (View2.zeros 6 6) 4
                (fun r c => if r + c + 2 = 5 then 1 else 0)).val r c :=
  ⟨cn_reversal 5 (by norm_num) true (View2.zeros 6 6) ⟨by decide, by decide⟩,
   edge_coeff_frame referenceTools true (View2.zeros 6 6) (lineBasisCn 5) (quadBasisCn 5) 0 1
     _ (cn_reversal 5 (by norm_num) true (View2.zeros 6 6) ⟨by decide, by decide⟩)⟩

/-- C13: the orientation point mapper used for edges (`mapToModifiedReference` on the line
topology) is the identity on every point for orientation code 0 and maps every point `t`
to `−t` for orientation code 1; consequently the oriented collocation points of a call
with code 1 are the negated lattice points, and applying the code-1 map twice returns the
original points. -/
theorem edge_point_mapper (tools : PointTools) (debug : Bool) (lineBasis cellBasis : Basis)
    (edgeId : Int) (hline : lineBasis.getBaseCellTopology.key = TopologyKey.Line) :
    (∀ outPoints refPoints : View2,
      mapToModifiedReference outPoints refPoints lineBasis.getBaseCellTopology 0
        = some (outPoints.fill (fun pt d => refPoints.val pt d))) ∧
    (∀ outPoints refPoints : View2,
      mapToModifiedReference outPoints refPoints lineBasis.getBaseCellTopology 1
        = some (outPoints.fill (fun pt d => - refPoints.val pt d))) ∧
    (∀ w, edgeCoeffAssemble tools debug lineBasis cellBasis edgeId 1 = Except.ok w →
      ∀ j d, w.ortPtsLine.val j d = - w.refPtsLine.val j d) ∧
    (∀ outPoints refPoints outPoints2 : View2, ∃ once twice,
      mapToModifiedReference outPoints refPoints lineBasis.getBaseCellTopology 1 = some once ∧
      mapToModifiedReference outPoints2 once lineBasis.getBaseCellTopology 1 = some twice ∧
      ∀ pt d, twice.val pt d = refPoints.val pt d) := by
  have h0 : ∀ outPoints refPoints : View2,
      mapToModifiedReference outPoints refPoints lineBasis.getBaseCellTopology 0
        = some (outPoints.fill (fun pt d => refPoints.val pt d)) := by
    intro o r
    simp [mapToModifiedReference, hline]
  have h1 : ∀ outPoints refPoints : View2,
      mapToModifiedReference outPoints refPoints lineBasis.getBaseCellTopology 1
        = some (outPoints.fill (fun pt d => - refPoints.val pt d)) := by
    intro o r
    simp [mapToModifiedReference, hline]
  refine ⟨h0, h1, ?_, ?_⟩
  · intro w hA j d
    have hw := (edgeCoeffAssemble_ok_iff _ _ _ _ _ _ w).mp hA
    have hQ := hw.oriented
    rw [h1] at hQ
    simp only [Option.some.injEq] at hQ
    rw [← hQ]
    rfl
  · intro o r o2
    refine ⟨_, _, h1 o r, h1 o2 _, ?_⟩
    intro pt d
    simp [View2.fill]

/-- Witness of C13: the degree-5 line basis. -/
theorem edge_point_mapper_witness :
    (lineBasisCn 5).getBaseCellTopology.key = TopologyKey.Line ∧
    mapToModifiedReference (View2.zeros 4 1) (edgeLattice 5)
        (lineBasisCn 5).getBaseCellTopology 1
      = some ((View2.zeros 4 1).fill (fun pt d => - (edgeLattice 5).val pt d)) :=
  ⟨rfl, (edge_point_mapper referenceTools true (lineBasisCn 5) (quadBasisCn 5) 0 rfl).2.1
    (View2.zeros 4 1) (edgeLattice 5)⟩

/-- C15: in the face variants the handedness-remapped orientation code always lies in the
valid range of the shape: for every triangle code `c` in `0..5` the entry `leftOrt[c]` of
`{0,2,1,3,5,4}` is in `0..5`, for every quadrilateral code `c` in `0..7` the entry
`leftOrt[c]` of `{0,3,2,1,4,7,6,5}` is in `0..7`, and the code handed to the point mapper
is valid whether or not the face is left-handed. -/
theorem face_left_ort_in_range :
    (∀ c, c < 6 → ∃ e, triangleLeftOrt[c]? = some e ∧ e < 6) ∧
    (∀ c, c < 8 → ∃ e, quadrilateralLeftOrt[c]? = some e ∧ e < 8) ∧
    (∀ (getNodeMap : Nat → Int → Nat → Nat) (faceId : Int) (c : Nat), c < 6 →
      ∃ ort, triangleFaceOrt getNodeMap faceId c = some ort ∧ ort < 6) ∧
    (∀ (getNodeMap : Nat → Int → Nat → Nat) (faceId : Int) (c : Nat), c < 8 →
      ∃ ort, quadrilateralFaceOrt getNodeMap faceId c = some ort ∧ ort < 8) := by
  have ht : ∀ c, c < 6 → ∃ e, triangleLeftOrt[c]? = some e ∧ e < 6 := by
    intro c hc
    interval_cases c <;> exact ⟨_, rfl, by decide⟩
  have hq : ∀ c, c < 8 → ∃ e, quadrilateralLeftOrt[c]? = some e ∧ e < 8 := by
    intro c hc
    interval_cases c <;> exact ⟨_, rfl, by decide⟩
  refine ⟨ht, hq, ?_, ?_⟩
  · intro g f c hc
    unfold triangleFaceOrt
    by_cases hl : g 2 f 1 > g 2 f 2
    · simp only [hl, decide_True, if_true]
      exact ht c hc
    · simp only [hl, decide_False]
      exact ⟨c, rfl, hc⟩
  · intro g f c hc
    unfold quadrilateralFaceOrt
    by_cases hl : g 2 f 1 > g 2 f 3
    · simp only [hl, decide_True, if_true]
      exact hq c hc
    · simp only [hl, decide_False]
      exact ⟨c, rfl, hc⟩

end Intrepid2

namespace Intrepid2

theorem quad_ordinal_of_nodes (d : Nat) (hd : 1 ≤ d) (a b : Nat) (ha : a ≤ d) (hb : b ≤ d) :
    (quadBasisCn d).getDofOrdinal (quadTag d a b).subcDim (quadTag d a b).subcOrd
      (quadTag d a b).dofOrd = some (a + (d + 1) * b) := by
  unfold quadTag
  have hnz : ¬ d = 0 := by omega
  by_cases hv : (a = 0 ∨ a = d) ∧ (b = 0 ∨ b = d)
  · rw [if_pos hv]
    obtain ⟨ha0 | had, hb0 | hbd⟩ := hv
    · simp [quadBasisCn, ha0, hb0]
    · simp [quadBasisCn, ha0, hbd, hnz]
    · simp [quadBasisCn, had, hb0, hnz]
    · simp [quadBasisCn, had, hbd, hnz]
  · rw [if_neg hv]
    by_cases hbe : b = 0 ∨ b = d
    · rw [if_pos hbe]
      have ha1 : 1 ≤ a := by
        rcases Nat.eq_zero_or_pos a with h | h
        · exact absurd ⟨Or.inl h, hbe⟩ hv
        · exact h
      have ha2 : a < d := by
        rcases Nat.lt_or_ge a d with h | h
        · exact h
        · exact absurd ⟨Or.inr (le_antisymm ha h), hbe⟩ hv
      have hcast : ((a - 1 : Nat) : Int) + 1 < (d : Int) := by
        have : a - 1 + 1 < d := by omega
        exact_mod_cast this
      have hsub : a - 1 + 1 = a := by omega
      rcases hbe with hb0 | hbd
      · simp [quadBasisCn, hcast, hsub, hb0]
      · simp [quadBasisCn, hcast, hsub, hbd, hnz]
    · rw [if_neg hbe]
      have hb1 : 1 ≤ b := by
        rcases Nat.eq_zero_or_pos b with h | h
        · exact absurd (Or.inl h) hbe
        · exact h
      have hb2 : b < d := by
        rcases Nat.lt_or_ge b d with h | h
        · exact h
        · exact absurd (Or.inr (le_antisymm hb h)) hbe
      by_cases hae : a = 0 ∨ a = d
      · rw [if_pos hae]
        have hcast : ((b - 1 : Nat) : Int) + 1 < (d : Int) := by
          have : b - 1 + 1 < d := by omega
          exact_mod_cast this
        have hsub : b - 1 + 1 = b := by omega
        rcases hae with ha0 | had
        · simp [quadBasisCn, hcast, hsub, ha0]
        · simp [quadBasisCn, hcast, hsub, had, hnz]
      · rw [if_neg hae]
        have ha1 : 1 ≤ a := by
          rcases Nat.eq_zero_or_pos a with h | h
          · exact absurd (Or.inl h) hae
          · exact h
        have ha2 : a < d := by
          rcases Nat.lt_or_ge a d with h | h
          · exact h
          · exact absurd (Or.inr (le_antisymm ha h)) hae
        obtain ⟨m, hm⟩ : ∃ m, d = m + 1 := ⟨d - 1, by omega⟩
        obtain ⟨x, hx⟩ : ∃ x, a = x + 1 := ⟨a - 1, by omega⟩
        obtain ⟨y, hy⟩ : ∃ y, b = y + 1 := ⟨b - 1, by omega⟩
        subst hm hx hy
        have hxm : x < m := by omega
        have hym : y < m := by omega
        have hlt : x + m * y < m * m := by
          calc x + m * y < m + m * y := by omega
            _ = m * (y + 1) := by ring
            _ ≤ m * m := Nat.mul_le_mul_left m hym
        have hcast : ((x : Int) + (m : Int) * (y : Int) < (m : Int) * (m : Int)) := by
          exact_mod_cast hlt
        have hmod : (x + m * y) % m = x := by
          rw [Nat.add_mul_mod_self_left, Nat.mod_eq_of_lt hxm]
        have hdiv : (x + m * y) / m = y := by
          rw [Nat.add_mul_div_left _ _ (by omega : 0 < m), Nat.div_eq_of_lt hxm, Nat.zero_add]
        have htn : ((x : Int) + (m : Int) * (y : Int)).toNat = x + m * y := by
          have : ((x : Int) + (m : Int) * (y : Int)) = ((x + m * y : Nat) : Int) := by
            push_cast
            ring
          rw [this, Int.toNat_ofNat]
        have hnn : (0 : Int) ≤ (x : Int) + (m : Int) * (y : Int) := by positivity
        simp only [Nat.add_sub_cancel]
        simp [quadBasisCn, hcast, htn, hmod, hdiv, hnn]

end Intrepid2

namespace Intrepid2

theorem quad_tag_of_ordinal (d o : Nat) (ho : o < (d + 1) * (d + 1)) :
    (quadBasisCn d).getDofTag (o : Int) = some (quadTag d (o % (d + 1)) (o / (d + 1))) := by
  have h1 : (o : Int) < ((d : Int) + 1) * ((d : Int) + 1) := by exact_mod_cast ho
  simp [quadBasisCn, h1]

theorem quad_tag_out_of_range (d : Nat) (ordinal : Int)
    (h : ordinal < 0 ∨ (((d + 1) * (d + 1) : Nat) : Int) ≤ ordinal) :
    (quadBasisCn d).getDofTag ordinal = none := by
  simp only [quadBasisCn]
  rw [if_neg]
  push_cast at h
  omega

theorem quad_roundtrip (d : Nat) (hd : 1 ≤ d) (o : Nat) (ho : o < (d + 1) * (d + 1)) :
    (quadBasisCn d).getDofOrdinal (quadTag d (o % (d + 1)) (o / (d + 1))).subcDim
      (quadTag d (o % (d + 1)) (o / (d + 1))).subcOrd
      (quadTag d (o % (d + 1)) (o / (d + 1))).dofOrd = some o := by
  have ha : o % (d + 1) ≤ d := Nat.lt_succ_iff.mp (Nat.mod_lt _ (by omega))
  have hb : o / (d + 1) ≤ d := Nat.lt_succ_iff.mp (Nat.div_lt_of_lt_mul ho)
  rw [quad_ordinal_of_nodes d hd _ _ ha hb, Nat.mod_add_div]

theorem quad_all_tags_mem (d : Nat) (tag : DofTag) :
    tag ∈ (quadBasisCn d).getAllDofTags ↔
      ∃ o, o < (d + 1) * (d + 1) ∧ tag = quadTag d (o % (d + 1)) (o / (d + 1)) := by
  simp only [Basis.getAllDofTags, List.mem_filterMap, List.mem_range]
  constructor
  · rintro ⟨o, ho, h⟩
    have ho2 : o < (d + 1) * (d + 1) := ho
    rw [quad_tag_of_ordinal d o ho2] at h
    exact ⟨o, ho2, (Option.some.inj h).symm⟩
  · rintro ⟨o, ho, h⟩
    exact ⟨o, ho, by rw [quad_tag_of_ordinal d o ho, h]⟩

theorem quad_all_tags_length (d : Nat) :
    (quadBasisCn d).getAllDofTags.length = (quadBasisCn d).getCardinality := by
  have h : ∀ l : List Nat, (∀ o ∈ l, o < (d + 1) * (d + 1)) →
      (l.filterMap (fun b : Nat => (quadBasisCn d).getDofTag (b : Int))).length = l.length := by
    intro l
    induction l with
    | nil => intro _; rfl
    | cons x t ih =>
      intro hl
      rw [List.filterMap_cons, quad_tag_of_ordinal d x (hl x (List.mem_cons_self _ _))]
      simp only [List.length_cons]
      rw [ih (fun o ho => hl o (List.mem_cons_of_mem _ ho))]
  show ((List.range ((d + 1) * (d + 1))).filterMap _).length = (d + 1) * (d + 1)
  rw [h _ (fun o ho => List.mem_range.mp ho), List.length_range]

theorem quad_ordinal_out_of_range (d : Nat) (hd : 1 ≤ d) (subcDim subcOrd dofOrd : Int)
    (h : subcDim < 0 ∨ 2 < subcDim ∨ subcOrd < 0 ∨ quadSubcellCount subcDim ≤ subcOrd ∨
      dofOrd < 0 ∨ quadDofCount d subcDim ≤ dofOrd) :
    (quadBasisCn d).getDofOrdinal subcDim subcOrd dofOrd = none := by
  have hcast : ((d - 1 : Nat) : Int) = (d : Int) - 1 := by
    rw [Nat.cast_sub hd]; rfl
  simp only [quadBasisCn, quadSubcellCount, quadDofCount, Nat.cast_mul, hcast] at h ⊢
  split_ifs at h ⊢ <;> first | rfl | omega

end Intrepid2

namespace Intrepid2

/-- C17: DOF tag to ordinal round trip of the quadrilateral basis: the table of
`getAllDofTags` has one row per basis function, and for every tag
`(subcDim, subcId, dofIdx, dofCount)` it lists, `getDofOrdinal(subcDim, subcId, dofIdx)`
succeeds and `getDofTag` of that ordinal returns the same tag in all four components. -/
theorem quad_tag_ordinal_roundtrip (d : Nat) (hd : 1 ≤ d) :
    (quadBasisCn d).getAllDofTags.length = (quadBasisCn d).getCardinality ∧
    ∀ tag, tag ∈ (quadBasisCn d).getAllDofTags →
      ∃ bfOrd : Nat,
        (quadBasisCn d).getDofOrdinal tag.subcDim tag.subcOrd tag.dofOrd = some bfOrd ∧
        (quadBasisCn d).getDofTag bfOrd = some tag := by
  refine ⟨quad_all_tags_length d, ?_⟩
  intro tag htag
  obtain ⟨o, ho, rfl⟩ := (quad_all_tags_mem d tag).mp htag
  exact ⟨o, quad_roundtrip d hd o ho, quad_tag_of_ordinal d o ho⟩

/-- Witness of C17: the degree-5 basis of the test and the tag `(1, 0, 3, 4)` of the last
DOF of edge 0. -/
theorem quad_tag_ordinal_roundtrip_witness :
    (1 ≤ 5) ∧ (⟨1, 0, 3, 4⟩ : DofTag) ∈ (quadBasisCn 5).getAllDofTags ∧
    (quadBasisCn 5).getAllDofTags.length = 36 ∧
    ∃ bfOrd : Nat,
      (quadBasisCn 5).getDofOrdinal ((1 : Nat) : Int) ((0 : Nat) : Int) ((3 : Nat) : Int)
        = some bfOrd ∧
      (quadBasisCn 5).getDofTag bfOrd = some ⟨1, 0, 3, 4⟩ :=
  ⟨by decide, (quad_all_tags_mem 5 _).mpr ⟨4, by decide, by decide⟩,
   (quad_tag_ordinal_roundtrip 5 (by decide)).1,
   (quad_tag_ordinal_roundtrip 5 (by decide)).2 ⟨1, 0, 3, 4⟩
     ((quad_all_tags_mem 5 _).mpr ⟨4, by decide, by decide⟩)⟩

/-- C18: ordinal to DOF tag round trip of the quadrilateral basis: for every basis-function
ordinal `b` with `0 ≤ b < getCardinality()`, `getDofTag(b)` succeeds and `getDofOrdinal`
applied to its first three components returns `b`; so two basis functions whose tags have
the same (sub-entity dimension, sub-entity id, local index) triple are the same. -/
theorem quad_ordinal_tag_roundtrip (d : Nat) (hd : 1 ≤ d) :
    (∀ b : Nat, b < (quadBasisCn d).getCardinality →
      ∃ tag, (quadBasisCn d).getDofTag b = some tag ∧
        (quadBasisCn d).getDofOrdinal tag.subcDim tag.subcOrd tag.dofOrd = some b) ∧
    (∀ b1 b2 : Nat, b1 < (quadBasisCn d).getCardinality →
      b2 < (quadBasisCn d).getCardinality →
      ∀ t1 t2, (quadBasisCn d).getDofTag b1 = some t1 →
        (quadBasisCn d).getDofTag b2 = some t2 →
        t1.subcDim = t2.subcDim → t1.subcOrd = t2.subcOrd → t1.dofOrd = t2.dofOrd →
        b1 = b2) := by
  have h1 : ∀ b : Nat, b < (quadBasisCn d).getCardinality →
      ∃ tag, (quadBasisCn d).getDofTag b = some tag ∧
        (quadBasisCn d).getDofOrdinal tag.subcDim tag.subcOrd tag.dofOrd = some b :=
    fun b hb => ⟨_, quad_tag_of_ordinal d b hb, quad_roundtrip d hd b hb⟩
  refine ⟨h1, ?_⟩
  intro b1 b2 hb1 hb2 t1 t2 ht1 ht2 e0 e1 e2
  obtain ⟨s1, hs1, hr1⟩ := h1 b1 hb1
  obtain ⟨s2, hs2, hr2⟩ := h1 b2 hb2
  rw [ht1] at hs1
  rw [ht2] at hs2
  cases hs1
  cases hs2
  rw [e0, e1, e2, hr2] at hr1
  exact (Option.some.inj hr1).symm

/-- Witness of C18: the degree-5 basis of the test and the ordinal 7. -/
theorem quad_ordinal_tag_roundtrip_witness :
    (1 ≤ 5) ∧ 7 < (quadBasisCn 5).getCardinality ∧
    ∃ tag, (quadBasisCn 5).getDofTag ((7 : Nat) : Int) = some tag ∧
      (quadBasisCn 5).getDofOrdinal tag.subcDim tag.subcOrd tag.dofOrd = some 7 :=
  ⟨by decide, by decide, (quad_ordinal_tag_roundtrip 5 (by decide)).1 7 (by decide)⟩

/-- C19: the lookups of the quadrilateral basis reject out-of-range arguments instead of
returning a value: `getDofOrdinal` fails when the sub-entity dimension is negative or
exceeds the cell dimension, when the sub-entity id is not a sub-entity of the cell, or
when the local DOF index is not below the number of DOFs on that sub-entity, and
`getDofTag` fails for every ordinal that is negative or not below the cardinality. -/
theorem quad_lookups_reject (d : Nat) (hd : 1 ≤ d) :
    (∀ subcDim subcOrd dofOrd : Int,
      subcDim < 0 ∨ ((quadBasisCn d).getBaseCellTopology.getDimension : Int) < subcDim →
      (quadBasisCn d).getDofOrdinal subcDim subcOrd dofOrd = none) ∧
    (∀ subcDim subcOrd dofOrd : Int,
      subcOrd < 0 ∨ quadSubcellCount subcDim ≤ subcOrd →
      (quadBasisCn d).getDofOrdinal subcDim subcOrd dofOrd = none) ∧
    (∀ subcDim subcOrd dofOrd : Int,
      dofOrd < 0 ∨ quadDofCount d subcDim ≤ dofOrd →
      (quadBasisCn d).getDofOrdinal subcDim subcOrd dofOrd = none) ∧
    (∀ ordinal : Int,
      ordinal < 0 ∨ ((quadBasisCn d).getCardinality : Int) ≤ ordinal →
      (quadBasisCn d).getDofTag ordinal = none) := by
  refine ⟨?_, ?_, ?_, ?_⟩
  · intro a b c h
    apply quad_ordinal_out_of_range d hd
    rcases h with h | h
    · exact Or.inl h
    · exact Or.inr (Or.inl h)
  · intro a b c h
    apply quad_ordinal_out_of_range d hd
    rcases h with h | h
    · exact Or.inr (Or.inr (Or.inl h))
    · exact Or.inr (Or.inr (Or.inr (Or.inl h)))
  · intro a b c h
    apply quad_ordinal_out_of_range d hd
    rcases h with h | h
    · exact Or.inr (Or.inr (Or.inr (Or.inr (Or.inl h))))
    · exact Or.inr (Or.inr (Or.inr (Or.inr (Or.inr h))))
  · intro o h
    exact quad_tag_out_of_range d o h

/-- Witness of C19: the five lookups of the test at degree 5, `getDofOrdinal(3,0,0)`,
`getDofOrdinal(1,0,4)`, `getDofOrdinal(0,4,0)`, `getDofTag(40)` and `getDofTag(-1)`. -/
theorem quad_lookups_reject_witness :
    (1 ≤ 5) ∧
    (quadBasisCn 5).getDofOrdinal 3 0 0 = none ∧
    (quadBasisCn 5).getDofOrdinal 1 0 4 = none ∧
    (quadBasisCn 5).getDofOrdinal 0 4 0 = none ∧
    (quadBasisCn 5).getDofTag 40 = none ∧
    (quadBasisCn 5).getDofTag (-1) = none :=
  ⟨by decide,
   (quad_lookups_reject 5 (by decide)).1 3 0 0 (Or.inr (by decide)),
   (quad_lookups_reject 5 (by decide)).2.2.1 1 0 4 (Or.inr (by decide)),
   (quad_lookups_reject 5 (by decide)).2.1 0 4 0 (Or.inr (by decide)),
   (quad_lookups_reject 5 (by decide)).2.2.2 40 (Or.inr (by decide)),
   (quad_lookups_reject 5 (by decide)).2.2.2 (-1) (Or.inl (by decide))⟩

end Intrepid2

namespace Intrepid2

theorem value_table_check :
    valueErrors ((quadBasisCn 2).getValues (View2.zeros 9 10) quadNodes) 9 10 (1 / 10 ^ 15)
      = 0 := by
  decide!

theorem grad_table_check :
    ∃ vals, quadGetValuesD 2 (View3.zeros 9 10 2) quadNodes EOperator.OPERATOR_GRAD = some vals ∧
      gradErrors vals 9 10 2 (1 / 10 ^ 15) = 0 :=
  ⟨_, rfl, by decide!⟩

theorem curl_table_check :
    ∃ vals, quadGetValuesD 2 (View3.zeros 9 10 2) quadNodes EOperator.OPERATOR_CURL = some vals ∧
      curlErrors vals 9 10 2 (1 / 10 ^ 15) = 0 :=
  ⟨_, rfl, by decide!⟩

/-- C20: for the two-dimensional H(grad) quadrilateral basis, `OPERATOR_CURL` is the rotated
gradient: both evaluations succeed, and for every basis function `i` and every evaluation
point `j` the curl output `(i, j, 0)` equals the `y`-derivative given by the `OPERATOR_GRAD`
output `(i, j, 1)` and the curl output `(i, j, 1)` equals minus the `x`-derivative given by
the `OPERATOR_GRAD` output `(i, j, 0)`. -/
theorem quad_curl_is_rotated_grad (d : Nat) (outputValues : View3) (inputPoints : View2) :
    ∃ grad curl,
      quadGetValuesD d outputValues inputPoints EOperator.OPERATOR_GRAD = some grad ∧
      quadGetValuesD d outputValues inputPoints EOperator.OPERATOR_CURL = some curl ∧
      ∀ i j, curl.val i j 0 = grad.val i j 1 ∧ curl.val i j 1 = - grad.val i j 0 := by
  refine ⟨_, _, rfl, rfl, ?_⟩
  intro i j
  constructor
  · simp [View3.fill, quadDk]
  · simp [View3.fill, quadDk]

end Intrepid2

namespace Intrepid2

theorem monomial_setup :
    EdgeSetup referenceTools monomialLineBasis (quadBasisCn 3) 0 2 (edgeLattice 3)
      (edgeCellPoints 3) where
  line := rfl
  ndof := (cn_setup 3 (by norm_num)).ndof
  lattice := (cn_setup 3 (by norm_num)).lattice
  subcell := (cn_setup 3 (by norm_num)).subcell
  dofs := (cn_setup 3 (by norm_num)).dofs

theorem monomial_ordinal (i : Nat) (hi : i < 2) : lineOrdinal monomialLineBasis i = i + 1 := by
  simp only [lineOrdinal]
  rw [show monomialLineBasis.getDofOrdinal = (lineBasisCn 3).getDofOrdinal from rfl,
    show monomialLineBasis.getBaseCellTopology = (lineBasisCn 3).getBaseCellTopology from rfl,
    line_interior_ordinal 3 i (by omega)]
  rfl

/-- C22, as stated, fails: the matrices are indexed point-by-DOF.  With the monomial line
basis of degree 3 on edge 0 of the quadrilateral and orientation 0 (lattice `-1/3, 1/3`),
entry `(0, 1)` of `Ort` is `1/9`, the value of line DOF 1 (`t ^ 2`) at point 0, while the
value of line DOF 0 (`t`) at point 1 is `1/3`. -/
theorem collocation_not_dof_by_point :
    ∃ w, edgeCoeffAssemble referenceTools true monomialLineBasis (quadBasisCn 3) 0 0
        = Except.ok w ∧ w.ndofEdge = 2 ∧
      w.ortMat.val 0 1 = 1 / 9 ∧
      monomialLineBasis.value (lineOrdinal monomialLineBasis 0) (w.ortPtsLine.row 1) = 1 / 3 ∧
      monomialLineBasis.value (lineOrdinal monomialLineBasis 1) (w.ortPtsLine.row 0)
        = 1 / 9 := by
  obtain ⟨w, hw, hn, _, _, hQ⟩ :=
    monomial_setup.setup_assembles true (fun _ => rfl) 0 (Or.inl rfl)
  have hrow : ∀ j, j < 2 → w.ortPtsLine.row j = [equispacedPoint 3 (j + 1)] := by
    intro j hj
    rw [hQ, row_one _ rfl]
    simp only [orientedPoints, View2.fill, if_true]
    rw [edgeLattice_val 3 j (by omega)]
  have h01 : monomialLineBasis.value (lineOrdinal monomialLineBasis 1) (w.ortPtsLine.row 0)
      = 1 / 9 := by
    rw [monomial_ordinal 1 (by norm_num), hrow 0 (by norm_num)]
    show (equispacedPoint 3 1) ^ 2 = 1 / 9
    norm_num [equispacedPoint]
  refine ⟨w, (edgeCoeffAssemble_ok_iff _ _ _ _ _ _ w).mpr hw, hn, ?_, ?_, h01⟩
  · rw [hw.ortMat_val 0 1 (by omega) (by omega), h01]
  · rw [monomial_ordinal 0 (by norm_num), hrow 1 (by norm_num)]
    show (equispacedPoint 3 2) ^ 1 = 1 / 3
    norm_num [equispacedPoint]

/-- C22, amended: the two collocation matrices that `getEdgeCoeffMatrix_HGRAD` passes to
the solve `Ref · X = Ort` are indexed point-by-DOF: entry `(j, i)` of `Ref` is the cell-basis
value of the `i`-th edge-local DOF (ordinal `getDofOrdinal(lineDim, edgeId, i)`) at the
`j`-th un-oriented collocation point mapped to the cell, and entry `(j, i)` of `Ort` is the
line-basis value of the `i`-th line-local DOF (ordinal `getDofOrdinal(lineDim, 0, i)`) at
the `j`-th oriented collocation point. -/
theorem edge_coeff_collocation_layout (tools : PointTools) (debug : Bool) (output : View2)
    (lineBasis cellBasis : Basis) (edgeId edgeOrt : Int) (w : EdgeWork)
    (hw : edgeCoeffAssemble tools debug lineBasis cellBasis edgeId edgeOrt = Except.ok w) :
    (∃ cpts, tools.mapToReferenceSubcell
        (View2.zeros w.ndofEdge cellBasis.getBaseCellTopology.getDimension) w.refPtsLine
        lineBasis.getBaseCellTopology.getDimension edgeId cellBasis.getBaseCellTopology
        = some cpts ∧
      w.refPtsCell
        = (View2.zeros w.ndofEdge cellBasis.getBaseCellTopology.getDimension).fill cpts) ∧
    mapToModifiedReference
      (View2.zeros w.ndofEdge lineBasis.getBaseCellTopology.getDimension) w.refPtsLine
      lineBasis.getBaseCellTopology edgeOrt = some w.ortPtsLine ∧
    (∀ j i, j < w.ndofEdge → i < w.ndofEdge →
      ∃ iref iout,
        cellBasis.getDofOrdinal lineBasis.getBaseCellTopology.getDimension edgeId i
          = some iref ∧
        lineBasis.getDofOrdinal lineBasis.getBaseCellTopology.getDimension 0 i = some iout ∧
        w.refMat.val j i = cellBasis.value iref (w.refPtsCell.row j) ∧
        w.ortMat.val j i = lineBasis.value iout (w.ortPtsLine.row j)) ∧
    getEdgeCoeffMatrix_HGRAD tools debug output lineBasis cellBasis edgeId edgeOrt =
      if (Lapack.GESV w.ndofEdge w.refMat w.ortMat).1 ≠ 0 then
        (Except.error (Failure.runtime_error (Lapack.GESV w.ndofEdge w.refMat w.ortMat).1),
          output)
      else if w.ndofEdge ≤ output.extent0 ∧ w.ndofEdge ≤ output.extent1 then
        (Except.ok (), withBlock output w.ndofEdge
          (Lapack.GESV w.ndofEdge w.refMat w.ortMat).2.val)
      else (Except.error Failure.subview_bounds, output) := by
  have ha := (edgeCoeffAssemble_ok_iff _ _ _ _ _ _ w).mp hw
  refine ⟨ha.subcell, ha.oriented, ?_, getEdgeCoeffMatrix_HGRAD_of_assembles output ha⟩
  intro j i hj hi
  obtain ⟨h1, h2⟩ := ha.all_dofs i hi
  obtain ⟨iref, hiref⟩ := Option.isSome_iff_exists.mp h1
  obtain ⟨iout, hiout⟩ := Option.isSome_iff_exists.mp h2
  refine ⟨iref, iout, hiref, hiout, ?_, ?_⟩
  · rw [ha.refMat_val j i hj hi, cellOrdinal, hiref]
    rfl
  · rw [ha.ortMat_val j i hj hi, lineOrdinal, hiout]
    rfl

end Intrepid2

namespace Intrepid2

/-- Witness of C22 (amended): the monomial line basis on edge 0 of the quadrilateral. -/
theorem edge_coeff_collocation_layout_witness :
    ∃ w, edgeCoeffAssemble referenceTools true monomialLineBasis (quadBasisCn 3) 0 0
        = Except.ok w ∧ w.ndofEdge = 2 ∧
      ∀ j i, j < w.ndofEdge → i < w.ndofEdge →
        ∃ iref iout,
          (quadBasisCn 3).getDofOrdinal monomialLineBasis.getBaseCellTopology.getDimension 0 i
            = some iref ∧
          monomialLineBasis.getDofOrdinal monomialLineBasis.getBaseCellTopology.getDimension
            0 i = some iout ∧
          w.refMat.val j i = (quadBasisCn 3).value iref (w.refPtsCell.row j) ∧
          w.ortMat.val j i = monomialLineBasis.value iout (w.ortPtsLine.row j) := by
  obtain ⟨w, hw, hn, _⟩ := monomial_setup.setup_assembles true (fun _ => rfl) 0 (Or.inl rfl)
  have hA := (edgeCoeffAssemble_ok_iff _ _ _ _ _ _ w).mpr hw
  exact ⟨w, hA, hn, (edge_coeff_collocation_layout referenceTools true (View2.zeros 2 2)
    monomialLineBasis (quadBasisCn 3) 0 0 w hA).2.2.1⟩

/-- C23: handedness correction of the face variants: the face is treated as left-handed
exactly when the cell node number of face-local vertex 1 is greater than that of face-local
vertex 2 (triangle) or of face-local vertex 3 (quadrilateral); the test is a function of
the node map of the cell topology and the face id alone, not of the orientation code; the
code used for point mapping is `leftOrt[faceOrt]` when the face is left-handed and
`faceOrt` unchanged otherwise.  For the codes that the table moves, the remapped code is
used if and only if the face is left-handed. -/
theorem face_handedness_selection :
    (∃ leftHanded : (Nat → Int → Nat → Nat) → Int → Bool,
      (∀ getNodeMap faceId,
        leftHanded getNodeMap faceId = true ↔
          getNodeMap 2 faceId 1 > getNodeMap 2 faceId 2) ∧
      ∀ getNodeMap faceId faceOrt,
        triangleFaceOrt getNodeMap faceId faceOrt =
          if leftHanded getNodeMap faceId = true then triangleLeftOrt[faceOrt]?
          else some faceOrt) ∧
    (∃ leftHanded : (Nat → Int → Nat → Nat) → Int → Bool,
      (∀ getNodeMap faceId,
        leftHanded getNodeMap faceId = true ↔
          getNodeMap 2 faceId 1 > getNodeMap 2 faceId 3) ∧
      ∀ getNodeMap faceId faceOrt,
        quadrilateralFaceOrt getNodeMap faceId faceOrt =
          if leftHanded getNodeMap faceId = true then quadrilateralLeftOrt[faceOrt]?
          else some faceOrt) ∧
    (∀ (getNodeMap : Nat → Int → Nat → Nat) (faceId : Int) (faceOrt : Nat),
      faceOrt ∈ [1, 2, 4, 5] →
      (triangleFaceOrt getNodeMap faceId faceOrt = triangleLeftOrt[faceOrt]? ↔
        getNodeMap 2 faceId 1 > getNodeMap 2 faceId 2)) ∧
    (∀ (getNodeMap : Nat → Int → Nat → Nat) (faceId : Int) (faceOrt : Nat),
      faceOrt ∈ [1, 3, 5, 7] →
      (quadrilateralFaceOrt getNodeMap faceId faceOrt = quadrilateralLeftOrt[faceOrt]? ↔
        getNodeMap 2 faceId 1 > getNodeMap 2 faceId 3)) := by
  refine ⟨⟨fun g f => decide (g 2 f 1 > g 2 f 2), fun g f => by simp, fun g f c => rfl⟩,
    ⟨fun g f => decide (g 2 f 1 > g 2 f 3), fun g f => by simp, fun g f c => rfl⟩, ?_, ?_⟩
  · intro g f c hc
    unfold triangleFaceOrt
    by_cases hl : g 2 f 1 > g 2 f 2
    · simp only [hl, decide_True, if_true]
    · simp only [hl, decide_False, iff_false]
      simp only [List.mem_cons, List.mem_singleton, List.not_mem_nil, or_false] at hc
      rcases hc with h | h | h | h <;> subst h <;> decide
  · intro g f c hc
    unfold quadrilateralFaceOrt
    by_cases hl : g 2 f 1 > g 2 f 3
    · simp only [hl, decide_True, if_true]
    · simp only [hl, decide_False, iff_false]
      simp only [List.mem_cons, List.mem_singleton, List.not_mem_nil, or_false] at hc
      rcases hc with h | h | h | h <;> subst h <;> decide

/-- C25: the two handedness lookup tables are involutive permutations that fix the identity
orientation: for the triangle table `{0,2,1,3,5,4}` and the quadrilateral table
`{0,3,2,1,4,7,6,5}`, `leftOrt[leftOrt[c]] = c` for every valid code `c`, `leftOrt` is a
bijection of the valid code range (a rearrangement of `0..5`, of `0..7`), and
`leftOrt[0] = 0`; so on a left-handed face remapping a code twice gives the code back. -/
theorem left_ort_involutive :
    (∀ c, c < 6 → ∃ e, triangleLeftOrt[c]? = some e ∧ triangleLeftOrt[e]? = some c) ∧
    (∀ c, c < 8 → ∃ e, quadrilateralLeftOrt[c]? = some e ∧
      quadrilateralLeftOrt[e]? = some c) ∧
    triangleLeftOrt.Perm (List.range 6) ∧
    quadrilateralLeftOrt.Perm (List.range 8) ∧
    triangleLeftOrt[0]? = some 0 ∧
    quadrilateralLeftOrt[0]? = some 0 ∧
    (∀ (getNodeMap : Nat → Int → Nat → Nat) (faceId : Int) (c : Nat), c < 6 →
      getNodeMap 2 faceId 1 > getNodeMap 2 faceId 2 →
      (triangleFaceOrt getNodeMap faceId c).bind (triangleFaceOrt getNodeMap faceId)
        = some c) ∧
    (∀ (getNodeMap : Nat → Int → Nat → Nat) (faceId : Int) (c : Nat), c < 8 →
      getNodeMap 2 faceId 1 > getNodeMap 2 faceId 3 →
      (quadrilateralFaceOrt getNodeMap faceId c).bind (quadrilateralFaceOrt getNodeMap faceId)
        = some c) := by
  refine ⟨?_, ?_, by decide, by decide, rfl, rfl, ?_, ?_⟩
  · intro c hc
    interval_cases c <;> exact ⟨_, rfl, rfl⟩
  · intro c hc
    interval_cases c <;> exact ⟨_, rfl, rfl⟩
  · intro g f c hc hl
    unfold triangleFaceOrt
    simp only [hl, decide_True, if_true]
    interval_cases c <;> rfl
  · intro g f c hc hl
    unfold quadrilateralFaceOrt
    simp only [hl, decide_True, if_true]
    interval_cases c <;> rfl

end Intrepid2

namespace Intrepid2

/-- The point mapper succeeds on the line only for the codes 0 and 1, and then produces
the oriented points. -/
theorem oriented_of_mapped (n : Nat) (L Q : View2) (edgeOrt : Int)
    (h : mapToModifiedReference (View2.zeros n 1) L ⟨TopologyKey.Line, 1⟩ edgeOrt = some Q) :
    (edgeOrt = 0 ∨ edgeOrt = 1) ∧ Q = orientedPoints n L edgeOrt := by
  simp only [mapToModifiedReference] at h
  by_cases h0 : edgeOrt = 0
  · rw [if_pos h0] at h
    refine ⟨Or.inl h0, ?_⟩
    rw [← Option.some.inj h, h0]
    simp [orientedPoints]
  · rw [if_neg h0] at h
    by_cases h1 : edgeOrt = 1
    · rw [if_pos h1] at h
      refine ⟨Or.inr h1, ?_⟩
      rw [← Option.some.inj h, h1]
      simp [orientedPoints]
    · rw [if_neg h1] at h
      cases h

/-- C24: if the cell basis's edge functions and the line basis's interior functions are
both nodal on the collocation points (cell edge function `i` is 1 at cell-mapped lattice
point `i` and 0 at the other cell-mapped lattice points, line interior function `i` is 1 at
lattice point `i` and 0 at the others) and the orientation map sends lattice point `j` to
lattice point `s(j)` for a permutation `s`, then `getEdgeCoeffMatrix_HGRAD`, called on a
well-formed edge with an output view that has room, succeeds and its result is the
permutation matrix with entry `(j, k) = 1` when `k = s(j)` and 0 otherwise. -/
theorem edge_coeff_permutation_of_nodal (tools : PointTools) (lineBasis cellBasis : Basis)
    (edgeId : Int) (n : Nat) (L P : View2)
    (hc : EdgeSetup tools lineBasis cellBasis edgeId n L P) (debug : Bool)
    (hsize : debug = true →
      n = tools.getLatticeSize lineBasis.getBaseCellTopology cellBasis.getDegree 1)
    (edgeOrt : Int) (Q : View2)
    (hQ : mapToModifiedReference
      (View2.zeros n lineBasis.getBaseCellTopology.getDimension) L
      lineBasis.getBaseCellTopology edgeOrt = some Q)
    (s : Equiv.Perm (Fin n))
    (hmap : ∀ j : Fin n, Q.row j.val = L.row (s j).val)
    (hcell : ∀ j i, j < n → i < n →
      cellBasis.value (cellOrdinal lineBasis cellBasis edgeId i) (P.row j)
        = if j = i then 1 else 0)
    (hline : ∀ j i, j < n → i < n →
      lineBasis.value (lineOrdinal lineBasis i) (L.row j) = if j = i then 1 else 0)
    (output : View2) (hroom : n ≤ output.extent0 ∧ n ≤ output.extent1) :
    ∃ out, getEdgeCoeffMatrix_HGRAD tools debug output lineBasis cellBasis edgeId edgeOrt
        = (Except.ok (), out) ∧
      View2.block n out = Equiv.Perm.permMatrix ℚ s ∧
      (∀ j k : Fin n, out.val j.val k.val = if k = s j then 1 else 0) ∧
      out.extent0 = output.extent0 ∧ out.extent1 = output.extent1 ∧
      ∀ r c, ¬ (r < n ∧ c < n) → out.val r c = output.val r c := by
  rw [hc.line] at hQ
  obtain ⟨hort, hQ2⟩ := oriented_of_mapped n L Q edgeOrt hQ
  have hY : ∀ j i, j < n → i < n →
      lineBasis.value (lineOrdinal lineBasis i)
        [if edgeOrt = 0 then L.val j 0 else - L.val j 0]
        = (fun r c => if h : r < n then (if c = (s ⟨r, h⟩).val then (1 : ℚ) else 0) else 0)
            j i := by
    intro j i hj hi
    have hrow : Q.row j = [if edgeOrt = 0 then L.val j 0 else - L.val j 0] := by
      rw [hQ2, row_one _ rfl]
      rfl
    rw [← hrow, hmap ⟨j, hj⟩, hline _ i (s ⟨j, hj⟩).isLt hi]
    simp only [dif_pos hj]
    by_cases h : (s ⟨j, hj⟩).val = i
    · rw [if_pos h, if_pos h.symm]
    · rw [if_neg h, if_neg (fun h2 => h h2.symm)]
  have hret := solution_of_nodal hc debug hsize edgeOrt hort hcell _ hY output hroom
  have hentry : ∀ j k : Fin n,
      (withBlock output n (fun r c =>
        if h : r < n then (if c = (s ⟨r, h⟩).val then (1 : ℚ) else 0) else 0)).val j.val k.val
        = if k = s j then 1 else 0 := by
    intro j k
    rw [withBlock_val _ _ _ _ _ j.isLt k.isLt]
    simp only [dif_pos j.isLt, Fin.eta]
    by_cases h : k = s j
    · rw [if_pos h, if_pos (by rw [h])]
    · rw [if_neg h, if_neg (fun h2 => h (Fin.ext h2))]
  refine ⟨_, hret, ?_, hentry, rfl, rfl, fun r c h => withBlock_val_outside _ _ _ _ _ h⟩
  funext j k
  rw [Equiv.Perm.permMatrix, PEquiv.toMatrix_apply, Equiv.toPEquiv_apply]
  simp only [View2.block]
  rw [hentry j k]
  simp only [Option.mem_def, Option.some.injEq]
  by_cases h : k = s j
  · rw [if_pos h, if_pos h.symm]
  · rw [if_neg h, if_neg (fun h2 => h h2.symm)]

theorem cn_line_nodal (d : Nat) (hd : 2 ≤ d) (j i : Nat) (hj : j < d - 1) (hi : i < d - 1) :
    (lineBasisCn d).value (lineOrdinal (lineBasisCn d) i) ((edgeLattice d).row j)
      = if j = i then 1 else 0 := by
  rw [← (cn_consistent d hd).trace i j hi hj]
  exact cn_nodal d hd j i hj hi

/-- Witness of C24: the degree-3 pairing on edge 0 with orientation 1; the orientation map
exchanges the two lattice points `-1/3` and `1/3`. -/
theorem edge_coeff_permutation_of_nodal_witness :
    ∃ out, getEdgeCoeffMatrix_HGRAD referenceTools true (View2.zeros 2 2) (lineBasisCn 3)
        (quadBasisCn 3) 0 1 = (Except.ok (), out) ∧
      View2.block 2 out = Equiv.Perm.permMatrix ℚ (Equiv.swap (0 : Fin 2) 1) ∧
      (∀ j k : Fin 2, out.val j.val k.val
        = if k = Equiv.swap (0 : Fin 2) 1 j then 1 else 0) ∧
      out.extent0 = (View2.zeros 2 2).extent0 ∧ out.extent1 = (View2.zeros 2 2).extent1 ∧
      ∀ r c, ¬ (r < 2 ∧ c < 2) → out.val r c = (View2.zeros 2 2).val r c :=
  edge_coeff_permutation_of_nodal referenceTools (lineBasisCn 3) (quadBasisCn 3) 0 2
    (edgeLattice 3) (edgeCellPoints 3) (cn_setup 3 (by norm_num)) true (fun _ => rfl) 1
    (orientedPoints 2 (edgeLattice 3) 1)
    (by simp [mapToModifiedReference, orientedPoints, lineBasisCn])
    (Equiv.swap (0 : Fin 2) 1)
    (by
      intro j
      rw [row_one _ rfl, row_one _ rfl]
      simp only [orientedPoints, View2.fill]
      fin_cases j
      · show [if (1 : Int) = 0 then (edgeLattice 3).val 0 0 else - (edgeLattice 3).val 0 0]
          = [(edgeLattice 3).val 1 0]
        rw [edgeLattice_val 3 0 (by norm_num), edgeLattice_val 3 1 (by norm_num)]
        norm_num [equispacedPoint]
      · show [if (1 : Int) = 0 then (edgeLattice 3).val 1 0 else - (edgeLattice 3).val 1 0]
          = [(edgeLattice 3).val 0 0]
        rw [edgeLattice_val 3 0 (by norm_num), edgeLattice_val 3 1 (by norm_num)]
        norm_num [equispacedPoint])
    (cn_nodal 3 (by norm_num)) (cn_line_nodal 3 (by norm_num)) (View2.zeros 2 2)
    ⟨le_rfl, le_rfl⟩

end Intrepid2

namespace Zoltan2
namespace UserInputForTests

variable {X XG XV : Type}

theorem wrapMatrix_frame (env : Collaborators X XG XV) (s : UserInputForTests X) :
    (wrapMatrix env s).2 = s ∨
      ∃ xm, env.convertToXpetra s.M_ = Except.ok xm ∧
        wrapMatrix env s = (Except.ok (), { s with xM_ := xm }) := by
  unfold wrapMatrix
  cases h : env.convertToXpetra s.M_ with
  | error e => exact Or.inl rfl
  | ok xm => exact Or.inr ⟨xm, rfl, rfl⟩

/-- What `createMatrix` can do to an object: nothing but assign `M_` and `xM_` and call one
source, the gallery when `xdim_ > 0` and the reader otherwise. -/
theorem createMatrix_frame (env : Collaborators X XG XV) (s : UserInputForTests X) :
    ∃ m xm cs, (createMatrix env s).2 = { s with M_ := m, xM_ := xm, calls := cs } ∧
      (cs = s.calls ∨
        (s.M_ = none ∧ 0 < s.xdim_ ∧
          cs = s.calls ++ [Event.CreateCrsMatrix "Laplace3D" s.xdim_ s.ydim_ s.zdim_]) ∨
        (s.M_ = none ∧ ¬ 0 < s.xdim_ ∧ 0 < s.fname_.length ∧
          cs = s.calls ++ [Event.readSparseFile s.fname_])) := by
  unfold createMatrix
  by_cases hN : s.M_.isNone = true
  · have hM : s.M_ = none := Option.isNone_iff_eq_none.mp hN
    rw [if_pos hN]
    by_cases hx : s.xdim_ > 0
    · rw [if_pos hx]
      unfold buildCrsMatrix
      cases h1 : env.CreateCrsMatrix "Laplace3D" s.xdim_ s.ydim_ s.zdim_ with
      | ok m =>
        simp only
        rcases wrapMatrix_frame env { s with
          calls := s.calls ++ [Event.CreateCrsMatrix "Laplace3D" s.xdim_ s.ydim_ s.zdim_],
          M_ := m } with h | ⟨xm, _, h⟩
        · exact ⟨m, s.xM_, _, by rw [h], Or.inr (Or.inl ⟨hM, hx, rfl⟩)⟩
        · exact ⟨m, xm, _, by rw [h], Or.inr (Or.inl ⟨hM, hx, rfl⟩)⟩
      | error what =>
        simp only
        cases h2 : env.TEST_FAIL_AND_THROW 1 what with
        | error e => exact ⟨s.M_, s.xM_, _, rfl, Or.inr (Or.inl ⟨hM, hx, rfl⟩)⟩
        | ok u =>
          simp only
          rcases wrapMatrix_frame env { s with
            calls := s.calls ++ [Event.CreateCrsMatrix "Laplace3D" s.xdim_ s.ydim_ s.zdim_] }
            with h | ⟨xm, _, h⟩
          · exact ⟨s.M_, s.xM_, _, by rw [h], Or.inr (Or.inl ⟨hM, hx, rfl⟩)⟩
          · exact ⟨s.M_, xm, _, by rw [h], Or.inr (Or.inl ⟨hM, hx, rfl⟩)⟩
    · rw [if_neg hx]
      by_cases hf : s.fname_.length > 0
      · rw [if_pos hf]
        unfold readMatrixMarketFile
        cases h1 : env.readSparseFile s.fname_ with
        | ok m =>
          simp only
          rcases wrapMatrix_frame env { s with
            calls := s.calls ++ [Event.readSparseFile s.fname_], M_ := m } with h | ⟨xm, _, h⟩
          · exact ⟨m, s.xM_, _, by rw [h], Or.inr (Or.inr ⟨hM, hx, hf, rfl⟩)⟩
          · exact ⟨m, xm, _, by rw [h], Or.inr (Or.inr ⟨hM, hx, hf, rfl⟩)⟩
        | error what =>
          simp only
          cases h2 : env.TEST_FAIL_AND_THROW 1 what with
          | error e => exact ⟨s.M_, s.xM_, _, rfl, Or.inr (Or.inr ⟨hM, hx, hf, rfl⟩)⟩
          | ok u =>
            simp only
            rcases wrapMatrix_frame env { s with
              calls := s.calls ++ [Event.readSparseFile s.fname_] } with h | ⟨xm, _, h⟩
            · exact ⟨s.M_, s.xM_, _, by rw [h], Or.inr (Or.inr ⟨hM, hx, hf, rfl⟩)⟩
            · exact ⟨s.M_, xm, _, by rw [h], Or.inr (Or.inr ⟨hM, hx, hf, rfl⟩)⟩
      · rw [if_neg hf]
        exact ⟨s.M_, s.xM_, s.calls, rfl, Or.inl rfl⟩
  · rw [if_neg hN]
    exact ⟨s.M_, s.xM_, s.calls, rfl, Or.inl rfl⟩

/-- Once `M_` is set, `createMatrix` does nothing. -/
theorem createMatrix_idempotent (env : Collaborators X XG XV) (s : UserInputForTests X)
    (h : s.M_ ≠ none) : createMatrix env s = (Except.ok (), s) := by
  unfold createMatrix
  rw [if_neg (by simpa [Option.isNone_iff_eq_none] using h)]

/-- Without a source, `createMatrix` throws and leaves the object as it was. -/
theorem createMatrix_without_source (env : Collaborators X XG XV) (s : UserInputForTests X)
    (hx : ¬ 0 < s.xdim_) (hf : s.fname_ = "") (hM : s.M_ = none) :
    createMatrix env s = (Except.error (TestFailure.logic_error "programming error"), s) := by
  unfold createMatrix
  rw [if_pos (by rw [hM]; rfl), if_neg hx, if_neg (by rw [hf]; decide)]

end UserInputForTests
end Zoltan2

namespace Zoltan2
namespace UserInputForTests

variable {X XG XV : Type}

/-- The outcomes of `createMatrix` with dependable collaborators: nothing to do; a failure
before `M_` is assigned; a failure of the conversion, after `M_` is assigned; success. -/
theorem createMatrix_cases (env : Collaborators X XG XV) (hd : Dependable env)
    (s : UserInputForTests X) :
    (s.M_ ≠ none ∧ createMatrix env s = (Except.ok (), s)) ∨
    (s.M_ = none ∧ ∃ e cs, createMatrix env s = (Except.error e, { s with calls := cs })) ∨
    (s.M_ = none ∧ ∃ m e cs, env.convertToXpetra (some m) = Except.error e ∧
      createMatrix env s = (Except.error e, { s with M_ := some m, calls := cs })) ∨
    (s.M_ = none ∧ ∃ m xm cs, env.convertToXpetra (some m) = Except.ok xm ∧
      createMatrix env s = (Except.ok (), { s with M_ := some m, xM_ := xm, calls := cs })) := by
  by_cases hM : s.M_ = none
  swap
  · exact Or.inl ⟨hM, createMatrix_idempotent env s hM⟩
  refine Or.inr ?_
  unfold createMatrix
  rw [if_pos (by rw [hM]; rfl)]
  by_cases hx : s.xdim_ > 0
  · rw [if_pos hx]
    unfold buildCrsMatrix
    cases h1 : env.CreateCrsMatrix "Laplace3D" s.xdim_ s.ydim_ s.zdim_ with
    | ok m =>
      cases m with
      | none => exact absurd h1 (hd.built _ _ _ _)
      | some m =>
        simp only [wrapMatrix]
        cases h3 : env.convertToXpetra (some m) with
        | error e => exact Or.inr (Or.inl ⟨hM, m, e, _, h3, rfl⟩)
        | ok xm => exact Or.inr (Or.inr ⟨hM, m, xm, _, h3, rfl⟩)
    | error what =>
      obtain ⟨e, he⟩ := hd.throws what
      simp only [he]
      exact Or.inl ⟨hM, e, _, rfl⟩
  · rw [if_neg hx]
    by_cases hf : s.fname_.length > 0
    · rw [if_pos hf]
      unfold readMatrixMarketFile
      cases h1 : env.readSparseFile s.fname_ with
      | ok m =>
        cases m with
        | none => exact absurd h1 (hd.read _)
        | some m =>
          simp only [wrapMatrix]
          cases h3 : env.convertToXpetra (some m) with
          | error e => exact Or.inr (Or.inl ⟨hM, m, e, _, h3, rfl⟩)
          | ok xm => exact Or.inr (Or.inr ⟨hM, m, xm, _, h3, rfl⟩)
      | error what =>
        obtain ⟨e, he⟩ := hd.throws what
        simp only [he]
        exact Or.inl ⟨hM, e, _, rfl⟩
    · rw [if_neg hf]
      exact Or.inl ⟨hM, _, s.calls, rfl⟩

/-- With dependable collaborators, a `createMatrix` that returns leaves a matrix. -/
theorem createMatrix_ok (env : Collaborators X XG XV) (hd : Dependable env)
    (s s1 : UserInputForTests X) (h : createMatrix env s = (Except.ok (), s1)) :
    s1.M_ ≠ none := by
  rcases createMatrix_cases env hd s with ⟨hM, h1⟩ | ⟨_, e, cs, h1⟩ | ⟨_, m, e, cs, _, h1⟩ |
    ⟨_, m, xm, cs, _, h1⟩
  · rw [h1] at h
    cases h
    exact hM
  · rw [h1] at h
    cases h
  · rw [h1] at h
    cases h
  · rw [h1] at h
    cases h
    simp

theorem createMatrix_ordered (env : Collaborators X XG XV) (hd : Dependable env)
    (s : UserInputForTests X) (h : Ordered s) : Ordered (createMatrix env s).2 := by
  rcases createMatrix_cases env hd s with ⟨hM, h1⟩ | ⟨hM, e, cs, h1⟩ | ⟨_, m, e, cs, _, h1⟩ |
    ⟨_, m, xm, cs, _, h1⟩
  · rw [h1]; exact h
  · rw [h1]; exact h
  · rw [h1]; exact ⟨fun _ => by simp, fun _ => by simp, fun _ => by simp⟩
  · rw [h1]; exact ⟨fun _ => by simp, fun _ => by simp, fun _ => by simp⟩

end UserInputForTests
end Zoltan2

namespace Zoltan2
namespace UserInputForTests

variable {X XG XV : Type}

theorem ensureTpetra_cases (env : Collaborators X XG XV) (s : UserInputForTests X) :
    (s.M_ ≠ none ∧ ensureTpetra env s = (Except.ok (), s)) ∨
    (s.M_ = none ∧ ensureTpetra env s = createMatrix env s) := by
  unfold ensureTpetra
  by_cases hM : s.M_ = none
  · exact Or.inr ⟨hM, by rw [if_pos (by rw [hM]; rfl)]⟩
  · exact Or.inl ⟨hM, by rw [if_neg (by simpa [Option.isNone_iff_eq_none] using hM)]⟩

theorem ensureXpetra_cases (env : Collaborators X XG XV) (s : UserInputForTests X) :
    (s.xM_ ≠ none ∧ ensureXpetra env s = (Except.ok (), s)) ∨
    (s.xM_ = none ∧ ensureXpetra env s = createMatrix env s) := by
  unfold ensureXpetra
  by_cases hM : s.xM_ = none
  · exact Or.inr ⟨hM, by rw [if_pos (by rw [hM]; rfl)]⟩
  · exact Or.inl ⟨hM, by rw [if_neg (by simpa [Option.isNone_iff_eq_none] using hM)]⟩

theorem ensureTpetra_state (env : Collaborators X XG XV) (s : UserInputForTests X) :
    (ensureTpetra env s).2 = s ∨ (ensureTpetra env s).2 = (createMatrix env s).2 := by
  rcases ensureTpetra_cases env s with ⟨_, h⟩ | ⟨_, h⟩
  · exact Or.inl (by rw [h])
  · exact Or.inr (by rw [h])

theorem ensureXpetra_state (env : Collaborators X XG XV) (s : UserInputForTests X) :
    (ensureXpetra env s).2 = s ∨ (ensureXpetra env s).2 = (createMatrix env s).2 := by
  rcases ensureXpetra_cases env s with ⟨_, h⟩ | ⟨_, h⟩
  · exact Or.inl (by rw [h])
  · exact Or.inr (by rw [h])

theorem getTpetraCrsMatrix_state (env : Collaborators X XG XV) (s : UserInputForTests X) :
    (getTpetraCrsMatrix env s).2 = (ensureTpetra env s).2 := by
  unfold getTpetraCrsMatrix
  rcases h : ensureTpetra env s with ⟨_ | _, s1⟩ <;> rfl

theorem getTpetraCrsGraph_state (env : Collaborators X XG XV) (s : UserInputForTests X) :
    (getTpetraCrsGraph env s).2 = (ensureTpetra env s).2 := by
  unfold getTpetraCrsGraph
  rcases h : ensureTpetra env s with ⟨_ | _, s1⟩
  · rfl
  · simp only
    cases s1.M_ <;> rfl

theorem getTpetraMultiVector_state (env : Collaborators X XG XV) (nvec : Int)
    (s : UserInputForTests X) :
    (getTpetraMultiVector env nvec s).2 = (ensureTpetra env s).2 := by
  unfold getTpetraMultiVector
  rcases h : ensureTpetra env s with ⟨_ | _, s1⟩
  · rfl
  · simp only
    cases s1.M_ <;> rfl

theorem getTpetraVector_state (env : Collaborators X XG XV) (s : UserInputForTests X) :
    (getTpetraVector env s).2 = (ensureTpetra env s).2 := by
  unfold getTpetraVector
  rcases h : ensureTpetra env s with ⟨_ | _, s1⟩
  · rfl
  · simp only
    cases s1.M_ <;> rfl

theorem getXpetraCrsMatrix_state (env : Collaborators X XG XV) (s : UserInputForTests X) :
    (getXpetraCrsMatrix env s).2 = (ensureXpetra env s).2 := by
  unfold getXpetraCrsMatrix
  rcases h : ensureXpetra env s with ⟨_ | _, s1⟩ <;> rfl

theorem getXpetraCrsGraph_state (env : Collaborators X XG XV) (s : UserInputForTests X) :
    (getXpetraCrsGraph env s).2 = (ensureXpetra env s).2 := by
  unfold getXpetraCrsGraph
  rcases h : ensureXpetra env s with ⟨_ | _, s1⟩
  · rfl
  · simp only
    cases s1.xM_ <;> rfl

theorem getXpetraVector_state (env : Collaborators X XG XV) (s : UserInputForTests X) :
    (getXpetraVector env s).2 = (ensureTpetra env s).2 := by
  rw [← getTpetraVector_state]
  unfold getXpetraVector
  rcases h : getTpetraVector env s with ⟨_ | tV, s1⟩
  · rfl
  · simp only
    cases env.convertVectorToXpetra tV <;> rfl

theorem getXpetraMultiVector_state (env : Collaborators X XG XV) (nvec : Int)
    (s : UserInputForTests X) :
    (getXpetraMultiVector env nvec s).2 = (ensureTpetra env s).2 := by
  rw [← getTpetraMultiVector_state env nvec]
  unfold getXpetraMultiVector
  rcases h : getTpetraMultiVector env nvec s with ⟨_ | tV, s1⟩
  · rfl
  · simp only
    cases env.convertVectorToXpetra tV <;> rfl

theorem getEpetraCrsGraph_state (env : Collaborators X XG XV) (s : UserInputForTests X) :
    ∃ eG, (getEpetraCrsGraph env s).2 = { (ensureTpetra env s).2 with eG_ := eG } ∨
      (getEpetraCrsGraph env s).2 = s := by
  unfold getEpetraCrsGraph
  by_cases hG : s.eG_.isNone = true
  · rw [if_pos hG]
    rcases h : ensureTpetra env s with ⟨_ | _, s1⟩
    · exact ⟨s1.eG_, Or.inl rfl⟩
    · simp only
      cases hM : s1.M_ with
      | none =>
        refine ⟨s1.eG_, Or.inl ?_⟩
        cases s1
        simp only at hM
        subst hM
        rfl
      | some M =>
        simp only
        rcases hF : fillEpetraCrsGraph M with ⟨_ | _, eG⟩
        · exact ⟨eG, Or.inl rfl⟩
        · exact ⟨eG, Or.inl rfl⟩
  · rw [if_neg hG]
    exact ⟨none, Or.inr rfl⟩

theorem getEpetraVector_state (env : Collaborators X XG XV) (s : UserInputForTests X) :
    (getEpetraVector env s).2 = (getEpetraCrsGraph env s).2 := by
  unfold getEpetraVector
  rcases h : getEpetraCrsGraph env s with ⟨_ | _ | egraph, s1⟩ <;> rfl

theorem getEpetraMultiVector_state (env : Collaborators X XG XV) (nvec : Int)
    (s : UserInputForTests X) :
    (getEpetraMultiVector env nvec s).2 = (getEpetraCrsGraph env s).2 := by
  unfold getEpetraMultiVector
  rcases h : getEpetraCrsGraph env s with ⟨_ | _ | egraph, s1⟩ <;> rfl

theorem outcome_state {α : Type} (r : Except TestFailure α × UserInputForTests X) :
    (outcome r).2 = r.2 := rfl

end UserInputForTests
end Zoltan2

namespace Zoltan2
namespace UserInputForTests

variable {X XG XV : Type}

theorem getEpetraCrsMatrix_state (env : Collaborators X XG XV) (s : UserInputForTests X) :
    ∃ eM, (getEpetraCrsMatrix env s).2 = { (getEpetraCrsGraph env s).2 with eM_ := eM } ∨
      (getEpetraCrsMatrix env s).2 = s := by
  unfold getEpetraCrsMatrix
  by_cases hE : s.eM_.isNone = true
  · rw [if_pos hE]
    rcases h : getEpetraCrsGraph env s with ⟨_ | _ | egraph, s1⟩
    · exact ⟨s1.eM_, Or.inl rfl⟩
    · exact ⟨s1.eM_, Or.inl rfl⟩
    · simp only
      cases hM : s1.M_ with
      | none => exact ⟨_, Or.inl rfl⟩
      | some M =>
        simp only
        rcases insertMatrixRows M (env.RowMapGID egraph) (env.ColMapGID egraph)
          (env.IndexBase egraph) (List.range (env.NumMyRows egraph).toNat)
          (List.replicate M.getNodeMaxNumRowEntries (0 : Int)) ⟨egraph, [], false⟩
          with ⟨_ | _, eM⟩
        · exact ⟨_, Or.inl rfl⟩
        · exact ⟨_, Or.inl rfl⟩
  · rw [if_neg hE]
    exact ⟨none, Or.inr rfl⟩

/-- A getter changes the object only through `createMatrix` and by assigning the Epetra
copies. -/
theorem call_frame (env : Collaborators X XG XV) (g : Getter) (s : UserInputForTests X) :
    ∃ s1 eM eG, (s1 = s ∨ s1 = (createMatrix env s).2) ∧
      (call env g s).2 = { s1 with eM_ := eM, eG_ := eG } := by
  have hT : ∀ st : UserInputForTests X, st = (ensureTpetra env s).2 →
      ∃ s1 eM eG, (s1 = s ∨ s1 = (createMatrix env s).2) ∧
        st = { s1 with eM_ := eM, eG_ := eG } := by
    intro st hst
    rcases ensureTpetra_state env s with h | h
    · exact ⟨s, s.eM_, s.eG_, Or.inl rfl, by rw [hst, h]⟩
    · exact ⟨_, _, _, Or.inr rfl, by rw [hst, h]⟩
  have hX : ∀ st : UserInputForTests X, st = (ensureXpetra env s).2 →
      ∃ s1 eM eG, (s1 = s ∨ s1 = (createMatrix env s).2) ∧
        st = { s1 with eM_ := eM, eG_ := eG } := by
    intro st hst
    rcases ensureXpetra_state env s with h | h
    · exact ⟨s, s.eM_, s.eG_, Or.inl rfl, by rw [hst, h]⟩
    · exact ⟨_, _, _, Or.inr rfl, by rw [hst, h]⟩
  have hG : ∃ s1 eM eG, (s1 = s ∨ s1 = (createMatrix env s).2) ∧
      (getEpetraCrsGraph env s).2 = { s1 with eM_ := eM, eG_ := eG } := by
    obtain ⟨eG, h | h⟩ := getEpetraCrsGraph_state env s
    · obtain ⟨s1, eM, eG1, hs1, h1⟩ := hT _ rfl
      exact ⟨s1, eM, eG, hs1, by rw [h, h1]⟩
    · exact ⟨s, s.eM_, s.eG_, Or.inl rfl, h⟩
  cases g with
  | getTpetraCrsMatrix => exact hT _ (getTpetraCrsMatrix_state env s)
  | getTpetraCrsGraph => exact hT _ (getTpetraCrsGraph_state env s)
  | getTpetraVector => exact hT _ (getTpetraVector_state env s)
  | getTpetraMultiVector nvec => exact hT _ (getTpetraMultiVector_state env nvec s)
  | getXpetraCrsMatrix => exact hX _ (getXpetraCrsMatrix_state env s)
  | getXpetraCrsGraph => exact hX _ (getXpetraCrsGraph_state env s)
  | getXpetraVector => exact hT _ (getXpetraVector_state env s)
  | getXpetraMultiVector nvec => exact hT _ (getXpetraMultiVector_state env nvec s)
  | getEpetraCrsGraph => exact hG
  | getEpetraVector =>
    obtain ⟨s1, eM, eG, hs1, h1⟩ := hG
    exact ⟨s1, eM, eG, hs1, by
      show (getEpetraVector env s).2 = _
      rw [getEpetraVector_state, h1]⟩
  | getEpetraMultiVector nvec =>
    obtain ⟨s1, eM, eG, hs1, h1⟩ := hG
    exact ⟨s1, eM, eG, hs1, by
      show (getEpetraMultiVector env nvec s).2 = _
      rw [getEpetraMultiVector_state, h1]⟩
  | getEpetraCrsMatrix =>
    obtain ⟨eM, h | h⟩ := getEpetraCrsMatrix_state env s
    · obtain ⟨s1, eM1, eG, hs1, h1⟩ := hG
      exact ⟨s1, eM, eG, hs1, by
        show (getEpetraCrsMatrix env s).2 = _
        rw [h, h1]⟩
    · exact ⟨s, s.eM_, s.eG_, Or.inl rfl, h⟩

/-- A getter keeps the dimensions and the file name, and extends the history by at most the
one call that `createMatrix` makes. -/
theorem call_members (env : Collaborators X XG XV) (g : Getter) (s : UserInputForTests X) :
    (call env g s).2.xdim_ = s.xdim_ ∧ (call env g s).2.ydim_ = s.ydim_ ∧
    (call env g s).2.zdim_ = s.zdim_ ∧ (call env g s).2.fname_ = s.fname_ ∧
    ((call env g s).2.calls = s.calls ∨
      (s.M_ = none ∧ 0 < s.xdim_ ∧ (call env g s).2.calls
        = s.calls ++ [Event.CreateCrsMatrix "Laplace3D" s.xdim_ s.ydim_ s.zdim_]) ∨
      (s.M_ = none ∧ ¬ 0 < s.xdim_ ∧ 0 < s.fname_.length ∧
        (call env g s).2.calls = s.calls ++ [Event.readSparseFile s.fname_])) := by
  obtain ⟨s1, eM, eG, hs1 | hs1, h⟩ := call_frame env g s
  · rw [h, hs1]
    exact ⟨rfl, rfl, rfl, rfl, Or.inl rfl⟩
  · obtain ⟨m, xm, cs, hc, hcs⟩ := createMatrix_frame env s
    rw [h, hs1, hc]
    exact ⟨rfl, rfl, rfl, rfl, hcs⟩

/-- Once `M_` is set, a getter changes nothing but the Epetra copies. -/
theorem call_with_matrix (env : Collaborators X XG XV) (g : Getter) (s : UserInputForTests X)
    (hM : s.M_ ≠ none) :
    ∃ eM eG, (call env g s).2 = { s with eM_ := eM, eG_ := eG } := by
  obtain ⟨s1, eM, eG, hs1 | hs1, h⟩ := call_frame env g s
  · exact ⟨eM, eG, by rw [h, hs1]⟩
  · exact ⟨eM, eG, by rw [h, hs1, createMatrix_idempotent env s hM]⟩

theorem run_with_matrix (env : Collaborators X XG XV) (gs : List Getter) :
    ∀ s : UserInputForTests X, s.M_ ≠ none →
      ∃ eM eG, run env gs s = { s with eM_ := eM, eG_ := eG } := by
  induction gs with
  | nil => exact fun s _ => ⟨s.eM_, s.eG_, rfl⟩
  | cons g rest ih =>
    intro s hM
    obtain ⟨eM, eG, h⟩ := call_with_matrix env g s hM
    obtain ⟨eM2, eG2, h2⟩ := ih (call env g s).2 (by rw [h]; exact hM)
    exact ⟨eM2, eG2, by
      show run env rest (call env g s).2 = _
      rw [h2, h]⟩

end UserInputForTests
end Zoltan2

namespace Zoltan2
namespace UserInputForTests

variable {X XG XV : Type}

theorem run_invariant (env : Collaborators X XG XV) (P : UserInputForTests X → Prop)
    (hP : ∀ g s, P s → P (call env g s).2) (gs : List Getter) :
    ∀ s, P s → P (run env gs s) := by
  induction gs with
  | nil => exact fun s h => h
  | cons g rest ih => exact fun s h => ih _ (hP g s h)

theorem createMatrix_source (env : Collaborators X XG XV) (s : UserInputForTests X)
    (hM : s.M_ = none) :
    (0 < s.xdim_ → createMatrix env s = buildCrsMatrix env s) ∧
    (¬ 0 < s.xdim_ → 0 < s.fname_.length → createMatrix env s = readMatrixMarketFile env s) := by
  unfold createMatrix
  rw [if_pos (by rw [hM]; rfl)]
  exact ⟨fun hx => by rw [if_pos hx], fun hx hf => by rw [if_neg hx, if_pos hf]⟩

/-- C21: `UserInputForTests` chooses the source of its generating matrix from its
construction arguments: when the first matrix is created (`M_` is null), `createMatrix`
is `buildCrsMatrix`, which calls the gallery for the matrix type `"Laplace3D"` and the
dimensions `xdim_`, `ydim_`, `zdim_`, whenever `xdim_ > 0`, and otherwise it is
`readMatrixMarketFile`, which calls the reader on `fname_`, when `fname_` is non-empty; so
whatever getters are called on it, an object made by the file-name constructor
(dimensions 0, 0, 0) never calls the gallery and an object made by the dimensions
constructor with `x > 0` never calls the reader. -/
theorem user_input_source_choice (env : Collaborators X XG XV) :
    (∀ s : UserInputForTests X, s.M_ = none → 0 < s.xdim_ →
      createMatrix env s = buildCrsMatrix env s ∧
      (createMatrix env s).2.calls
        = s.calls ++ [Event.CreateCrsMatrix "Laplace3D" s.xdim_ s.ydim_ s.zdim_]) ∧
    (∀ s : UserInputForTests X, s.M_ = none → ¬ 0 < s.xdim_ → 0 < s.fname_.length →
      createMatrix env s = readMatrixMarketFile env s ∧
      (createMatrix env s).2.calls = s.calls ++ [Event.readSparseFile s.fname_]) ∧
    (∀ (fname : String) (gs : List Getter) (e : Event),
      e ∈ (run env gs (ofFile fname : UserInputForTests X)).calls →
        e = Event.readSparseFile fname) ∧
    (∀ (x y z : Int) (gs : List Getter) (e : Event), 0 < x →
      e ∈ (run env gs (ofDimensions x y z : UserInputForTests X)).calls →
        e = Event.CreateCrsMatrix "Laplace3D" x y z) := by
  refine ⟨?_, ?_, ?_, ?_⟩
  · intro s hM hx
    refine ⟨(createMatrix_source env s hM).1 hx, ?_⟩
    obtain ⟨m, xm, cs, hc, h | ⟨_, _, h⟩ | ⟨_, hnx, _⟩⟩ := createMatrix_frame env s
    · exfalso
      have hb : (createMatrix env s).2.calls ≠ s.calls := by
        rw [(createMatrix_source env s hM).1 hx]
        unfold buildCrsMatrix
        simp only
        cases env.CreateCrsMatrix "Laplace3D" s.xdim_ s.ydim_ s.zdim_ with
        | ok m1 =>
          simp only [wrapMatrix]
          cases env.convertToXpetra m1 <;> simp
        | error what =>
          simp only
          cases env.TEST_FAIL_AND_THROW 1 what with
          | error e => simp
          | ok u =>
            simp only [wrapMatrix]
            cases env.convertToXpetra s.M_ <;> simp
      apply hb
      rw [hc, h]
    · rw [hc, h]
    · exact absurd hx hnx
  · intro s hM hx hf
    refine ⟨(createMatrix_source env s hM).2 hx hf, ?_⟩
    obtain ⟨m, xm, cs, hc, h | ⟨_, hx2, _⟩ | ⟨_, _, _, h⟩⟩ := createMatrix_frame env s
    · exfalso
      have hb : (createMatrix env s).2.calls ≠ s.calls := by
        rw [(createMatrix_source env s hM).2 hx hf]
        unfold readMatrixMarketFile
        simp only
        cases env.readSparseFile s.fname_ with
        | ok m1 =>
          simp only [wrapMatrix]
          cases env.convertToXpetra m1 <;> simp
        | error what =>
          simp only
          cases env.TEST_FAIL_AND_THROW 1 what with
          | error e => simp
          | ok u =>
            simp only [wrapMatrix]
            cases env.convertToXpetra s.M_ <;> simp
      apply hb
      rw [hc, h]
    · exact absurd hx2 hx
    · rw [hc, h]
  · intro fname gs e
    have h := run_invariant env
      (fun s : UserInputForTests X => s.xdim_ = 0 ∧ s.fname_ = fname ∧
        ∀ e ∈ s.calls, e = Event.readSparseFile fname)
      (fun g s ⟨h1, h2, h3⟩ => by
        obtain ⟨hx, _, _, hf, hc⟩ := call_members env g s
        refine ⟨by rw [hx, h1], by rw [hf, h2], ?_⟩
        rcases hc with hc | ⟨_, hpos, _⟩ | ⟨_, _, _, hc⟩
        · rw [hc]; exact h3
        · rw [h1] at hpos; exact absurd hpos (lt_irrefl 0)
        · rw [hc, h2]
          intro e he
          rcases List.mem_append.mp he with he | he
          · exact h3 e he
          · exact List.mem_singleton.mp he)
      gs (ofFile fname) ⟨rfl, rfl, fun e he => by cases he⟩
    exact h.2.2 e
  · intro x y z gs e hx
    have h := run_invariant env
      (fun s : UserInputForTests X => s.xdim_ = x ∧ s.ydim_ = y ∧ s.zdim_ = z ∧
        ∀ e ∈ s.calls, e = Event.CreateCrsMatrix "Laplace3D" x y z)
      (fun g s ⟨h1, h2, h3, h4⟩ => by
        obtain ⟨hx1, hy1, hz1, _, hc⟩ := call_members env g s
        refine ⟨by rw [hx1, h1], by rw [hy1, h2], by rw [hz1, h3], ?_⟩
        rcases hc with hc | ⟨_, _, hc⟩ | ⟨_, hneg, _⟩
        · rw [hc]; exact h4
        · rw [hc, h1, h2, h3]
          intro e he
          rcases List.mem_append.mp he with he | he
          · exact h4 e he
          · exact List.mem_singleton.mp he
        · rw [h1] at hneg; exact absurd hx hneg)
      gs (ofDimensions x y z) ⟨rfl, rfl, rfl, fun e he => by cases he⟩
    exact h.2.2.2 e

end UserInputForTests
end Zoltan2

namespace Zoltan2
namespace UserInputForTests

variable {X XG XV : Type}

theorem call_without_source (env : Collaborators X XG XV) (g : Getter)
    (s : UserInputForTests X) (hx : ¬ 0 < s.xdim_) (hf : s.fname_ = "") (hM : s.M_ = none)
    (hxM : s.xM_ = none) (hG : s.eG_ = none) (hE : s.eM_ = none) :
    call env g s = (Except.error (TestFailure.logic_error "programming error"), s) := by
  have hc := createMatrix_without_source env s hx hf hM
  have hT : ensureTpetra env s
      = (Except.error (TestFailure.logic_error "programming error"), s) := by
    unfold ensureTpetra
    rw [if_pos (by rw [hM]; rfl), hc]
  have hX : ensureXpetra env s
      = (Except.error (TestFailure.logic_error "programming error"), s) := by
    unfold ensureXpetra
    rw [if_pos (by rw [hxM]; rfl), hc]
  have hGr : getEpetraCrsGraph env s
      = (Except.error (TestFailure.logic_error "programming error"), s) := by
    unfold getEpetraCrsGraph
    rw [if_pos (by rw [hG]; rfl), hT]
  cases g with
  | getTpetraCrsMatrix => simp only [call, outcome, getTpetraCrsMatrix, hT]
  | getTpetraCrsGraph => simp only [call, outcome, getTpetraCrsGraph, hT]
  | getTpetraVector => simp only [call, outcome, getTpetraVector, hT]
  | getTpetraMultiVector nvec => simp only [call, outcome, getTpetraMultiVector, hT]
  | getXpetraCrsMatrix => simp only [call, outcome, getXpetraCrsMatrix, hX]
  | getXpetraCrsGraph => simp only [call, outcome, getXpetraCrsGraph, hX]
  | getXpetraVector => simp only [call, outcome, getXpetraVector, getTpetraVector, hT]
  | getXpetraMultiVector nvec =>
    simp only [call, outcome, getXpetraMultiVector, getTpetraMultiVector, hT]
  | getEpetraCrsGraph => simp only [call, outcome, hGr]
  | getEpetraVector => simp only [call, outcome, getEpetraVector, hGr]
  | getEpetraMultiVector nvec => simp only [call, outcome, getEpetraMultiVector, hGr]
  | getEpetraCrsMatrix =>
    have hEM : getEpetraCrsMatrix env s
        = (Except.error (TestFailure.logic_error "programming error"), s) := by
      unfold getEpetraCrsMatrix
      rw [if_pos (by rw [hE]; rfl), hGr]
    simp only [call, outcome, hEM]

theorem run_without_source (env : Collaborators X XG XV) (gs : List Getter) :
    ∀ s : UserInputForTests X, ¬ 0 < s.xdim_ → s.fname_ = "" → s.M_ = none →
      s.xM_ = none → s.eG_ = none → s.eM_ = none → run env gs s = s := by
  induction gs with
  | nil => exact fun s _ _ _ _ _ _ => rfl
  | cons g rest ih =>
    intro s hx hf hM hxM hG hE
    show run env rest (call env g s).2 = s
    rw [call_without_source env g s hx hf hM hxM hG hE]
    exact ih s hx hf hM hxM hG hE

/-- C26: `UserInputForTests` with no usable source fails instead of producing a matrix: for
an object whose `xdim_` is not positive and whose `fname_` is empty (the dimensions
constructor called with `x ≤ 0`, or the file constructor called with an empty name), every
getter that needs the matrix (`getTpetraCrsMatrix`, `getTpetraCrsGraph`,
`getTpetraVector`, `getTpetraMultiVector`, the four Xpetra getters and the four Epetra
getters) raises `logic_error("programming error")` and leaves the object as it was, with
`M_` and `xM_` null, however many getters were called before. -/
theorem user_input_without_source (env : Collaborators X XG XV) :
    (∀ (x y z : Int) (gs : List Getter) (g : Getter), x ≤ 0 →
      call env g (run env gs (ofDimensions x y z : UserInputForTests X))
        = (Except.error (TestFailure.logic_error "programming error"), ofDimensions x y z) ∧
      (call env g (run env gs (ofDimensions x y z : UserInputForTests X))).2.M_ = none ∧
      (call env g (run env gs (ofDimensions x y z : UserInputForTests X))).2.xM_ = none) ∧
    (∀ (gs : List Getter) (g : Getter),
      call env g (run env gs (ofFile "" : UserInputForTests X))
        = (Except.error (TestFailure.logic_error "programming error"), ofFile "") ∧
      (call env g (run env gs (ofFile "" : UserInputForTests X))).2.M_ = none ∧
      (call env g (run env gs (ofFile "" : UserInputForTests X))).2.xM_ = none) ∧
    (∀ x y z : Int, x ≤ 0 →
      (getTpetraCrsMatrix env (ofDimensions x y z : UserInputForTests X)).1
        = Except.error (TestFailure.logic_error "programming error") ∧
      (getXpetraCrsMatrix env (ofDimensions x y z : UserInputForTests X)).1
        = Except.error (TestFailure.logic_error "programming error")) := by
  refine ⟨?_, ?_, ?_⟩
  · intro x y z gs g hx
    have hx2 : ¬ 0 < (ofDimensions x y z : UserInputForTests X).xdim_ := not_lt.mpr hx
    have h : call env g (run env gs (ofDimensions x y z : UserInputForTests X))
        = (Except.error (TestFailure.logic_error "programming error"), ofDimensions x y z) := by
      rw [run_without_source env gs _ hx2 rfl rfl rfl rfl rfl]
      exact call_without_source env g _ hx2 rfl rfl rfl rfl rfl
    exact ⟨h, by rw [h]; rfl, by rw [h]; rfl⟩
  · intro gs g
    have hx2 : ¬ 0 < (ofFile "" : UserInputForTests X).xdim_ := lt_irrefl 0
    have h : call env g (run env gs (ofFile "" : UserInputForTests X))
        = (Except.error (TestFailure.logic_error "programming error"), ofFile "") := by
      rw [run_without_source env gs _ hx2 rfl rfl rfl rfl rfl]
      exact call_without_source env g _ hx2 rfl rfl rfl rfl rfl
    exact ⟨h, by rw [h]; rfl, by rw [h]; rfl⟩
  · intro x y z hx
    have hx2 : ¬ 0 < (ofDimensions x y z : UserInputForTests X).xdim_ := not_lt.mpr hx
    have h1 := call_without_source env Getter.getTpetraCrsMatrix
      (ofDimensions x y z : UserInputForTests X) hx2 rfl rfl rfl rfl rfl
    have h2 := call_without_source env Getter.getXpetraCrsMatrix
      (ofDimensions x y z : UserInputForTests X) hx2 rfl rfl rfl rfl rfl
    simp only [call, outcome, Prod.mk.injEq] at h1 h2
    constructor
    · cases h : (getTpetraCrsMatrix env (ofDimensions x y z : UserInputForTests X)).1 with
      | error e => rw [h] at h1; simp only [Except.error.injEq] at h1; rw [h1.1]
      | ok v => rw [h] at h1; simp at h1
    · cases h : (getXpetraCrsMatrix env (ofDimensions x y z : UserInputForTests X)).1 with
      | error e => rw [h] at h2; simp only [Except.error.injEq] at h2; rw [h2.1]
      | ok v => rw [h] at h2; simp at h2

end UserInputForTests
end Zoltan2

namespace Zoltan2
namespace UserInputForTests

variable {X XG XV : Type}

theorem ensureTpetra_ok (env : Collaborators X XG XV) (hd : Dependable env)
    (s s1 : UserInputForTests X) (h : ensureTpetra env s = (Except.ok (), s1)) :
    s1.M_ ≠ none := by
  rcases ensureTpetra_cases env s with ⟨hM, h1⟩ | ⟨_, h1⟩
  · rw [h1] at h
    cases h
    exact hM
  · rw [h1] at h
    exact createMatrix_ok env hd s s1 h

theorem ensureXpetra_ok (env : Collaborators X XG XV) (hd : Dependable env)
    (s s1 : UserInputForTests X) (ho : Ordered s)
    (h : ensureXpetra env s = (Except.ok (), s1)) : s1.M_ ≠ none := by
  rcases ensureXpetra_cases env s with ⟨hM, h1⟩ | ⟨_, h1⟩
  · rw [h1] at h
    cases h
    exact ho.1 hM
  · rw [h1] at h
    exact createMatrix_ok env hd s s1 h

theorem ensureTpetra_ordered (env : Collaborators X XG XV) (hd : Dependable env)
    (s : UserInputForTests X) (ho : Ordered s) : Ordered (ensureTpetra env s).2 := by
  rcases ensureTpetra_state env s with h | h
  · rw [h]; exact ho
  · rw [h]; exact createMatrix_ordered env hd s ho

theorem ensureXpetra_ordered (env : Collaborators X XG XV) (hd : Dependable env)
    (s : UserInputForTests X) (ho : Ordered s) : Ordered (ensureXpetra env s).2 := by
  rcases ensureXpetra_state env s with h | h
  · rw [h]; exact ho
  · rw [h]; exact createMatrix_ordered env hd s ho

/-- The outcomes of `getEpetraCrsGraph`: the value returned is the member `eG_`, and `eG_`
is assigned only when `M_` is set. -/
theorem getEpetraCrsGraph_cases (env : Collaborators X XG XV) (s : UserInputForTests X) :
    (getEpetraCrsGraph env s = (Except.ok s.eG_, s) ∧ s.eG_ ≠ none) ∨
    (∃ e, getEpetraCrsGraph env s = (Except.error e, (ensureTpetra env s).2)) ∨
    (∃ r eG, (ensureTpetra env s).1 = Except.ok () ∧ (ensureTpetra env s).2.M_ ≠ none ∧
      getEpetraCrsGraph env s = (r, { (ensureTpetra env s).2 with eG_ := eG }) ∧
      (r = Except.ok eG ∨ ∃ e, r = Except.error e)) := by
  unfold getEpetraCrsGraph
  by_cases hG : s.eG_.isNone = true
  · rw [if_pos hG]
    refine Or.inr ?_
    rcases h : ensureTpetra env s with ⟨e | _, s1⟩
    · exact Or.inl ⟨e, rfl⟩
    · simp only
      by_cases hM : s1.M_ = none
      · refine Or.inl ⟨TestFailure.null_reference, ?_⟩
        rw [hM]
      · obtain ⟨M, hM2⟩ := Option.ne_none_iff_exists'.mp hM
        refine Or.inr ?_
        simp only [hM2]
        rcases hF : fillEpetraCrsGraph M with ⟨e | _, eG⟩
        · exact ⟨_, eG, trivial, by simp, rfl, Or.inr ⟨e, rfl⟩⟩
        · exact ⟨_, eG, trivial, by simp, rfl, Or.inl rfl⟩
  · rw [if_neg hG]
    refine Or.inl ⟨rfl, ?_⟩
    intro h
    rw [h] at hG
    exact hG rfl

theorem getEpetraCrsGraph_ordered (env : Collaborators X XG XV) (hd : Dependable env)
    (s : UserInputForTests X) (ho : Ordered s) : Ordered (getEpetraCrsGraph env s).2 := by
  have he := ensureTpetra_ordered env hd s ho
  rcases getEpetraCrsGraph_cases env s with ⟨h, _⟩ | ⟨e, h⟩ | ⟨r, eG, _, hM, h, _⟩
  · rw [h]; exact ho
  · rw [h]; exact he
  · rw [h]
    exact ⟨fun _ => hM, fun _ => hM, fun _ => hM⟩

theorem getEpetraCrsGraph_ok (env : Collaborators X XG XV)
    (s s1 : UserInputForTests X) (ho : Ordered s) (r : RCP EpetraCrsGraph)
    (h : getEpetraCrsGraph env s = (Except.ok r, s1)) : s1.M_ ≠ none ∧ r = s1.eG_ := by
  rcases getEpetraCrsGraph_cases env s with ⟨h1, hG⟩ | ⟨e, h1⟩ | ⟨r1, eG, _, hM, h1, hr⟩
  · rw [h1] at h
    cases h
    exact ⟨ho.2.1 hG, rfl⟩
  · rw [h1] at h
    cases h
  · rw [h1] at h
    cases h
    rcases hr with hr | ⟨e, hr⟩
    · cases hr
      exact ⟨hM, rfl⟩
    · cases hr

/-- The outcomes of `getEpetraCrsMatrix`. -/
theorem getEpetraCrsMatrix_cases (env : Collaborators X XG XV) (s : UserInputForTests X) :
    (getEpetraCrsMatrix env s = (Except.ok s.eM_, s) ∧ s.eM_ ≠ none) ∨
    (∃ e, getEpetraCrsMatrix env s = (Except.error e, (getEpetraCrsGraph env s).2)) ∨
    (∃ r eM egraph, (getEpetraCrsGraph env s).1 = Except.ok (some egraph) ∧
      getEpetraCrsMatrix env s = (r, { (getEpetraCrsGraph env s).2 with eM_ := eM })) := by
  unfold getEpetraCrsMatrix
  by_cases hE : s.eM_.isNone = true
  · rw [if_pos hE]
    refine Or.inr ?_
    rcases h : getEpetraCrsGraph env s with ⟨e | _ | egraph, s1⟩
    · exact Or.inl ⟨e, rfl⟩
    · exact Or.inl ⟨_, rfl⟩
    · refine Or.inr ?_
      simp only
      by_cases hM : s1.M_ = none
      · rw [hM]
        exact ⟨_, _, egraph, rfl, rfl⟩
      · obtain ⟨M, hM2⟩ := Option.ne_none_iff_exists'.mp hM
        simp only [hM2]
        rcases insertMatrixRows M (env.RowMapGID egraph) (env.ColMapGID egraph)
          (env.IndexBase egraph) (List.range (env.NumMyRows egraph).toNat)
          (List.replicate M.getNodeMaxNumRowEntries (0 : Int)) ⟨egraph, [], false⟩
          with ⟨e | _, eM⟩
        · exact ⟨_, _, egraph, rfl, rfl⟩
        · exact ⟨_, _, egraph, rfl, rfl⟩
  · rw [if_neg hE]
    refine Or.inl ⟨rfl, ?_⟩
    intro h
    rw [h] at hE
    exact hE rfl

end UserInputForTests
end Zoltan2

namespace Zoltan2
namespace UserInputForTests

variable {X XG XV : Type}

theorem getEpetraCrsMatrix_ordered (env : Collaborators X XG XV) (hd : Dependable env)
    (s : UserInputForTests X) (ho : Ordered s) : Ordered (getEpetraCrsMatrix env s).2 := by
  have hg := getEpetraCrsGraph_ordered env hd s ho
  rcases getEpetraCrsMatrix_cases env s with ⟨h, _⟩ | ⟨e, h⟩ | ⟨r, eM, egraph, hr, h⟩
  · rw [h]; exact ho
  · rw [h]; exact hg
  · rw [h]
    have hM := (getEpetraCrsGraph_ok env s (getEpetraCrsGraph env s).2 ho (some egraph)
      (by rw [← hr])).1
    exact ⟨hg.1, fun _ => hM, fun _ => hM⟩

/-- With dependable collaborators every getter keeps the order of the members. -/
theorem call_ordered (env : Collaborators X XG XV) (hd : Dependable env) (g : Getter)
    (s : UserInputForTests X) (ho : Ordered s) : Ordered (call env g s).2 := by
  have hT := ensureTpetra_ordered env hd s ho
  have hX := ensureXpetra_ordered env hd s ho
  cases g with
  | getTpetraCrsMatrix =>
    show Ordered (getTpetraCrsMatrix env s).2
    rw [getTpetraCrsMatrix_state env s]; exact hT
  | getTpetraCrsGraph =>
    show Ordered (getTpetraCrsGraph env s).2
    rw [getTpetraCrsGraph_state env s]; exact hT
  | getTpetraVector =>
    show Ordered (getTpetraVector env s).2
    rw [getTpetraVector_state env s]; exact hT
  | getTpetraMultiVector nvec =>
    show Ordered (getTpetraMultiVector env nvec s).2
    rw [getTpetraMultiVector_state env nvec s]; exact hT
  | getXpetraCrsMatrix =>
    show Ordered (getXpetraCrsMatrix env s).2
    rw [getXpetraCrsMatrix_state env s]; exact hX
  | getXpetraCrsGraph =>
    show Ordered (getXpetraCrsGraph env s).2
    rw [getXpetraCrsGraph_state env s]; exact hX
  | getXpetraVector =>
    show Ordered (getXpetraVector env s).2
    rw [getXpetraVector_state env s]; exact hT
  | getXpetraMultiVector nvec =>
    show Ordered (getXpetraMultiVector env nvec s).2
    rw [getXpetraMultiVector_state env nvec s]; exact hT
  | getEpetraCrsGraph => exact getEpetraCrsGraph_ordered env hd s ho
  | getEpetraVector =>
    show Ordered (getEpetraVector env s).2
    rw [getEpetraVector_state env s]; exact getEpetraCrsGraph_ordered env hd s ho
  | getEpetraMultiVector nvec =>
    show Ordered (getEpetraMultiVector env nvec s).2
    rw [getEpetraMultiVector_state env nvec s]; exact getEpetraCrsGraph_ordered env hd s ho
  | getEpetraCrsMatrix => exact getEpetraCrsMatrix_ordered env hd s ho

theorem reachable_ordered (env : Collaborators X XG XV) (hd : Dependable env)
    (s : UserInputForTests X) (hs : Reachable env s) : Ordered s := by
  induction hs with
  | ofFile fname => exact ⟨fun h => absurd rfl h, fun h => absurd rfl h, fun h => absurd rfl h⟩
  | ofDimensions x y z =>
    exact ⟨fun h => absurd rfl h, fun h => absurd rfl h, fun h => absurd rfl h⟩
  | call g s _ ih => exact call_ordered env hd g s ih

theorem outcome_ok {α : Type} (r : Except TestFailure α × UserInputForTests X)
    (h : (outcome r).1 = Except.ok ()) : ∃ v, r.1 = Except.ok v := by
  unfold outcome at h
  cases hr : r.1 with
  | error e => rw [hr] at h; cases h
  | ok v => exact ⟨v, rfl⟩

/-- With dependable collaborators a getter that returns leaves a matrix in `M_`. -/
theorem call_ok_matrix (env : Collaborators X XG XV) (hd : Dependable env) (g : Getter)
    (s : UserInputForTests X) (ho : Ordered s) (h : (call env g s).1 = Except.ok ()) :
    (call env g s).2.M_ ≠ none := by
  have hT : ∀ {α : Type} (r : Except TestFailure α × UserInputForTests X),
      (∀ e s1, ensureTpetra env s = (Except.error e, s1) → r.1 = Except.error e) →
      r.2 = (ensureTpetra env s).2 → (outcome r).1 = Except.ok () → r.2.M_ ≠ none := by
    intro α r hr h2 hok
    obtain ⟨v, hv⟩ := outcome_ok r hok
    rw [h2]
    rcases he : ensureTpetra env s with ⟨e | _, s1⟩
    · rw [hr e s1 he] at hv
      cases hv
    · exact ensureTpetra_ok env hd s s1 he
  have hX : ∀ {α : Type} (r : Except TestFailure α × UserInputForTests X),
      (∀ e s1, ensureXpetra env s = (Except.error e, s1) → r.1 = Except.error e) →
      r.2 = (ensureXpetra env s).2 → (outcome r).1 = Except.ok () → r.2.M_ ≠ none := by
    intro α r hr h2 hok
    obtain ⟨v, hv⟩ := outcome_ok r hok
    rw [h2]
    rcases he : ensureXpetra env s with ⟨e | _, s1⟩
    · rw [hr e s1 he] at hv
      cases hv
    · exact ensureXpetra_ok env hd s s1 ho he
  cases g with
  | getTpetraCrsMatrix =>
    exact hT (getTpetraCrsMatrix env s) (fun e s1 he => by simp only [getTpetraCrsMatrix, he])
      (getTpetraCrsMatrix_state env s) h
  | getTpetraCrsGraph =>
    exact hT (getTpetraCrsGraph env s) (fun e s1 he => by simp only [getTpetraCrsGraph, he])
      (getTpetraCrsGraph_state env s) h
  | getTpetraVector =>
    exact hT (getTpetraVector env s) (fun e s1 he => by simp only [getTpetraVector, he])
      (getTpetraVector_state env s) h
  | getTpetraMultiVector nvec =>
    exact hT (getTpetraMultiVector env nvec s) (fun e s1 he => by simp only [getTpetraMultiVector, he])
      (getTpetraMultiVector_state env nvec s) h
  | getXpetraCrsMatrix =>
    exact hX (getXpetraCrsMatrix env s) (fun e s1 he => by simp only [getXpetraCrsMatrix, he])
      (getXpetraCrsMatrix_state env s) h
  | getXpetraCrsGraph =>
    exact hX (getXpetraCrsGraph env s) (fun e s1 he => by simp only [getXpetraCrsGraph, he])
      (getXpetraCrsGraph_state env s) h
  | getXpetraVector =>
    exact hT (getXpetraVector env s) (fun e s1 he => by simp only [getXpetraVector, getTpetraVector, he])
      (getXpetraVector_state env s) h
  | getXpetraMultiVector nvec =>
    exact hT (getXpetraMultiVector env nvec s) (fun e s1 he => by simp only [getXpetraMultiVector, getTpetraMultiVector, he])
      (getXpetraMultiVector_state env nvec s) h
  | getEpetraCrsGraph =>
    obtain ⟨v, hv⟩ := outcome_ok (getEpetraCrsGraph env s) h
    exact (getEpetraCrsGraph_ok env s (getEpetraCrsGraph env s).2 ho v (by rw [← hv])).1
  | getEpetraVector =>
    obtain ⟨v, hv⟩ := outcome_ok (getEpetraVector env s) h
    show (getEpetraVector env s).2.M_ ≠ none
    rw [getEpetraVector_state env s]
    rcases hg : getEpetraCrsGraph env s with ⟨e | r, s1⟩
    · simp only [getEpetraVector, hg] at hv
      cases hv
    · exact (getEpetraCrsGraph_ok env s s1 ho r hg).1
  | getEpetraMultiVector nvec =>
    obtain ⟨v, hv⟩ := outcome_ok (getEpetraMultiVector env nvec s) h
    show (getEpetraMultiVector env nvec s).2.M_ ≠ none
    rw [getEpetraMultiVector_state env nvec s]
    rcases hg : getEpetraCrsGraph env s with ⟨e | r, s1⟩
    · simp only [getEpetraMultiVector, hg] at hv
      cases hv
    · exact (getEpetraCrsGraph_ok env s s1 ho r hg).1
  | getEpetraCrsMatrix =>
    obtain ⟨v, hv⟩ := outcome_ok (getEpetraCrsMatrix env s) h
    have hg := getEpetraCrsGraph_ordered env hd s ho
    show (getEpetraCrsMatrix env s).2.M_ ≠ none
    rcases getEpetraCrsMatrix_cases env s with ⟨h1, hE⟩ | ⟨e, h1⟩ | ⟨r, eM, egraph, hr, h1⟩
    · rw [h1]; exact ho.2.2 hE
    · rw [h1] at hv; cases hv
    · rw [h1]
      exact (getEpetraCrsGraph_ok env s (getEpetraCrsGraph env s).2 ho (some egraph)
        (by rw [← hr])).1

end UserInputForTests
end Zoltan2

namespace Zoltan2
namespace UserInputForTests

variable {X XG XV : Type}

theorem getTpetraCrsMatrix_with_matrix (env : Collaborators X XG XV) (s : UserInputForTests X)
    (m : TpetraCrsMatrix) (hM : s.M_ = some m) :
    getTpetraCrsMatrix env s = (Except.ok (some m), s) := by
  unfold getTpetraCrsMatrix ensureTpetra
  rw [if_neg (by rw [hM]; simp)]
  simp only [hM]

theorem sample_dependable : Dependable sampleCollaborators where
  throws := fun what => ⟨TestFailure.runtime_error what, rfl⟩
  read := by
    intro fname h
    simp only [sampleCollaborators] at h
    split at h <;> cases h
  built := by
    intro t x y z h
    cases h

theorem sample_converts : Converts sampleCollaborators :=
  fun _ => ⟨(), rfl⟩

end UserInputForTests
end Zoltan2

namespace Zoltan2
namespace UserInputForTests

variable {X XG XV : Type}

theorem createMatrix_paired (env : Collaborators X XG XV) (hd : Dependable env)
    (hc : Converts env) (s : UserInputForTests X) (h : s.M_ = none ↔ s.xM_ = none) :
    ((createMatrix env s).2.M_ = none ↔ (createMatrix env s).2.xM_ = none) ∧
    ((createMatrix env s).1 = Except.ok () → (createMatrix env s).2.xM_ ≠ none) := by
  rcases createMatrix_cases env hd s with ⟨hM, h1⟩ | ⟨hM, e, cs, h1⟩ | ⟨_, m, e, cs, h2, h1⟩ |
    ⟨_, m, xm, cs, h2, h1⟩
  · rw [h1]
    exact ⟨h, fun _ hx => hM (h.mpr hx)⟩
  · rw [h1]
    exact ⟨h, fun h3 => by cases h3⟩
  · obtain ⟨x, hx⟩ := hc m
    rw [hx] at h2
    cases h2
  · obtain ⟨x, hx⟩ := hc m
    rw [hx] at h2
    cases h2
    rw [h1]
    simp

theorem reachable_paired (env : Collaborators X XG XV) (hd : Dependable env)
    (hc : Converts env) (s : UserInputForTests X) (hs : Reachable env s) :
    s.M_ = none ↔ s.xM_ = none := by
  induction hs with
  | ofFile fname => exact ⟨fun _ => rfl, fun _ => rfl⟩
  | ofDimensions x y z => exact ⟨fun _ => rfl, fun _ => rfl⟩
  | call g s _ ih =>
    obtain ⟨s1, eM, eG, hs1 | hs1, h⟩ := call_frame env g s
    · rw [h, hs1]
      exact ih
    · rw [h, hs1]
      exact (createMatrix_paired env hd hc s ih).1

/-- C28, amended: with collaborators that keep their contracts and a conversion to Xpetra
that returns a wrapper without throwing, in every state of a `UserInputForTests` object
reachable through its constructors and public getters the Tpetra matrix `M_` is null if
and only if the Xpetra wrapper `xM_` is null; hence `getXpetraCrsMatrix`, which tests `xM_`
while `createMatrix` tests `M_`, never returns a null matrix when it returns normally. -/
theorem user_input_wrapper_invariant (env : Collaborators X XG XV) (hd : Dependable env)
    (hc : Converts env) (s : UserInputForTests X) (hs : Reachable env s) :
    (s.M_ = none ↔ s.xM_ = none) ∧
    ∀ r s1, getXpetraCrsMatrix env s = (Except.ok r, s1) → r ≠ none := by
  have hp := reachable_paired env hd hc s hs
  refine ⟨hp, ?_⟩
  intro r s1 h
  unfold getXpetraCrsMatrix at h
  rcases ensureXpetra_cases env s with ⟨hx, h1⟩ | ⟨_, h1⟩
  · rw [h1] at h
    cases h
    exact hx
  · have h2 := (createMatrix_paired env hd hc s hp).2
    rw [h1] at h
    rcases hcm : createMatrix env s with ⟨e | _, s2⟩
    · rw [hcm] at h
      cases h
    · rw [hcm] at h h2
      cases h
      exact h2 rfl

/-- Witness of C28 (amended): the object made from the dimensions 2, 2, 2 with the sample
collaborators, after a call of `getTpetraCrsMatrix`. -/
theorem user_input_wrapper_invariant_witness :
    Reachable sampleCollaborators
      (call sampleCollaborators Getter.getTpetraCrsMatrix
        (ofDimensions 2 2 2 : UserInputForTests Unit)).2 ∧
    (((call sampleCollaborators Getter.getTpetraCrsMatrix
        (ofDimensions 2 2 2 : UserInputForTests Unit)).2.M_ = none ↔
      (call sampleCollaborators Getter.getTpetraCrsMatrix
        (ofDimensions 2 2 2 : UserInputForTests Unit)).2.xM_ = none) ∧
    ∀ r s1, getXpetraCrsMatrix sampleCollaborators
        (call sampleCollaborators Getter.getTpetraCrsMatrix
          (ofDimensions 2 2 2 : UserInputForTests Unit)).2 = (Except.ok r, s1) → r ≠ none) :=
  ⟨Reachable.call _ _ (Reachable.ofDimensions 2 2 2),
    user_input_wrapper_invariant sampleCollaborators sample_dependable sample_converts _
      (Reachable.call _ _ (Reachable.ofDimensions 2 2 2))⟩

end UserInputForTests
end Zoltan2

namespace Zoltan2

theorem translateColumns_spec (GID : Int → Int) :
    ∀ (lids : List Int) (j : Nat) (buf : List Int), j + lids.length ≤ buf.length →
      ∃ r, translateColumns GID lids j buf = Except.ok r ∧ r.length = buf.length ∧
        ∀ k, r[k]? =
          if j ≤ k ∧ k < j + lids.length then (lids[k - j]?).map GID else buf[k]? := by
  intro lids
  induction lids with
  | nil =>
    intro j buf _
    refine ⟨buf, rfl, rfl, fun k => ?_⟩
    rw [if_neg (by simp only [List.length_nil]; omega)]
  | cons lid rest ih =>
    intro j buf hlen
    simp only [List.length_cons] at hlen
    have hj : j < buf.length := by omega
    obtain ⟨r, hr, hrl, hrk⟩ := ih (j + 1) (buf.set j (GID lid))
      (by rw [List.length_set]; omega)
    refine ⟨r, ?_, by rw [hrl, List.length_set], fun k => ?_⟩
    · rw [translateColumns, if_pos hj, hr]
    · rw [hrk k]
      simp only [List.length_cons]
      by_cases h1 : j + 1 ≤ k ∧ k < j + 1 + rest.length
      · rw [if_pos h1, if_pos (by omega)]
        have hk : k - j = (k - (j + 1)) + 1 := by omega
        rw [hk, List.getElem?_cons_succ]
      · rw [if_neg h1]
        by_cases h2 : k = j
        · subst h2
          rw [if_pos (by omega), List.getElem?_set_self hj, Nat.sub_self]
          simp
        · rw [if_neg (by omega), List.getElem?_set_ne (fun h => h2 h.symm)]

/-- A row of local column indices that fits in the buffer is translated entry by entry to
the front of the buffer. -/
theorem translateColumns_take (GID : Int → Int) (lids buf : List Int)
    (h : lids.length ≤ buf.length) :
    ∃ r, translateColumns GID lids 0 buf = Except.ok r ∧ r.length = buf.length ∧
      r.take lids.length = lids.map GID := by
  obtain ⟨r, hr, hrl, hrk⟩ := translateColumns_spec GID lids 0 buf (by omega)
  refine ⟨r, hr, hrl, ?_⟩
  apply List.ext_getElem?
  intro k
  rw [List.getElem?_take, List.getElem?_map, hrk k]
  by_cases hk : k < lids.length
  · rw [if_pos hk, if_pos (by omega), Nat.sub_zero]
  · rw [if_neg hk, List.getElem?_eq_none (by omega)]
    rfl

/-- The graph loop on rows whose sizes agree with their views and fit in the buffer
inserts, for each row `i`, the global column ids of the local row `i + base`. -/
theorem insertGraphRows_spec (tgraph : TpetraCrsGraph) (gids rowSize : List Int) (base : Int)
    (g : Nat → Int) :
    ∀ (rows : List Nat) (colGids : List Int) (eG : EpetraCrsGraph),
      (∀ i ∈ rows, gids[i]? = some (g i) ∧
        rowSize[i]? = some (((tgraph.getLocalRowView ((i : Int) + base)).length : Nat) : Int) ∧
        (tgraph.getLocalRowView ((i : Int) + base)).length ≤ colGids.length) →
      insertGraphRows tgraph gids rowSize base rows colGids eG =
        (Except.ok (), { eG with inserted := eG.inserted ++ rows.map (fun i =>
          (g i, (((tgraph.getLocalRowView ((i : Int) + base)).length : Nat) : Int),
            (tgraph.getLocalRowView ((i : Int) + base)).map
              tgraph.getColMap.getGlobalElement)) }) := by
  intro rows
  induction rows with
  | nil =>
    intro colGids eG _
    simp [insertGraphRows]
  | cons i rest ih =>
    intro colGids eG h
    obtain ⟨hg, hs, hl⟩ := h i (List.mem_cons_self i rest)
    obtain ⟨r, hr, hrl, hrt⟩ := translateColumns_take tgraph.getColMap.getGlobalElement
      (tgraph.getLocalRowView ((i : Int) + base)) colGids hl
    rw [insertGraphRows, hr]
    simp only [hg, hs, Int.toNat_ofNat]
    rw [if_pos (by rw [hrl]; exact hl), hrt,
      ih r _ (fun k hk => by
        obtain ⟨h1, h2, h3⟩ := h k (List.mem_cons_of_mem i hk)
        exact ⟨h1, h2, by rw [hrl]; exact h3⟩)]
    simp [List.append_assoc]

end Zoltan2

namespace Zoltan2

theorem static_cast_int_small (n : Nat) (h : n < 2 ^ 31) : static_cast_int n = (n : Int) := by
  unfold static_cast_int
  have h1 : n % 2 ^ 32 = n := Nat.mod_eq_of_lt (by omega)
  rw [h1, if_pos h]

theorem sample_consistent : Consistent sampleMatrix where
  count := by decide
  gids := rfl
  entries := by
    intro i hi
    have hi2 : i < 2 := hi
    interval_cases i <;> rfl
  room := by
    intro i hi
    have hi2 : i < 2 := hi
    interval_cases i <;> decide
  small := by decide

theorem shifted_consistent : Consistent shiftedMatrix where
  count := by decide
  gids := rfl
  entries := by
    intro i hi
    have hi2 : i < 2 := hi
    interval_cases i <;> rfl
  room := by
    intro i hi
    have hi2 : i < 2 := hi
    interval_cases i <;> decide
  small := by decide

/-- For a row map of index base 0 and a matrix whose answers agree with each other,
`getEpetraCrsGraph` reproduces the sparsity pattern of the Tpetra graph in global indices:
for each local row `i` the Epetra graph's row with global id `gids[i]` receives exactly the
global column ids of local row `i` of the Tpetra graph, and the declared row size
`rowSize[i]` equals that row's number of entries. -/
theorem epetra_graph_reproduces_pattern (M : TpetraCrsMatrix) (hM : Consistent M)
    (hbase : M.getCrsGraph.getRowMap.getIndexBase = 0) :
    ∃ eG, fillEpetraCrsGraph M = (Except.ok (), some eG) ∧
      eG.RowMap.MyGlobalElements = M.getCrsGraph.getRowMap.getNodeElementList ∧
      eG.NumIndicesPerRow.length = M.getCrsGraph.getRowMap.getNodeNumElements ∧
      eG.inserted.length = M.getCrsGraph.getRowMap.getNodeNumElements ∧
      (∀ i : Nat, i < M.getCrsGraph.getRowMap.getNodeNumElements →
        ∃ gid, M.getCrsGraph.getRowMap.getNodeElementList[i]? = some gid ∧
          eG.NumIndicesPerRow[i]? = some (M.getNumEntriesInLocalRow (i : Int) : Int) ∧
          eG.inserted[i]? = some (gid, (M.getNumEntriesInLocalRow (i : Int) : Int),
            (M.getCrsGraph.getLocalRowView (i : Int)).map
              M.getCrsGraph.getColMap.getGlobalElement)) ∧
      ∀ {X XG XV : Type} (env : Collaborators X XG XV) (s : UserInputForTests X),
        s.M_ = some M → s.eG_ = none →
        UserInputForTests.getEpetraCrsGraph env s
          = (Except.ok (some eG), { s with eG_ := some eG }) := by
  have hn : static_cast_int M.getCrsGraph.getRowMap.getNodeNumElements
      = (M.getCrsGraph.getRowMap.getNodeNumElements : Int) :=
    static_cast_int_small _ hM.count
  have hsz : rowSizes M (M.getCrsGraph.getRowMap.getNodeNumElements : Int) 0
      = (List.range M.getCrsGraph.getRowMap.getNodeNumElements).map
          (fun i : Nat => (M.getNumEntriesInLocalRow (i : Int) : Int)) := by
    unfold rowSizes
    rw [Int.toNat_ofNat]
    apply List.map_congr_left
    intro i hi
    have hi2 := List.mem_range.mp hi
    rw [add_zero, static_cast_int_small]
    rw [hM.entries i hi2]
    exact lt_of_le_of_lt (hM.room i hi2) hM.small
  have hloop := insertGraphRows_spec M.getCrsGraph
    M.getCrsGraph.getRowMap.getNodeElementList
    (rowSizes M (M.getCrsGraph.getRowMap.getNodeNumElements : Int) 0) 0
    (fun i => M.getCrsGraph.getRowMap.getNodeElementList.getD i 0)
    (List.range M.getCrsGraph.getRowMap.getNodeNumElements)
    (List.replicate M.getNodeMaxNumRowEntries (0 : Int))
    ⟨⟨static_cast_int M.getCrsGraph.getRowMap.getGlobalNumElements,
        (M.getCrsGraph.getRowMap.getNodeNumElements : Int),
        M.getCrsGraph.getRowMap.getNodeElementList.take
          M.getCrsGraph.getRowMap.getNodeNumElements, 1, 0⟩,
      rowSizes M (M.getCrsGraph.getRowMap.getNodeNumElements : Int) 0, true, [], false⟩
    (by
      intro i hi
      have hi2 := List.mem_range.mp hi
      refine ⟨?_, ?_, ?_⟩
      · show M.getCrsGraph.getRowMap.getNodeElementList[i]?
          = some (M.getCrsGraph.getRowMap.getNodeElementList.getD i 0)
        rw [List.getD_eq_getElem?_getD, List.getElem?_eq_getElem (by rw [hM.gids]; exact hi2)]
        rfl
      · rw [hsz, List.getElem?_map, List.getElem?_range hi2, add_zero]
        simp only [Option.map_some', hM.entries i hi2]
      · rw [List.length_replicate, add_zero]
        exact hM.room i hi2)
  have hfill : fillEpetraCrsGraph M = (Except.ok (), some
      { RowMap := ⟨static_cast_int M.getCrsGraph.getRowMap.getGlobalNumElements,
          (M.getCrsGraph.getRowMap.getNodeNumElements : Int),
          M.getCrsGraph.getRowMap.getNodeElementList.take
            M.getCrsGraph.getRowMap.getNodeNumElements, 1, 0⟩
        NumIndicesPerRow := rowSizes M (M.getCrsGraph.getRowMap.getNodeNumElements : Int) 0
        StaticProfile := true
        inserted := (List.range M.getCrsGraph.getRowMap.getNodeNumElements).map (fun i =>
          (M.getCrsGraph.getRowMap.getNodeElementList.getD i 0,
            (((M.getCrsGraph.getLocalRowView ((i : Int) + 0)).length : Nat) : Int),
            (M.getCrsGraph.getLocalRowView ((i : Int) + 0)).map
              M.getCrsGraph.getColMap.getGlobalElement))
        filled := true }) := by
    unfold fillEpetraCrsGraph
    simp only [hn, hbase, Int.toNat_ofNat]
    rw [if_pos (by rw [hM.gids]), hloop]
    simp
  refine ⟨_, hfill, ?_, ?_, ?_, ?_, ?_⟩
  · simp only
    rw [← hM.gids, List.take_length]
  · simp only
    rw [hsz, List.length_map, List.length_range]
  · simp only [List.length_map, List.length_range]
  · intro i hi
    refine ⟨M.getCrsGraph.getRowMap.getNodeElementList.getD i 0, ?_, ?_, ?_⟩
    · rw [List.getD_eq_getElem?_getD, List.getElem?_eq_getElem (by rw [hM.gids]; exact hi)]
      rfl
    · simp only
      rw [hsz, List.getElem?_map, List.getElem?_range hi]
      rfl
    · simp only
      rw [List.getElem?_map, List.getElem?_range hi]
      simp only [Option.map_some', add_zero, hM.entries i hi]
  · intro X XG XV env s hs hG
    unfold UserInputForTests.getEpetraCrsGraph UserInputForTests.ensureTpetra
    rw [if_pos (by rw [hG]; rfl), if_neg (by rw [hs]; simp)]
    simp only [hs, hfill]

end Zoltan2

namespace Zoltan2

namespace UserInputForTests

/-- C30: the code diverges from the claim where the Epetra column map numbers the columns
differently from the Tpetra column map.  For `ghostMatrix` (rows 0 and 1 of a `4 × 4`
matrix, Tpetra column map `0, 1, 2, 3`) and an Epetra column map in the order of insertion
(`0, 1, 3, 2`), `getEpetraCrsGraph` inserts the columns `0, 3` and `1, 2`, translated
through the Tpetra column map, while `getEpetraCrsMatrix` translates the same local
indices through the Epetra column map and inserts the value `-1` of row 0 at column 2 and
the value `-1` of row 1 at column 3. -/
theorem epetra_matrix_columns_through_epetra_map :
    (call ghostCollaborators Getter.getEpetraCrsMatrix
      (ofDimensions 2 2 1 : UserInputForTests Unit)).1 = Except.ok () ∧
    (getEpetraCrsMatrix ghostCollaborators
      (ofDimensions 2 2 1 : UserInputForTests Unit)).2.M_.map
        (fun M => ((M.getLocalRowView 0).1.map M.getCrsGraph.getColMap.getGlobalElement,
          (M.getLocalRowView 1).1.map M.getCrsGraph.getColMap.getGlobalElement))
      = some ([0, 3], [1, 2]) ∧
    (getEpetraCrsMatrix ghostCollaborators
      (ofDimensions 2 2 1 : UserInputForTests Unit)).2.eG_.map (fun eG => eG.inserted)
      = some [(0, 2, [0, 3]), (1, 2, [1, 2])] ∧
    (getEpetraCrsMatrix ghostCollaborators
      (ofDimensions 2 2 1 : UserInputForTests Unit)).2.eG_.map insertionOrder
      = some [0, 1, 3, 2] ∧
    (getEpetraCrsMatrix ghostCollaborators
      (ofDimensions 2 2 1 : UserInputForTests Unit)).2.eM_.map (fun eM => eM.inserted)
      = some [(0, 2, [2, -1], [0, 2]), (1, 2, [2, -1], [1, 3])] :=
  ⟨rfl, by decide, by decide, by decide, by decide!⟩

end UserInputForTests

end Zoltan2

namespace Intrepid2

theorem quad_edge_ordinal (d i : Nat) (hi : i + 1 < d) (e : Int) (he : 0 ≤ e ∧ e < 4) :
    (quadBasisCn d).getDofOrdinal
      (lineBasisCn d).getBaseCellTopology.getDimension e i =
      some (if e = 0 then i + 1 else if e = 1 then d + (d + 1) * (i + 1)
        else if e = 2 then i + 1 + (d + 1) * d else (d + 1) * (i + 1)) := by
  have h1 : ((i : Int) + 1 < (d : Int)) := by exact_mod_cast hi
  have he2 : e = 0 ∨ e = 1 ∨ e = 2 ∨ e = 3 := by omega
  rcases he2 with h | h | h | h <;> subst h <;> simp [quadBasisCn, lineBasisCn, h1]

theorem quad_tag_at (d a b : Nat) (ha : a ≤ d) (hb : b ≤ d) :
    (quadBasisCn d).getDofTag ((a + (d + 1) * b : Nat) : Int) = some (quadTag d a b) := by
  have h1 : (a + (d + 1) * b) % (d + 1) = a := by
    rw [Nat.add_mul_mod_self_left]; exact Nat.mod_eq_of_lt (by omega)
  have h2 : (a + (d + 1) * b) / (d + 1) = b := by
    rw [Nat.add_mul_div_left _ _ (by omega), Nat.div_eq_of_lt (by omega), Nat.zero_add]
  have h3 : ((a + (d + 1) * b : Nat) : Int) < ((d : Int) + 1) * ((d : Int) + 1) := by
    have : a + (d + 1) * b < (d + 1) * (d + 1) := by nlinarith
    exact_mod_cast this
  simp only [quadBasisCn]
  rw [if_pos ⟨by positivity, h3⟩, Int.toNat_ofNat, h1, h2]

theorem quad_edge_ndof (d : Nat) (hd : 2 ≤ d) (e : Int) (he : 0 ≤ e ∧ e < 4) :
    ∃ ordEdge tag,
      (quadBasisCn d).getDofOrdinal (lineBasisCn d).getBaseCellTopology.getDimension e 0
        = some ordEdge ∧
      (quadBasisCn d).getDofTag ordEdge = some tag ∧ d - 1 = tag.dofCount := by
  have he2 : e = 0 ∨ e = 1 ∨ e = 2 ∨ e = 3 := by omega
  have hne : ¬ (1 = d) := by omega
  have hn0 : ¬ (d = 0) := by omega
  have ho := quad_edge_ordinal d 0 (by omega) e he
  rcases he2 with h | h | h | h <;> subst h
  · exact ⟨_, _, ho, quad_tag_at d 1 0 (by omega) (by omega), by simp [quadTag, hne]⟩
  · exact ⟨_, _, ho, quad_tag_at d d 1 (by omega) (by omega), by simp [quadTag, hne]⟩
  · exact ⟨_, _, ho, quad_tag_at d 1 d (by omega) (by omega), by simp [quadTag, hne, hn0]⟩
  · refine ⟨_, quadTag d 0 1, ho, ?_, ?_⟩
    · have := quad_tag_at d 0 1 (by omega) (by omega)
      simpa using this
    · simp [quadTag, hne]

end Intrepid2

namespace Intrepid2

theorem equispacedPoint_last (d : Nat) (hd : 1 ≤ d) : equispacedPoint d d = 1 := by
  have hd0 : (d : ℚ) ≠ 0 := by exact_mod_cast (by omega : d ≠ 0)
  simp only [equispacedPoint]
  field_simp
  ring

theorem lagrange_first (d : Nat) (hd : 1 ≤ d) : lagrange d 0 (-1) = 1 := by
  have := lagrange_node d hd 0 0 (by omega)
  rwa [equispacedPoint_zero, if_pos rfl] at this

theorem lagrange_last (d : Nat) (hd : 1 ≤ d) : lagrange d d 1 = 1 := by
  have := lagrange_node d hd d d le_rfl
  rwa [equispacedPoint_last d hd, if_pos rfl] at this

/-- The reversal matrix of order `d - 1` is its own inverse. -/
theorem reversal_mul_self (d : Nat) (J : Matrix (Fin (d - 1)) (Fin (d - 1)) ℚ)
    (hJ : ∀ j i, J j i = if j.val + i.val + 2 = d then 1 else 0) : J * J = 1 := by
  funext j k
  rw [Matrix.mul_apply, Matrix.one_apply]
  have hj := j.isLt
  rw [Finset.sum_eq_single (⟨d - 2 - j.val, by omega⟩ : Fin (d - 1))]
  · rw [hJ, hJ]
    simp only
    rw [if_pos (by omega), one_mul]
    by_cases h : j = k
    · rw [if_pos h, if_pos (by rw [← h]; omega)]
    · rw [if_neg h, if_neg]
      intro h2
      apply h
      apply Fin.ext
      omega
  · intro b _ hb
    rw [hJ, if_neg, zero_mul]
    intro h2
    apply hb
    apply Fin.ext
    simp only
    omega
  · intro h
    exact absurd (Finset.mem_univ _) h

theorem cn_setup_on (d : Nat) (hd : 2 ≤ d) (e : Int) (he : 0 ≤ e ∧ e < 4) :
    EdgeSetup referenceTools (lineBasisCn d) (quadBasisCn d) e (d - 1)
      (edgeLattice d) (edgeCellPointsOn d e) where
  line := rfl
  ndof := quad_edge_ndof d hd e he
  lattice := (cn_setup d hd).lattice
  subcell := by
    have he2 : e = 0 ∨ e = 1 ∨ e = 2 ∨ e = 3 := by omega
    rcases he2 with h | h | h | h <;> subst h
    · exact ⟨fun j c => if c = 0 then (edgeLattice d).val j 0 else -1,
        by simp [referenceTools, lineBasisCn, quadBasisCn], by simp [edgeCellPointsOn, quadBasisCn]⟩
    · exact ⟨fun j c => if c = 0 then 1 else (edgeLattice d).val j 0,
        by simp [referenceTools, lineBasisCn, quadBasisCn], by simp [edgeCellPointsOn, quadBasisCn]⟩
    · exact ⟨fun j c => if c = 0 then - (edgeLattice d).val j 0 else 1,
        by simp [referenceTools, lineBasisCn, quadBasisCn], by simp [edgeCellPointsOn, quadBasisCn]⟩
    · exact ⟨fun j c => if c = 0 then -1 else - (edgeLattice d).val j 0,
        by simp [referenceTools, lineBasisCn, quadBasisCn], by simp [edgeCellPointsOn, quadBasisCn]⟩
  dofs := by
    intro i hi
    rw [quad_edge_ordinal d i (by omega) e he, line_interior_ordinal d i (by omega)]
    exact ⟨rfl, rfl⟩

end Intrepid2

namespace Intrepid2

theorem quad_value_at (d a b : Nat) (ha : a ≤ d) (pt : List ℚ) :
    (quadBasisCn d).value (a + (d + 1) * b) pt
      = lagrange d a (pt.getD 0 0) * lagrange d b (pt.getD 1 0) := by
  have h1 : (a + (d + 1) * b) % (d + 1) = a := by
    rw [Nat.add_mul_mod_self_left]; exact Nat.mod_eq_of_lt (by omega)
  have h2 : (a + (d + 1) * b) / (d + 1) = b := by
    rw [Nat.add_mul_div_left _ _ (by omega), Nat.div_eq_of_lt (by omega), Nat.zero_add]
  show lagrange d ((a + (d + 1) * b) % (d + 1)) _ * lagrange d ((a + (d + 1) * b) / (d + 1)) _
    = _
  rw [h1, h2]

theorem edgeCellPointsOn_row (d : Nat) (e : Int) (j : Nat) :
    (edgeCellPointsOn d e).row j =
      [if e = 0 then (edgeLattice d).val j 0 else if e = 1 then 1
        else if e = 2 then - (edgeLattice d).val j 0 else -1,
       if e = 0 then -1 else if e = 1 then (edgeLattice d).val j 0
        else if e = 2 then 1 else - (edgeLattice d).val j 0] := by
  simp only [View2.row, edgeCellPointsOn, View2.fill, View2.zeros, List.range_succ,
    List.range_zero, List.nil_append, List.map_append, List.map_cons, List.map_nil,
    List.singleton_append]
  by_cases h0 : e = 0
  · simp [h0]
  · by_cases h1 : e = 1
    · simp [h1]
    · by_cases h2 : e = 2
      · simp [h2]
      · simp [h0, h1, h2]

/-- The oriented lattice values of the line basis of degree `d`. -/
theorem cn_line_value (d : Nat) (hd : 2 ≤ d) (c : Int) (hc : c = 0 ∨ c = 1) (i j : Nat)
    (hi : i < d - 1) (hj : j < d - 1) :
    (lineBasisCn d).value (lineOrdinal (lineBasisCn d) i)
        [if c = 0 then (edgeLattice d).val j 0 else - (edgeLattice d).val j 0]
      = if c = 0 then (if j = i then 1 else 0) else (if j + i + 2 = d then 1 else 0) := by
  simp only [lineOrdinal, line_interior_ordinal d i (by omega), Option.getD_some]
  rw [edgeLattice_val d j hj]
  rcases hc with h | h <;> subst h
  · simp only [if_true]
    show lagrange d (i + 1) (equispacedPoint d (j + 1)) = _
    rw [lagrange_node d (by omega) (i + 1) (j + 1) (by omega)]
    by_cases h : j = i
    · rw [if_pos (by omega), if_pos h]
    · rw [if_neg (by omega), if_neg h]
  · rw [if_neg (by norm_num), if_neg (by norm_num),
      ← equispacedPoint_reflect d (by omega) (j + 1) (by omega)]
    show lagrange d (i + 1) (equispacedPoint d (d - (j + 1))) = _
    rw [lagrange_node d (by omega) (i + 1) (d - (j + 1)) (by omega)]
    by_cases h : j + i + 2 = d
    · rw [if_pos (by omega), if_pos h]
    · rw [if_neg (by omega), if_neg h]

/-- Every edge of the quadrilateral pairs consistently with the line basis of the same
degree, along the edge on the edges 0 and 1 and against it on the edges 2 and 3. -/
theorem cn_directed (d : Nat) (hd : 2 ≤ d) (e : Int) (he : 0 ≤ e ∧ e < 4) :
    DirectedPairing referenceTools (lineBasisCn d) (quadBasisCn d) e (d - 1)
      (edgeLattice d) (edgeCellPointsOn d e) (quadEdgeDirection e) where
  setup := cn_setup_on d hd e he
  degree := rfl
  size := by
    show d - 1 = d + 1 - 2 * 1
    omega
  direction := by
    unfold quadEdgeDirection
    split
    · exact Or.inl rfl
    · exact Or.inr rfl
  trace := by
    intro i j hi hj
    have hl := lagrange_first d (by omega)
    have hr := lagrange_last d (by omega)
    have hline : ∀ t : ℚ, (lineBasisCn d).value (lineOrdinal (lineBasisCn d) i) [t]
        = lagrange d (i + 1) t := by
      intro t
      simp only [lineOrdinal, line_interior_ordinal d i (by omega), Option.getD_some]
      rfl
    rw [hline, edgeCellPointsOn_row, cellOrdinal, quad_edge_ordinal d i (by omega) e he,
      Option.getD_some]
    have he2 : e = 0 ∨ e = 1 ∨ e = 2 ∨ e = 3 := by omega
    rcases he2 with h | h | h | h <;> subst h
    · have := quad_value_at d (i + 1) 0 (by omega)
        [(edgeLattice d).val j 0, -1]
      simp only [Nat.mul_zero, Nat.add_zero] at this
      simp [quadEdgeDirection, this, hl]
    · have := quad_value_at d d (i + 1) le_rfl [1, (edgeLattice d).val j 0]
      simp [quadEdgeDirection, this, hr]
    · have := quad_value_at d (i + 1) d (by omega) [- (edgeLattice d).val j 0, 1]
      simp [quadEdgeDirection, this, hr]
    · have := quad_value_at d 0 (i + 1) (by omega) [-1, - (edgeLattice d).val j 0]
      simp only [Nat.zero_add] at this
      simp [quadEdgeDirection, this, hl]
  unisolvent := by
    have hdir : quadEdgeDirection e = 0 ∨ quadEdgeDirection e = 1 := by
      unfold quadEdgeDirection
      split
      · exact Or.inl rfl
      · exact Or.inr rfl
    by_cases hc : quadEdgeDirection e = 0
    · have : (fun j i : Fin (d - 1) =>
          (lineBasisCn d).value (lineOrdinal (lineBasisCn d) i.val)
            [if quadEdgeDirection e = 0 then (edgeLattice d).val j.val 0
              else - (edgeLattice d).val j.val 0])
          = (1 : Matrix (Fin (d - 1)) (Fin (d - 1)) ℚ) := by
        funext j i
        rw [cn_line_value d hd _ hdir i.val j.val i.isLt j.isLt, if_pos hc, Matrix.one_apply]
        by_cases h : j = i
        · rw [if_pos h, if_pos (by rw [h])]
        · rw [if_neg h, if_neg (fun h2 => h (Fin.ext h2))]
      rw [this, Matrix.det_one]
      exact one_ne_zero
    · intro hdet
      have hJ := reversal_mul_self d (fun j i : Fin (d - 1) =>
          (lineBasisCn d).value (lineOrdinal (lineBasisCn d) i.val)
            [if quadEdgeDirection e = 0 then (edgeLattice d).val j.val 0
              else - (edgeLattice d).val j.val 0])
        (fun j i => by
          simp only
          rw [cn_line_value d hd _ hdir i.val j.val i.isLt j.isLt, if_neg hc])
      have h2 := congrArg Matrix.det hJ
      rw [Matrix.det_mul, hdet, Matrix.det_one, zero_mul] at h2
      exact zero_ne_one h2

end Intrepid2

namespace Intrepid2

/-- A consistent pairing is a directed pairing along the edge. -/
theorem ConsistentPairing.directed {tools : PointTools} {lineBasis cellBasis : Basis}
    {edgeId : Int} {n : Nat} {L P : View2}
    (hc : ConsistentPairing tools lineBasis cellBasis edgeId n L P) :
    DirectedPairing tools lineBasis cellBasis edgeId n L P 0 where
  setup := hc.setup
  degree := hc.degree
  size := hc.size
  direction := Or.inl rfl
  trace := by
    intro i j hi hj
    rw [hc.trace i j hi hj, hc.lattice_row, if_pos rfl]
  unisolvent := by
    have h := hc.unisolvent
    have : (fun j i : Fin n => lineBasis.value (lineOrdinal lineBasis i.val)
        [if (0 : Int) = 0 then L.val j.val 0 else - L.val j.val 0])
        = fun j i : Fin n => lineBasis.value (lineOrdinal lineBasis i.val) (L.row j.val) := by
      funext j i
      rw [hc.lattice_row, if_pos rfl]
    rw [this]
    exact h

/-- A directed pairing along the edge is a consistent pairing. -/
theorem DirectedPairing.consistent {tools : PointTools} {lineBasis cellBasis : Basis}
    {edgeId : Int} {n : Nat} {L P : View2}
    (hc : DirectedPairing tools lineBasis cellBasis edgeId n L P 0) :
    ConsistentPairing tools lineBasis cellBasis edgeId n L P where
  setup := hc.setup
  degree := hc.degree
  size := hc.size
  trace := by
    intro i j hi hj
    rw [hc.trace i j hi hj, hc.setup.setup_row, if_pos rfl]
  unisolvent := by
    have h := hc.unisolvent
    have : (fun j i : Fin n => lineBasis.value (lineOrdinal lineBasis i.val)
        [if (0 : Int) = 0 then L.val j.val 0 else - L.val j.val 0])
        = fun j i : Fin n => lineBasis.value (lineOrdinal lineBasis i.val) (L.row j.val) := by
      funext j i
      rw [hc.setup.setup_row, if_pos rfl]
    rw [this] at h
    exact h

/-- The call on a directed pairing: if `Y` solves the system of the collocation matrix of
the line basis at the points in the direction of the edge and of the one at the oriented
points, the call returns normally and writes `Y`. -/
theorem solution_of_directed {tools : PointTools} {lineBasis cellBasis : Basis}
    {edgeId : Int} {n : Nat} {L P : View2} {c : Int}
    (hc : DirectedPairing tools lineBasis cellBasis edgeId n L P c) (debug : Bool)
    (edgeOrt : Int) (hort : edgeOrt = 0 ∨ edgeOrt = 1)
    (R W Y : Matrix (Fin n) (Fin n) ℚ)
    (hR : ∀ j i, R j i = lineBasis.value (lineOrdinal lineBasis i.val)
      [if c = 0 then L.val j.val 0 else - L.val j.val 0])
    (hW : ∀ j i, W j i = lineBasis.value (lineOrdinal lineBasis i.val)
      [if edgeOrt = 0 then L.val j.val 0 else - L.val j.val 0])
    (hY : R * Y = W)
    (output : View2) (hroom : n ≤ output.extent0 ∧ n ≤ output.extent1) :
    getEdgeCoeffMatrix_HGRAD tools debug output lineBasis cellBasis edgeId edgeOrt =
      (Except.ok (), withBlock output n (View2.ofMatrix n Y).val) := by
  obtain ⟨w, hw, hn, hV, hWv⟩ := hc.setup.setup_entries debug (fun _ => hc.size) edgeOrt hort
  subst hn
  have hRu : R = fun j i : Fin w.ndofEdge => lineBasis.value (lineOrdinal lineBasis i.val)
      [if c = 0 then L.val j.val 0 else - L.val j.val 0] := by
    funext j i
    exact hR j i
  have hVb : View2.block w.ndofEdge w.refMat = R :=
    block_ext _ _ _ (fun j k hj hk => by
      rw [hV j k hj hk, hc.trace k j hk hj, hR])
  have hWb : View2.block w.ndofEdge w.ortMat = W :=
    block_ext _ _ _ (fun j k hj hk => by rw [hWv j k hj hk, hW])
  exact getEdgeCoeffMatrix_HGRAD_of_solution output hw
    (by rw [hVb, hRu]; exact hc.unisolvent) Y (by rw [hVb, hWb]; exact hY) hroom

/-- The orientation code that names the direction of a directed pairing: the call succeeds
and writes the identity. -/
theorem identity_of_directed {tools : PointTools} {lineBasis cellBasis : Basis}
    {edgeId : Int} {n : Nat} {L P : View2} {c : Int}
    (hc : DirectedPairing tools lineBasis cellBasis edgeId n L P c) (debug : Bool)
    (output : View2) (hroom : n ≤ output.extent0 ∧ n ≤ output.extent1) :
    getEdgeCoeffMatrix_HGRAD tools debug output lineBasis cellBasis edgeId c =
      (Except.ok (), withBlock output n (fun r c => if r = c then 1 else 0)) := by
  rw [solution_of_directed hc debug c hc.direction
    (fun j i : Fin n => lineBasis.value (lineOrdinal lineBasis i.val)
      [if c = 0 then L.val j.val 0 else - L.val j.val 0])
    (fun j i : Fin n => lineBasis.value (lineOrdinal lineBasis i.val)
      [if c = 0 then L.val j.val 0 else - L.val j.val 0]) 1
    (fun _ _ => rfl) (fun _ _ => rfl) (Matrix.mul_one _) output hroom]
  congr 1
  apply withBlock_congr
  intro r c hr hc2
  simp [View2.ofMatrix, hr, hc2, Matrix.one_apply]

/-- Orientation code 0 on the edges 2 and 3 of the quadrilateral, whose DOFs are numbered
against the direction of the edge: the call writes the reversal permutation. -/
theorem cn_code_zero_reversed (d : Nat) (hd : 2 ≤ d) (e : Int) (he : e = 2 ∨ e = 3)
    (debug : Bool) (output : View2)
    (hroom : d - 1 ≤ output.extent0 ∧ d - 1 ≤ output.extent1) :
    getEdgeCoeffMatrix_HGRAD referenceTools debug output (lineBasisCn d) (quadBasisCn d) e 0
      = (Except.ok (), withBlock output (d - 1)
          (fun r c => if r + c + 2 = d then 1 else 0)) := by
  have hp := cn_directed d hd e (by omega)
  have hdir : quadEdgeDirection e = 1 := by
    rcases he with h | h <;> subst h <;> rfl
  rw [hdir] at hp
  have hJ := reversal_mul_self d (fun j i : Fin (d - 1) => if j.val + i.val + 2 = d then 1 else 0)
    (fun _ _ => rfl)
  rw [solution_of_directed hp debug 0 (Or.inl rfl)
    (fun j i : Fin (d - 1) => if j.val + i.val + 2 = d then 1 else 0) 1
    (fun j i : Fin (d - 1) => if j.val + i.val + 2 = d then 1 else 0)
    (fun j i => by
      rw [cn_line_value d hd 1 (Or.inr rfl) i.val j.val i.isLt j.isLt, if_neg (by norm_num)])
    (fun j i => by
      rw [cn_line_value d hd 0 (Or.inl rfl) i.val j.val i.isLt j.isLt, if_pos rfl,
        Matrix.one_apply]
      by_cases h : j = i
      · rw [if_pos h, if_pos (by rw [h])]
      · rw [if_neg h, if_neg (fun h2 => h (Fin.ext h2))])
    hJ output hroom]
  congr 1
  apply withBlock_congr
  intro r c hr hc2
  simp [View2.ofMatrix, hr, hc2]

/-- C2, as stated, fails: the degree-5 line and quadrilateral bases are a consistent
pairing of matching degree (on edge 0 the traces agree with the line functions), the call
on edge 2 of the same pairing is well-formed, and with orientation code 0 it returns
normally and writes the reversal permutation, whose entry `(0, 0)` is `0` and whose entry
`(0, 3)` is `1`: not the identity. -/
theorem edge_coeff_identity_fails_on_reversed_edge :
    ConsistentPairing referenceTools (lineBasisCn 5) (quadBasisCn 5) 0 4 (edgeLattice 5)
      (edgeCellPoints 5) ∧
    (lineBasisCn 5).getDegree = (quadBasisCn 5).getDegree ∧
    EdgeSetup referenceTools (lineBasisCn 5) (quadBasisCn 5) 2 4 (edgeLattice 5)
      (edgeCellPointsOn 5 2) ∧
    (∃ out : View2,
      getEdgeCoeffMatrix_HGRAD referenceTools false (View2.zeros 4 4) (lineBasisCn 5)
        (quadBasisCn 5) 2 0 = (Except.ok (), out) ∧
      out.val 0 0 = 0 ∧ out.val 0 3 = 1 ∧
      out ≠ withBlock (View2.zeros 4 4) 4 (fun r c => if r = c then 1 else 0)) := by
  refine ⟨cn_consistent 5 (by norm_num), rfl, cn_setup_on 5 (by norm_num) 2 (by norm_num),
    _, cn_code_zero_reversed 5 (by norm_num) 2 (Or.inl rfl) false (View2.zeros 4 4)
      ⟨le_rfl, le_rfl⟩, ?_, ?_, ?_⟩
  · simp [withBlock, View2.fill]
  · simp [withBlock, View2.fill]
  · intro h
    have h2 := congrArg (fun v : View2 => v.val 0 0) h
    simp [withBlock, View2.fill] at h2

/-- C3: for every consistent pairing and edge id, over a lattice that is symmetric about
the origin (as the equispaced lattice is), the matrix `X1` that `getEdgeCoeffMatrix_HGRAD`
writes for orientation code 1 is an involution: `X1 · X1` is the `n × n` identity.  The
pairing is consistent on the edge in either direction (`DirectedPairing`): the cell basis
may number the DOFs of the edge along the edge (`c = 0`, as on the edges 0 and 1 of the
quadrilateral) or against it (`c = 1`, as on the edges 2 and 3). -/
theorem edge_coeff_reversal_involution (tools : PointTools) (lineBasis cellBasis : Basis)
    (edgeId : Int) (n : Nat) (L P : View2) (c : Int)
    (hc : DirectedPairing tools lineBasis cellBasis edgeId n L P c)
    (hsym : SymmetricLattice n L) (debug : Bool)
    (output : View2) (hroom : n ≤ output.extent0 ∧ n ≤ output.extent1) :
    ∃ X1 : Nat → Nat → ℚ,
      getEdgeCoeffMatrix_HGRAD tools debug output lineBasis cellBasis edgeId 1 =
        (Except.ok (), withBlock output n X1) ∧
      ∀ i k, i < n → k < n →
        ∑ m in Finset.range n, X1 i m * X1 m k = if i = k then 1 else 0 := by
  rcases hc.direction with h0 | h1
  · subst h0
    exact involution_of_consistent hc.consistent hsym debug output hroom
  · subst h1
    refine ⟨fun r c => if r = c then 1 else 0, identity_of_directed hc debug output hroom, ?_⟩
    intro i k hi hk
    simp only [ite_mul, one_mul, zero_mul]
    rw [Finset.sum_ite_eq]
    simp [hi]

/-- Witness of C3: the degree-5 line and quadrilateral bases on edge 2, where the DOFs of
the edge are numbered against its direction. -/
theorem edge_coeff_reversal_involution_witness :
    DirectedPairing referenceTools (lineBasisCn 5) (quadBasisCn 5) 2 4 (edgeLattice 5)
      (edgeCellPointsOn 5 2) 1 ∧
    SymmetricLattice 4 (edgeLattice 5) ∧
    (4 ≤ (View2.zeros 4 4).extent0 ∧ 4 ≤ (View2.zeros 4 4).extent1) ∧
    ∃ X1 : Nat → Nat → ℚ,
      getEdgeCoeffMatrix_HGRAD referenceTools false (View2.zeros 4 4) (lineBasisCn 5)
          (quadBasisCn 5) 2 1 =
        (Except.ok (), withBlock (View2.zeros 4 4) 4 X1) ∧
      ∀ i k, i < 4 → k < 4 →
        ∑ m in Finset.range 4, X1 i m * X1 m k = if i = k then 1 else 0 :=
  ⟨cn_directed 5 (by norm_num) 2 (by norm_num), edgeLattice_symmetric 5 (by norm_num),
   ⟨le_rfl, le_rfl⟩,
   edge_coeff_reversal_involution referenceTools (lineBasisCn 5) (quadBasisCn 5) 2 4
     (edgeLattice 5) (edgeCellPointsOn 5 2) 1 (cn_directed 5 (by norm_num) 2 (by norm_num))
     (edgeLattice_symmetric 5 (by norm_num)) false (View2.zeros 4 4) ⟨le_rfl, le_rfl⟩⟩

end Intrepid2

namespace Intrepid2

/-- The roundings that occur in the elimination of the matrix with the rows `(1, 1)` and
`(49, 49)`: `1 / 49` is not a `double`, and the product of its rounded value with `49` is
rounded to the `double` below `1`. -/
theorem roundDouble_samples :
    roundDouble 1 = 1 ∧ roundDouble 49 = 49 ∧ roundDouble (-49) = -49 ∧
    roundDouble (1 / 49) = 5882252574524729 / 288230376151711744 ∧
    roundDouble (5882252574524729 / 288230376151711744 * 49)
      = 9007199254740991 / 9007199254740992 ∧
    roundDouble (1 - 9007199254740991 / 9007199254740992) = 1 / 9007199254740992 ∧
    roundDouble (1 / 3) = 6004799503160661 / 18014398509481984 := by
  decide!

namespace Lapack

/-- Without rounding the elimination is the exact one. -/
theorem eliminateWith_id {n : Nat} (r k : Nat) (A B : Mat n) :
    eliminateWith id r k A B = eliminate r k A B := by
  induction r generalizing k A B with
  | zero => rfl
  | succ r ih =>
    rw [eliminateWith, eliminate]
    by_cases h : k < n
    · rw [dif_pos h, dif_pos h]
      by_cases hp : A (pivotRow A ⟨k, h⟩) ⟨k, h⟩ = 0
      · simp only [hp, if_true]
      · simp only [hp, if_false]
        exact ih _ _ _
    · rw [dif_neg h, dif_neg h]

/-- Without rounding the solver is the exact one. -/
theorem GESVWith_id (n : Nat) (A B : View2) : GESVWith id n A B = GESV n A B := by
  unfold GESVWith GESV
  rw [eliminateWith_id]

/-- The solver reads the leading blocks only: with `info = 0` it answers the transformed
right-hand side. -/
theorem GESVWith_of_blocks (fl : ℚ → ℚ) (n : Nat) (A B : View2) (MA MB : Mat n)
    (hA : View2.block n A = MA) (hB : View2.block n B = MB)
    (h0 : (eliminateWith fl n 0 MA MB).1 = 0) :
    GESVWith fl n A B = (0, View2.ofMatrix n (eliminateWith fl n 0 MA MB).2) := by
  unfold GESVWith
  rw [hA, hB]
  simp only [h0, if_true]

end Lapack

/-- The function with the exact solver as its solver is `getEdgeCoeffMatrix_HGRAD`. -/
theorem getEdgeCoeffMatrix_HGRAD_with_exact (tools : PointTools) (debug : Bool)
    (output : View2) (lineBasis cellBasis : Basis) (edgeId edgeOrt : Int) :
    getEdgeCoeffMatrix_HGRAD_with Lapack.GESV tools debug output lineBasis cellBasis edgeId
        edgeOrt
      = getEdgeCoeffMatrix_HGRAD tools debug output lineBasis cellBasis edgeId edgeOrt := rfl

/-- The call after a successful assembly, for any solver: the test of `info` and the
copy. -/
theorem getEdgeCoeffMatrix_HGRAD_with_of_ok (solver : Nat → View2 → View2 → Int × View2)
    {tools : PointTools} {debug : Bool} (output : View2) {lineBasis cellBasis : Basis}
    {edgeId edgeOrt : Int} {w : EdgeWork}
    (h : edgeCoeffAssemble tools debug lineBasis cellBasis edgeId edgeOrt = Except.ok w) :
    getEdgeCoeffMatrix_HGRAD_with solver tools debug output lineBasis cellBasis edgeId edgeOrt
      = if (solver w.ndofEdge w.refMat w.ortMat).1 ≠ 0 then
          (Except.error (Failure.runtime_error (solver w.ndofEdge w.refMat w.ortMat).1),
            output)
        else if w.ndofEdge ≤ output.extent0 ∧ w.ndofEdge ≤ output.extent1 then
          (Except.ok (), withBlock output w.ndofEdge
            (solver w.ndofEdge w.refMat w.ortMat).2.val)
        else (Except.error Failure.subview_bounds, output) := by
  unfold getEdgeCoeffMatrix_HGRAD_with
  rw [h]
  simp only [edgeCoeffSolveWith]
  by_cases hinfo : (solver w.ndofEdge w.refMat w.ortMat).1 ≠ 0
  · rw [if_pos hinfo, if_pos hinfo]
  · rw [if_neg hinfo, if_neg hinfo]
    simp only [copyToSubview]
    by_cases hroom : w.ndofEdge ≤ output.extent0 ∧ w.ndofEdge ≤ output.extent1
    · rw [if_pos hroom, if_pos hroom]; rfl
    · rw [if_neg hroom, if_neg hroom]

/-- The call after a failed assembly, for any solver: the configuration error. -/
theorem getEdgeCoeffMatrix_HGRAD_with_of_error (solver : Nat → View2 → View2 → Int × View2)
    {tools : PointTools} {debug : Bool} (output : View2) {lineBasis cellBasis : Basis}
    {edgeId edgeOrt : Int} {e : Failure}
    (h : edgeCoeffAssemble tools debug lineBasis cellBasis edgeId edgeOrt = Except.error e) :
    getEdgeCoeffMatrix_HGRAD_with solver tools debug output lineBasis cellBasis edgeId edgeOrt
      = (Except.error Failure.logic_error, output) := by
  have he := edgeCoeffAssemble_error _ _ _ _ _ _ _ h
  subst he
  unfold getEdgeCoeffMatrix_HGRAD_with
  rw [h]

theorem twin_setup :
    EdgeSetup referenceTools (lineBasisCn 3) twinBasis 0 2 (edgeLattice 3)
      (edgeCellPoints 3) where
  line := rfl
  ndof := (cn_setup 3 (by norm_num)).ndof
  lattice := (cn_setup 3 (by norm_num)).lattice
  subcell := (cn_setup 3 (by norm_num)).subcell
  dofs := (cn_setup 3 (by norm_num)).dofs

/-- The call on the twin basis assembles the matrix with the rows `(1, 1)` and `(49, 49)`
and the identity as the right-hand side. -/
theorem twin_assembles (debug : Bool) :
    ∃ w, edgeCoeffAssemble referenceTools debug (lineBasisCn 3) twinBasis 0 0 = Except.ok w ∧
      w.ndofEdge = 2 ∧
      (∀ j i, j < 2 → i < 2 → w.refMat.val j i = if j = 0 then 1 else 49) ∧
      (∀ j i, j < 2 → i < 2 → w.ortMat.val j i = if j = i then 1 else 0) := by
  obtain ⟨w, hw, hn, hV, hW⟩ := twin_setup.setup_entries debug (fun _ => rfl) 0 (Or.inl rfl)
  refine ⟨w, (edgeCoeffAssemble_ok_iff _ _ _ _ _ _ w).mpr hw, hn, ?_, ?_⟩
  · intro j i hj hi
    rw [hV j i hj hi]
    have hrowP : (edgeCellPoints 3).row j = [(edgeLattice 3).val j 0, -1] := by
      simp [View2.row, edgeCellPoints, View2.fill, View2.zeros, List.range_succ]
    rw [hrowP, edgeLattice_val 3 j hj]
    show (if equispacedPoint 3 (j + 1) < 0 then (1 : ℚ) else 49) = _
    have hj2 : j = 0 ∨ j = 1 := by omega
    rcases hj2 with h | h <;> subst h <;> norm_num [equispacedPoint]
  · intro j i hj hi
    rw [hW j i hj hi]
    have := cn_line_value 3 (by norm_num) 0 (Or.inl rfl) i j hi hj
    rw [if_pos rfl] at this ⊢
    rw [if_pos rfl] at this
    exact this

/-- The two eliminations of the matrix with the rows `(1, 1)` and `(49, 49)`: in exact
arithmetic the second pivot is zero (`info = 2`); in the arithmetic of `double` the second
pivot is `2 ^ (-53)`, the elimination runs to its end (`info = 0`) and answers entries of
the size of `2 ^ 53`. -/
theorem twin_elimination :
    (Lapack.eliminate 2 0 (fun i _ : Fin 2 => if i.val = 0 then (1 : ℚ) else 49) 1).1 = 2 ∧
    (Lapack.eliminateWith roundDouble 2 0
      (fun i _ : Fin 2 => if i.val = 0 then 1 else 49) 1).1 = 0 ∧
    (Lapack.eliminateWith roundDouble 2 0
      (fun i _ : Fin 2 => if i.val = 0 then 1 else 49) 1).2 1 0 = 9007199254740992 := by
  decide!

end Intrepid2

namespace Intrepid2

/-- C7, as stated, fails on a floating `value_type`: the call on the twin basis (edge 0,
orientation 0) assembles the collocation matrix `Ref` with the rows `(1, 1)` and
`(49, 49)`, which is singular; the exact solver reports `info ≠ 0`, but the solver in the
arithmetic of `double` reports `info = 0`, and the call with that solver returns normally
and writes a matrix, with the entry `2 ^ 53` at `(1, 0)`, instead of raising the numerical
failure. -/
theorem edge_coeff_singular_undetected_in_double :
    ∃ w : EdgeWork,
      edgeCoeffAssemble referenceTools false (lineBasisCn 3) twinBasis 0 0 = Except.ok w ∧
      w.ndofEdge = 2 ∧
      (w.refMat.val 0 0 = 1 ∧ w.refMat.val 0 1 = 1 ∧ w.refMat.val 1 0 = 49 ∧
        w.refMat.val 1 1 = 49) ∧
      (View2.block w.ndofEdge w.refMat).det = 0 ∧
      (Lapack.GESV w.ndofEdge w.refMat w.ortMat).1 ≠ 0 ∧
      (Lapack.GESVWith roundDouble w.ndofEdge w.refMat w.ortMat).1 = 0 ∧
      ∃ out : View2,
        getEdgeCoeffMatrix_HGRAD_with (Lapack.GESVWith roundDouble) referenceTools false
          (View2.zeros 2 2) (lineBasisCn 3) twinBasis 0 0 = (Except.ok (), out) ∧
        out.val 1 0 = 9007199254740992 := by
  obtain ⟨⟨n, a, b, c, d, e, R, O⟩, hA, hn, hV, hW⟩ := twin_assembles false
  simp only at hn hV hW
  subst hn
  have hR : View2.block 2 R = fun i _ : Fin 2 => if i.val = 0 then (1 : ℚ) else 49 :=
    block_ext _ _ _ (fun j k hj hk => hV j k hj hk)
  have hO : View2.block 2 O = 1 :=
    block_ext _ _ _ (fun j k hj hk => by
      rw [hW j k hj hk, Matrix.one_apply]
      simp only [Fin.mk.injEq])
  have hdet : (View2.block 2 R).det = 0 := by
    rw [hR, Matrix.det_fin_two]
    simp
  have hG := Lapack.GESVWith_of_blocks roundDouble 2 R O _ _ hR hO twin_elimination.2.1
  refine ⟨_, hA, rfl, ⟨hV 0 0 (by norm_num) (by norm_num), hV 0 1 (by norm_num) (by norm_num),
    hV 1 0 (by norm_num) (by norm_num), hV 1 1 (by norm_num) (by norm_num)⟩, hdet, ?_, ?_,
    ?_⟩
  · exact fun h0 => ((Lapack.GESV_spec 2 R O).1.mp h0) hdet
  · show (Lapack.GESVWith roundDouble 2 R O).1 = 0
    rw [hG]
  · refine ⟨withBlock (View2.zeros 2 2) 2 (View2.ofMatrix 2 (Lapack.eliminateWith roundDouble
      2 0 (fun i _ : Fin 2 => if i.val = 0 then 1 else 49) 1).2).val, ?_, ?_⟩
    · rw [getEdgeCoeffMatrix_HGRAD_with_of_ok _ _ hA]
      show (if (Lapack.GESVWith roundDouble 2 R O).1 ≠ 0 then _ else _) = _
      rw [hG, if_neg (by simp), if_pos ⟨le_rfl, le_rfl⟩]
    · rw [withBlock_val _ _ _ _ _ (by norm_num) (by norm_num)]
      simp only [View2.ofMatrix]
      rw [dif_pos ⟨by norm_num, by norm_num⟩]
      exact twin_elimination.2.2

/-- C7, amended: for every dense solver, `getEdgeCoeffMatrix_HGRAD` raises the numerical
failure (the `runtime_error` with the LAPACK code) exactly when the solver has been
entered and reports a non-zero `info`, and then `output` is untouched; for every input
whose assembled collocation matrix `Ref` is singular it raises that error, with `output`
untouched, instead of returning a matrix, whenever the solver reports every singular
matrix through a non-zero `info`, as the exact solver `Lapack.GESV` does. -/
theorem edge_coeff_numerical_failure (solver : Nat → View2 → View2 → Int × View2)
    (tools : PointTools) (debug : Bool) (output : View2)
    (lineBasis cellBasis : Basis) (edgeId edgeOrt : Int) :
    (∀ info : Int,
      (getEdgeCoeffMatrix_HGRAD_with solver tools debug output lineBasis cellBasis edgeId
          edgeOrt).1 = Except.error (Failure.runtime_error info) ↔
        ∃ w, edgeCoeffAssemble tools debug lineBasis cellBasis edgeId edgeOrt = Except.ok w ∧
          (solver w.ndofEdge w.refMat w.ortMat).1 = info ∧ info ≠ 0) ∧
    (∀ w, edgeCoeffAssemble tools debug lineBasis cellBasis edgeId edgeOrt = Except.ok w →
      (solver w.ndofEdge w.refMat w.ortMat).1 ≠ 0 →
      getEdgeCoeffMatrix_HGRAD_with solver tools debug output lineBasis cellBasis edgeId
          edgeOrt
        = (Except.error (Failure.runtime_error (solver w.ndofEdge w.refMat w.ortMat).1),
            output)) ∧
    ((∀ n A B, (View2.block n A).det = 0 → (solver n A B).1 ≠ 0) →
      ∀ w, edgeCoeffAssemble tools debug lineBasis cellBasis edgeId edgeOrt = Except.ok w →
        (View2.block w.ndofEdge w.refMat).det = 0 →
        ∃ info : Int, info ≠ 0 ∧
          getEdgeCoeffMatrix_HGRAD_with solver tools debug output lineBasis cellBasis edgeId
              edgeOrt
            = (Except.error (Failure.runtime_error info), output)) ∧
    (∀ n A B, (View2.block n A).det = 0 → (Lapack.GESV n A B).1 ≠ 0) := by
  refine ⟨?_, ?_, ?_, ?_⟩
  · intro info
    constructor
    · intro h
      cases hA : edgeCoeffAssemble tools debug lineBasis cellBasis edgeId edgeOrt with
      | error e =>
        rw [getEdgeCoeffMatrix_HGRAD_with_of_error solver output hA] at h
        simp at h
      | ok w =>
        rw [getEdgeCoeffMatrix_HGRAD_with_of_ok solver output hA] at h
        by_cases hinfo : (solver w.ndofEdge w.refMat w.ortMat).1 ≠ 0
        · rw [if_pos hinfo] at h
          simp only [Except.error.injEq, Failure.runtime_error.injEq] at h
          exact ⟨w, rfl, h, h ▸ hinfo⟩
        · rw [if_neg hinfo] at h
          by_cases hroom : w.ndofEdge ≤ output.extent0 ∧ w.ndofEdge ≤ output.extent1
          · rw [if_pos hroom] at h; simp at h
          · rw [if_neg hroom] at h; simp at h
    · rintro ⟨w, hA, hinfo, hne⟩
      rw [getEdgeCoeffMatrix_HGRAD_with_of_ok solver output hA, if_pos (hinfo ▸ hne), hinfo]
  · intro w hA hinfo
    rw [getEdgeCoeffMatrix_HGRAD_with_of_ok solver output hA, if_pos hinfo]
  · intro hsolver w hA hsing
    have hinfo := hsolver w.ndofEdge w.refMat w.ortMat hsing
    exact ⟨_, hinfo, by rw [getEdgeCoeffMatrix_HGRAD_with_of_ok solver output hA, if_pos hinfo]⟩
  · intro n A B hsing h0
    exact ((Lapack.GESV_spec n A B).1.mp h0) hsing

/-- Witness of C7: with the exact solver, the degenerate cell basis, whose collocation
matrix is the zero matrix of order 1, makes the call fail with the numerical failure. -/
theorem edge_coeff_numerical_failure_witness :
    ∃ info : Int, info ≠ 0 ∧
      getEdgeCoeffMatrix_HGRAD_with Lapack.GESV referenceTools true (View2.zeros 1 1)
          (lineBasisCn 2) degenerateBasis 0 0
        = (Except.error (Failure.runtime_error info), View2.zeros 1 1) := by
  obtain ⟨w, hw, hsing⟩ := singular_of_setup degenerate_setup true (fun _ => rfl) 0
    (Or.inl rfl) (by
      rw [Matrix.det_unique]
      rfl)
  have h := edge_coeff_numerical_failure Lapack.GESV referenceTools true (View2.zeros 1 1)
    (lineBasisCn 2) degenerateBasis 0 0
  exact h.2.2.1 h.2.2.2 w ((edgeCoeffAssemble_ok_iff _ _ _ _ _ _ w).mpr hw) hsing

end Intrepid2

namespace Zoltan2
namespace UserInputForTests

variable {X XG XV : Type}

/-- C27, as stated, fails when `TEST_FAIL_AND_THROW` returns: on the object made from the
file `"missing.mtx"`, which the reader cannot open, the first call of `getTpetraCrsMatrix`
returns normally, with a null matrix and `M_` still null, after one read of the file; the
second call of `getTpetraCrsMatrix` reads the file again. -/
theorem matrix_read_again_after_silent_failure :
    Reachable lenientCollaborators (ofFile "missing.mtx" : UserInputForTests Unit) ∧
    (call lenientCollaborators Getter.getTpetraCrsMatrix
      (ofFile "missing.mtx" : UserInputForTests Unit)).1 = Except.ok () ∧
    (getTpetraCrsMatrix lenientCollaborators
      (ofFile "missing.mtx" : UserInputForTests Unit)).1 = Except.ok none ∧
    (call lenientCollaborators Getter.getTpetraCrsMatrix
      (ofFile "missing.mtx" : UserInputForTests Unit)).2.M_ = none ∧
    (call lenientCollaborators Getter.getTpetraCrsMatrix
      (ofFile "missing.mtx" : UserInputForTests Unit)).2.calls
      = [Event.readSparseFile "missing.mtx"] ∧
    (getTpetraCrsMatrix lenientCollaborators
      (call lenientCollaborators Getter.getTpetraCrsMatrix
        (ofFile "missing.mtx" : UserInputForTests Unit)).2).2.calls
      = [Event.readSparseFile "missing.mtx", Event.readSparseFile "missing.mtx"] :=
  ⟨Reachable.ofFile "missing.mtx", rfl, rfl, rfl, rfl, rfl⟩

/-- C27, amended: the generating matrix of `UserInputForTests` is created at most once:
after a call of any getter that leaves a matrix `m` in `M_`, whatever getters are called
later, every later call of `getTpetraCrsMatrix` returns `m` (the matrix of the first call,
if that was a successful call of `getTpetraCrsMatrix`), and the object performs no further
file read or gallery build (`createMatrix` does nothing once `M_` is non-null).  A
successful call of a getter on a reachable object leaves a matrix in `M_` when the
collaborators keep their contracts (`TEST_FAIL_AND_THROW` throws, the reader and the
gallery return a matrix when they return). -/
theorem user_input_matrix_created_once (env : Collaborators X XG XV)
    (s : UserInputForTests X) (g : Getter) :
    (∀ m, (call env g s).2.M_ = some m → ∀ gs : List Getter,
      ((call env g s).1 = Except.ok () → g = Getter.getTpetraCrsMatrix →
        (getTpetraCrsMatrix env s).1 = Except.ok (some m)) ∧
      getTpetraCrsMatrix env (run env gs (call env g s).2)
        = (Except.ok (some m), run env gs (call env g s).2) ∧
      createMatrix env (run env gs (call env g s).2)
        = (Except.ok (), run env gs (call env g s).2) ∧
      (run env gs (call env g s).2).calls = (call env g s).2.calls) ∧
    (Dependable env → Reachable env s → (call env g s).1 = Except.ok () →
      ∃ m, (call env g s).2.M_ = some m) := by
  constructor
  · intro m hm gs
    have hM : (call env g s).2.M_ ≠ none := by rw [hm]; simp
    obtain ⟨eM, eG, hrun⟩ := run_with_matrix env gs (call env g s).2 hM
    have hm2 : (run env gs (call env g s).2).M_ = some m := by rw [hrun]; exact hm
    refine ⟨?_, getTpetraCrsMatrix_with_matrix env _ m hm2,
      createMatrix_idempotent env _ (by rw [hm2]; simp), by rw [hrun]⟩
    intro hcall hg
    subst hg
    have h1 : (getTpetraCrsMatrix env s).2.M_ = some m := hm
    unfold getTpetraCrsMatrix at h1 ⊢
    rcases he : ensureTpetra env s with ⟨e | _, s1⟩
    · have h2 : (call env Getter.getTpetraCrsMatrix s).1 = Except.error e := by
        simp only [call, outcome, getTpetraCrsMatrix, he]
      rw [h2] at hcall
      cases hcall
    · rw [he] at h1
      simp only at h1 ⊢
      rw [h1]
  · intro hd hs hcall
    exact Option.ne_none_iff_exists'.mp
      (call_ok_matrix env hd g s (reachable_ordered env hd s hs) hcall)

/-- Witness of C27 (amended): the object made from the file `"A.mtx"` with the sample
collaborators; the first call is `getXpetraCrsGraph`, which leaves `sampleMatrix` in `M_`,
the later calls are `getTpetraVector` and `getEpetraCrsMatrix`. -/
theorem user_input_matrix_created_once_witness :
    (call sampleCollaborators Getter.getXpetraCrsGraph
      (ofFile "A.mtx" : UserInputForTests Unit)).2.M_ = some sampleMatrix ∧
    getTpetraCrsMatrix sampleCollaborators
        (run sampleCollaborators [Getter.getTpetraVector, Getter.getEpetraCrsMatrix]
          (call sampleCollaborators Getter.getXpetraCrsGraph (ofFile "A.mtx")).2)
      = (Except.ok (some sampleMatrix),
        run sampleCollaborators [Getter.getTpetraVector, Getter.getEpetraCrsMatrix]
          (call sampleCollaborators Getter.getXpetraCrsGraph (ofFile "A.mtx")).2) ∧
    (run sampleCollaborators [Getter.getTpetraVector, Getter.getEpetraCrsMatrix]
        (call sampleCollaborators Getter.getXpetraCrsGraph (ofFile "A.mtx")).2).calls
      = (call sampleCollaborators Getter.getXpetraCrsGraph
          (ofFile "A.mtx" : UserInputForTests Unit)).2.calls ∧
    ∃ m, (call sampleCollaborators Getter.getXpetraCrsGraph
      (ofFile "A.mtx" : UserInputForTests Unit)).2.M_ = some m :=
  ⟨rfl,
    ((user_input_matrix_created_once sampleCollaborators (ofFile "A.mtx")
      Getter.getXpetraCrsGraph).1 sampleMatrix rfl
      [Getter.getTpetraVector, Getter.getEpetraCrsMatrix]).2.1,
    ((user_input_matrix_created_once sampleCollaborators (ofFile "A.mtx")
      Getter.getXpetraCrsGraph).1 sampleMatrix rfl
      [Getter.getTpetraVector, Getter.getEpetraCrsMatrix]).2.2.2,
    (user_input_matrix_created_once sampleCollaborators (ofFile "A.mtx")
      Getter.getXpetraCrsGraph).2 sample_dependable (Reachable.ofFile "A.mtx") rfl⟩

/-- C28, as stated, fails, in four ways.  (a) The conversion to Xpetra runs between the
assignments of `M_` and `xM_` and is not guarded: with a conversion that throws (and
collaborators that otherwise keep their contracts), the first call of `getXpetraCrsMatrix`
on the object made from the file `"A.mtx"` leaves by the exception with `M_` set and `xM_`
null, and the second call returns normally a null matrix.  (b) With a
`TEST_FAIL_AND_THROW` that returns (a conversion that returns wrappers, a reader and a
gallery that return matrices when they return), `getXpetraCrsMatrix` on the object made
from the file `"missing.mtx"` returns normally a null matrix.  (c) With a reader that
returns a null matrix (a `TEST_FAIL_AND_THROW` that throws, a conversion that returns
wrappers), `getXpetraCrsMatrix` on the object made from the file `"A.mtx"` returns
normally a null matrix.  (d) With a `TEST_FAIL_AND_THROW` that returns and a conversion
that wraps a null matrix in a wrapper, a call of `getXpetraCrsMatrix` on the object made
from the file `"missing.mtx"` leaves `M_` null and `xM_` non-null. -/
theorem wrapper_null_after_failed_conversion :
    (Dependable exhaustedCollaborators ∧
      Reachable exhaustedCollaborators
        (call exhaustedCollaborators Getter.getXpetraCrsMatrix
          (ofFile "A.mtx" : UserInputForTests Unit)).2 ∧
      (getXpetraCrsMatrix exhaustedCollaborators
        (ofFile "A.mtx" : UserInputForTests Unit)).1
        = Except.error (TestFailure.runtime_error "std::bad_alloc") ∧
      (call exhaustedCollaborators Getter.getXpetraCrsMatrix
        (ofFile "A.mtx" : UserInputForTests Unit)).2.M_.isSome = true ∧
      (call exhaustedCollaborators Getter.getXpetraCrsMatrix
        (ofFile "A.mtx" : UserInputForTests Unit)).2.xM_ = none ∧
      (getXpetraCrsMatrix exhaustedCollaborators
        (call exhaustedCollaborators Getter.getXpetraCrsMatrix
          (ofFile "A.mtx" : UserInputForTests Unit)).2).1 = Except.ok none) ∧
    (Converts lenientCollaborators ∧
      (∀ fname, lenientCollaborators.readSparseFile fname ≠ Except.ok none) ∧
      (∀ matrixType x y z,
        lenientCollaborators.CreateCrsMatrix matrixType x y z ≠ Except.ok none) ∧
      Reachable lenientCollaborators (ofFile "missing.mtx" : UserInputForTests Unit) ∧
      (getXpetraCrsMatrix lenientCollaborators
        (ofFile "missing.mtx" : UserInputForTests Unit)).1 = Except.ok none) ∧
    (Converts emptyCollaborators ∧
      (∀ what, ∃ e, emptyCollaborators.TEST_FAIL_AND_THROW 1 what = Except.error e) ∧
      (∀ matrixType x y z,
        emptyCollaborators.CreateCrsMatrix matrixType x y z ≠ Except.ok none) ∧
      Reachable emptyCollaborators (ofFile "A.mtx" : UserInputForTests Unit) ∧
      (getXpetraCrsMatrix emptyCollaborators
        (ofFile "A.mtx" : UserInputForTests Unit)).1 = Except.ok none) ∧
    (Converts wrappingCollaborators ∧
      (∀ fname, wrappingCollaborators.readSparseFile fname ≠ Except.ok none) ∧
      (∀ matrixType x y z,
        wrappingCollaborators.CreateCrsMatrix matrixType x y z ≠ Except.ok none) ∧
      Reachable wrappingCollaborators
        (call wrappingCollaborators Getter.getXpetraCrsMatrix
          (ofFile "missing.mtx" : UserInputForTests Unit)).2 ∧
      (call wrappingCollaborators Getter.getXpetraCrsMatrix
        (ofFile "missing.mtx" : UserInputForTests Unit)).2.M_ = none ∧
      (call wrappingCollaborators Getter.getXpetraCrsMatrix
        (ofFile "missing.mtx" : UserInputForTests Unit)).2.xM_ = some ()) :=
  ⟨⟨⟨sample_dependable.throws, sample_dependable.read, sample_dependable.built⟩,
      Reachable.call _ _ (Reachable.ofFile "A.mtx"), rfl, rfl, rfl, rfl⟩,
    ⟨fun _ => ⟨(), rfl⟩, sample_dependable.read, sample_dependable.built,
      Reachable.ofFile "missing.mtx", rfl⟩,
    ⟨fun _ => ⟨(), rfl⟩, sample_dependable.throws, sample_dependable.built,
      Reachable.ofFile "A.mtx", rfl⟩,
    ⟨fun _ => ⟨(), rfl⟩, sample_dependable.read, sample_dependable.built,
      Reachable.call _ _ (Reachable.ofFile "missing.mtx"), rfl, rfl⟩⟩

end UserInputForTests

end Zoltan2

namespace Zoltan2
namespace UserInputForTests

/-- C29: the code diverges from the claim for a row map whose index base is not 0: it
reads the local row `i + base` of the Tpetra graph while it indexes `gids` and `rowSize`
by `i`.  The reader returns the matrix `[[2, 0], [-1, 2]]` with the global ids 1 and 2 and
index base 1; `getEpetraCrsGraph` returns normally, and the Epetra row with global id
`gids[0] = 1` has received the two columns `1, 2` of local row 1 with the declared size
`rowSize[0] = 2`, while local row 0 of the Tpetra graph has the one column `1`. -/
theorem epetra_graph_shifted_by_base :
    Consistent shiftedMatrix ∧
    shiftedMatrix.getCrsGraph.getRowMap.getIndexBase = 1 ∧
    shiftedMatrix.getCrsGraph.getRowMap.getNodeElementList = [1, 2] ∧
    (call shiftedCollaborators Getter.getEpetraCrsGraph
      (ofFile "B.mtx" : UserInputForTests Unit)).1 = Except.ok () ∧
    (getEpetraCrsGraph shiftedCollaborators
      (ofFile "B.mtx" : UserInputForTests Unit)).2.eG_.map
        (fun eG => eG.inserted) = some [(1, 2, [1, 2]), (2, 0, [])] ∧
    (fillEpetraCrsGraph shiftedMatrix).1 = Except.ok () ∧
    (fillEpetraCrsGraph shiftedMatrix).2.map (fun eG => eG.inserted)
      = some [(1, 2, [1, 2]), (2, 0, [])] ∧
    (fillEpetraCrsGraph shiftedMatrix).2.map (fun eG => eG.NumIndicesPerRow) = some [2, 0] ∧
    (shiftedMatrix.getCrsGraph.getLocalRowView 0).map
      shiftedMatrix.getCrsGraph.getColMap.getGlobalElement = [1] ∧
    shiftedMatrix.getNumEntriesInLocalRow 0 = 1 :=
  ⟨shifted_consistent, rfl, rfl, rfl, by decide, rfl, by decide, by decide, by decide, rfl⟩

end UserInputForTests
end Zoltan2
